import Mathlib

/-!
# Sega Z80-3D video (turbo_v.cpp) and Micom XE-1A controller (micomxe1a.cpp)

A shallow embedding of the sprite preparation, the per-pixel sprite sampler and
the compositor of the three boards (Turbo, Subroc 3D, Buck Rogers), of the
sprite expansion table, and of the controller protocol engine, with the
properties proved about them.

Machine integers are natural numbers; a store into a `u8`, `u16` or `u32`
location is written with an explicit `% 2^w`.  Arrays are functions from the
index to the element.
-/

/-! ## Bit helpers (emu.h) -/

/-- The macro `BIT(x, n)`: bit `n` of `x`, as 0 or 1. -/
def BIT (x n : Nat) : Nat := (x >>> n) &&& 1

/-- The macro `BIT(x, n, w)`: the `w`-bit field of `x` that starts at bit `n`. -/
def BITW (x n w : Nat) : Nat := (x >>> n) &&& (2 ^ w - 1)

/-- Array store `a[i] = v`. -/
def store (a : Nat → Nat) (i v : Nat) : Nat → Nat :=
  fun j => if j = i then v else a j

/-! ## Controller protocol engine (micomxe1a.cpp) -/

namespace micom_xe_1a_device

/-- The device members.  `m_output_timer` is `some p` while the output timer is
scheduled to call `step_output` with parameter `p`, and `none` while it is idle. -/
structure Dev where
  m_req : Nat
  m_mode : Nat
  m_interface : Nat
  m_data : Nat → Nat
  m_out : Nat
  m_output_timer : Option Nat

/-- The constructor's member initialisers followed by `device_start`. -/
def power_on : Dev :=
  { m_req := 1, m_mode := 1, m_interface := 0, m_data := fun _ => 0x00,
    m_out := 0x2f, m_output_timer := none }

/-- The value of `std::size(m_data)`. -/
def data_size : Nat := 6

/-- The function `out_r`, with `buttons` the value of the button callback and `analog` the
analog callback at the time of the read. -/
def out_r (s : Dev) (buttons : Nat) (analog : Nat → Nat) : Nat :=
  if s.m_mode ≠ 0 then
    s.m_out
  else
    if s.m_interface ≠ 0 then
      let y := analog 0
      if s.m_req ≠ 0 then
        let x := analog 1
        ((if 0x40 ≤ y then 0x01 else 0x00) |||
         (if 0xc0 > y then 0x02 else 0x00) |||
         (if 0x40 ≤ x then 0x04 else 0x00) |||
         (if 0xc0 > x then 0x08 else 0x00) |||
         ((BIT buttons 2 &&& BIT buttons 8) <<< 4) |||
         (BIT buttons 1 <<< 5)) % 256
      else
        ((if 0x40 ≤ y then 0x01 else 0x00) |||
         (if 0xc0 > y then 0x02 else 0x00) |||
         ((BIT buttons 3 &&& BIT buttons 9) <<< 4) |||
         (BIT buttons 5 <<< 5)) % 256
    else
      if s.m_req ≠ 0 then
        let z := analog 2
        ((if 0xc0 > z then 0x01 else 0x00) |||
         (if 0x40 ≤ z then 0x02 else 0x00) |||
         (BIT buttons 1 <<< 2) |||
         (BIT buttons 0 <<< 3) |||
         (BIT buttons 7 <<< 4) |||
         (BIT buttons 6 <<< 5)) % 256
      else
        let y := analog 0
        let x := analog 1
        ((if BIT buttons 4 ≠ 0 ∧ 0x40 ≤ y then 0x01 else 0x00) |||
         (if BIT buttons 4 ≠ 0 ∧ 0xc0 > y then 0x02 else 0x00) |||
         (if BIT buttons 5 ≠ 0 ∧ 0x40 ≤ x then 0x04 else 0x00) |||
         (if BIT buttons 5 ≠ 0 ∧ 0xc0 > x then 0x08 else 0x00) |||
         ((BIT buttons 3 &&& BIT buttons 9) <<< 4) |||
         ((BIT buttons 2 &&& BIT buttons 8) <<< 5)) % 256

/-- The "pack data" block of `req_w`: the six stores into `m_data`. -/
def pack_data (m_data : Nat → Nat) (buttons : Nat) (analog : Nat → Nat) : Nat → Nat :=
  let d0 := store m_data 0 ((BITW buttons 0 8 &&& ((BITW buttons 8 2 <<< 2) ||| 0xf3)) % 256)
  let d1 := store d0 1 ((BITW (analog 0) 4 4 ||| (BITW (analog 1) 4 4 <<< 4)) % 256)
  let d2 := store d1 2 ((BITW (analog 2) 4 4 ||| (BITW (analog 3) 4 4 <<< 4)) % 256)
  let d3 := store d2 3 ((BITW (analog 0) 0 4 ||| (BITW (analog 1) 0 4 <<< 4)) % 256)
  let d4 := store d3 4 ((BITW (analog 2) 0 4 ||| (BITW (analog 3) 0 4 <<< 4)) % 256)
  store d4 5 ((BITW buttons 8 8 &&& ((BITW buttons 6 2 <<< 2) ||| 0xf3)) % 256)

/-- The function `req_w(state)`, with the callbacks' values at the time of the write. -/
def req_w (s : Dev) (state : Nat) (buttons : Nat) (analog : Nat → Nat) : Dev :=
  let req := if state ≠ 0 then 1 else 0
  if req ≠ s.m_req then
    let s1 :=
      if s.m_mode ≠ 0 then
        if req = 0 then
          { s with m_data := pack_data s.m_data buttons analog, m_output_timer := some 0 }
        else s
      else s
    { s1 with m_req := req }
  else s

/-- The function `mode_w(state)`. -/
def mode_w (s : Dev) (state : Nat) : Dev :=
  let mode := if state ≠ 0 then 1 else 0
  if mode ≠ s.m_mode then
    let s1 := if mode ≠ 0 then s else { s with m_output_timer := none, m_out := 0x2f }
    { s1 with m_mode := mode }
  else s

/-- The function `interface_w(state)`. -/
def interface_w (s : Dev) (state : Nat) : Dev :=
  { s with m_interface := if state ≠ 0 then 1 else 0 }

/-- The function `step_output(param)`, the timer callback. -/
def step_output (s : Dev) (param : Nat) : Dev :=
  let step := param >>> 1
  if BIT param 0 = 0 then
    let s1 := { s with m_out := ((s.m_out &&& 0x0f) ||| (if BIT step 0 ≠ 0 then 0x30 else 0x20)) % 256 }
    if data_size * 2 > step then
      { s1 with m_output_timer := some (param + 1) }
    else s1
  else
    if data_size * 2 > step then
      let nybble := step ^^^ s.m_interface
      let s1 :=
        if data_size * 2 > step then
          { s with m_out := (BITW (s.m_data (nybble >>> 1)) (if BIT nybble 0 ≠ 0 then 4 else 0) 4
                              ||| (s.m_out &&& 0x10)) % 256 }
        else
          { s with m_out := (0x0f ||| (s.m_out &&& 0x10)) % 256 }
      { s1 with m_output_timer := some (param + 1) }
    else s

/-- The guard of the branch of `step_output` that puts a nybble of `m_data` on
the data bits: an odd parameter whose step is below `2 * std::size(m_data)`. -/
def presents_nybble (param : Nat) : Bool :=
  decide (BIT param 0 ≠ 0) && decide (data_size * 2 > param >>> 1)

/-- The scheduler firing the output timer once: a scheduled one-shot timer
expires, so it is idle when its callback runs, and the callback may schedule it
again.  An idle timer does nothing. -/
def timer_fire (s : Dev) : Dev :=
  match s.m_output_timer with
  | none => s
  | some p => step_output { s with m_output_timer := none } p

/-- The parameters of the callbacks the timer performs from `s` until it is
idle, at most `fuel` of them. -/
def timer_trace : Nat → Dev → List Nat
  | 0, _ => []
  | fuel + 1, s =>
    match s.m_output_timer with
    | none => []
    | some p => p :: timer_trace fuel (timer_fire s)

/-- The state after the timer has fired `n` times. -/
def timer_run : Nat → Dev → Dev
  | 0, s => s
  | n + 1, s => timer_run n (timer_fire s)

/-- Nybble `k` of the packed buffer, as `step_output` reads it: the low half of
`m_data[k >> 1]` for even `k`, the high half for odd `k`. -/
def nybble_of (m_data : Nat → Nat) (k : Nat) : Nat :=
  BITW (m_data (k >>> 1)) (if BIT k 0 ≠ 0 then 4 else 0) 4

end micom_xe_1a_device

/-! ### Concrete controller states -/

namespace micom_xe_1a_device

/-- An analog callback with every axis at its midpoint `0x80`. -/
def centred : Nat → Nat := fun _ => 0x80

/-- Digital mode with `interface = 0` and `req = 0`, the rest as at power-on. -/
def digital_req0 : Dev := { power_on with m_mode := 0, m_req := 0 }

/-- The state a falling edge on Req leaves from power-on (analog mode), no
button pressed and the four axes at `0x80`. -/
def strobed : Dev := req_w power_on 0 0xffff centred

end micom_xe_1a_device

/-! ## Sprite handling (turbo_v.cpp) -/

/-- The table `sprite_expand`. -/
def sprite_expand : List Nat :=
  [0x00000000, 0x00000001, 0x00000100, 0x00000101,
   0x00010000, 0x00010001, 0x00010100, 0x00010101,
   0x01000000, 0x01000001, 0x01000100, 0x01000101,
   0x01010000, 0x01010001, 0x01010100, 0x01010101]

/-- The value `get_sprite_bits` stores into the `uint32_t` `latched[level]`:
`sprite_expand[pixdata & 0x0f] << level`. -/
def latch_value (pixdata level : Nat) : Nat :=
  (sprite_expand.getD (pixdata &&& 0x0f) 0 <<< level) % 2 ^ 32

/-- Modelled from the spec: the structure `sprite_info` of turbo.h, which is not
among the sources: the bitmasks `ve` and `lst` and the per-level arrays
`latched`, `plb`, `offset`, `frac` and `step`.  The widths are those the code
uses the members at: `ve` 16 bits (one per slot, ANDed with the `uint16_t` `he`),
`lst` 8 bits (one per level), the per-level words 32 bits, `plb` a byte. -/
structure sprite_info where
  ve : Nat
  lst : Nat
  latched : Nat → Nat
  plb : Nat → Nat
  offset : Nat → Nat
  frac : Nat → Nat
  step : Nat → Nat

/-- The machine state `prepare_sprites` works on: the sprite RAM
(`m_alt_spriteram` on Turbo, `m_spriteram` on the other boards; 16 slots of
8 bytes) and `m_sprite_info`. -/
structure Video where
  spriteram : Nat → Nat
  m_sprite_info : sprite_info

namespace turbo_state

/-- One iteration of the loop of `turbo_state::prepare_sprites`, for slot `sprnum`.
`m_proms` is the PROM region, `sprite_xscale` the value of
`sprite_xscale(dacinput, vr1, vr2, cext)` for the resistances and the capacitor
this board passes (a floating-point computation, taken as a parameter). -/
def prepare_sprite (m_proms : Nat → Nat) (sprite_xscale : Nat → Nat) (y : Nat)
    (v : Video) (sprnum : Nat) : Video :=
  let pr1119 := fun i => m_proms (0x200 + i)
  let rambase := fun i => v.spriteram (sprnum * 8 + i)
  let level := sprnum &&& 7
  let sum := (y + (rambase 0 ^^^ 0xff)) % 2 ^ 32
  let clo := ((sum >>> 8) &&& 1) % 256
  let sum := (sum + ((y <<< 8) + ((rambase 1 ^^^ 0xff) <<< 8))) % 2 ^ 32
  let chi := ((sum >>> 16) &&& 1) % 256
  if clo &&& (chi ^^^ 1) ≠ 0 then
    let xscale := rambase 2 ^^^ 0xff
    let yscale := rambase 3
    let offset := (rambase 6 + (rambase 7 <<< 8)) % 2 ^ 16
    let info := v.m_sprite_info
    let ve := (info.ve ||| (1 <<< sprnum)) % 2 ^ 16
    let offs := (sum &&& 0xff) ||| ((yscale &&& 0x08) <<< 5)
    let advance := (((pr1119 offs >>> (yscale &&& 0x07)) &&& 1) == 0)
    let offset := if advance then (offset + (rambase 4 + (rambase 5 <<< 8))) % 2 ^ 16 else offset
    let ram :=
      if advance then
        store (store v.spriteram (sprnum * 8 + 6) (offset % 256)) (sprnum * 8 + 7) ((offset >>> 8) % 256)
      else v.spriteram
    { spriteram := ram,
      m_sprite_info :=
        { ve := ve,
          lst := info.lst,
          latched := store info.latched level 0,
          plb := store info.plb level 0,
          offset := store info.offset level ((offset) % 2 ^ 32),
          frac := store info.frac level 0,
          step := store info.step level (sprite_xscale xscale % 2 ^ 32) } }
  else v

/-- The function `turbo_state::prepare_sprites(y)`. -/
def prepare_sprites (m_proms : Nat → Nat) (sprite_xscale : Nat → Nat) (y : Nat)
    (v : Video) : Video :=
  let v0 := { v with m_sprite_info := { v.m_sprite_info with ve := 0, lst := 0 } }
  (List.range 16).foldl (prepare_sprite m_proms sprite_xscale y) v0

end turbo_state

namespace subroc3d_state

/-- One iteration of the loop of `subroc3d_state::prepare_sprites`, for slot `sprnum`.
`m_proms` is the PROM region, `sprite_xscale` the value of
`sprite_xscale(dacinput, vr1, vr2, cext)` for the resistances and the capacitor
this board passes (a floating-point computation, taken as a parameter). -/
def prepare_sprite (m_proms : Nat → Nat) (sprite_xscale : Nat → Nat) (y : Nat)
    (v : Video) (sprnum : Nat) : Video :=
  let pr1449 := fun i => m_proms (0x300 + i)
  let rambase := fun i => v.spriteram (sprnum * 8 + i)
  let level := sprnum &&& 7
  let sum := (y + (rambase 0)) % 2 ^ 32
  let clo := ((sum >>> 8) &&& 1) % 256
  let sum := (sum + ((y <<< 8) + ((rambase 1) <<< 8))) % 2 ^ 32
  let chi := ((sum >>> 16) &&& 1) % 256
  if clo &&& (chi ^^^ 1) ≠ 0 then
    let xscale := rambase 2 ^^^ 0xff
    let yscale := rambase 3
    let offset := (rambase 6 + (rambase 7 <<< 8)) % 2 ^ 16
    let info := v.m_sprite_info
    let ve := (info.ve ||| (1 <<< sprnum)) % 2 ^ 16
    let offs := (sum &&& 0xff) ||| ((yscale &&& 0x08) <<< 5)
    let advance := (((pr1449 offs >>> (yscale &&& 0x07)) &&& 1) == 0)
    let offset := if advance then (offset + (rambase 4 + (rambase 5 <<< 8))) % 2 ^ 16 else offset
    let ram :=
      if advance then
        store (store v.spriteram (sprnum * 8 + 6) (offset % 256)) (sprnum * 8 + 7) ((offset >>> 8) % 256)
      else v.spriteram
    { spriteram := ram,
      m_sprite_info :=
        { ve := ve,
          lst := info.lst,
          latched := store info.latched level 0,
          plb := store info.plb level 0,
          offset := store info.offset level ((offset <<< 1) % 2 ^ 32),
          frac := store info.frac level 0,
          step := store info.step level (sprite_xscale xscale % 2 ^ 32) } }
  else v

/-- The function `subroc3d_state::prepare_sprites(y)`. -/
def prepare_sprites (m_proms : Nat → Nat) (sprite_xscale : Nat → Nat) (y : Nat)
    (v : Video) : Video :=
  let v0 := { v with m_sprite_info := { v.m_sprite_info with ve := 0, lst := 0 } }
  (List.range 16).foldl (prepare_sprite m_proms sprite_xscale y) v0

end subroc3d_state

namespace buckrog_state

/-- One iteration of the loop of `buckrog_state::prepare_sprites`, for slot `sprnum`.
`m_proms` is the PROM region, `sprite_xscale` the value of
`sprite_xscale(dacinput, vr1, vr2, cext)` for the resistances and the capacitor
this board passes (a floating-point computation, taken as a parameter). -/
def prepare_sprite (m_proms : Nat → Nat) (sprite_xscale : Nat → Nat) (y : Nat)
    (v : Video) (sprnum : Nat) : Video :=
  let pr5196 := fun i => m_proms (0x100 + i)
  let rambase := fun i => v.spriteram (sprnum * 8 + i)
  let level := sprnum &&& 7
  let sum := (y + (rambase 0)) % 2 ^ 32
  let clo := ((sum >>> 8) &&& 1) % 256
  let sum := (sum + ((y <<< 8) + ((rambase 1) <<< 8))) % 2 ^ 32
  let chi := ((sum >>> 16) &&& 1) % 256
  if clo &&& (chi ^^^ 1) ≠ 0 then
    let xscale := rambase 2 ^^^ 0xff
    let yscale := rambase 3
    let offset := (rambase 6 + (rambase 7 <<< 8)) % 2 ^ 16
    let info := v.m_sprite_info
    let ve := (info.ve ||| (1 <<< sprnum)) % 2 ^ 16
    let offs := (sum &&& 0xff) ||| ((yscale &&& 0x08) <<< 5)
    let advance := (((pr5196 offs >>> (yscale &&& 0x07)) &&& 1) == 0)
    let offset := if advance then (offset + (rambase 4 + (rambase 5 <<< 8))) % 2 ^ 16 else offset
    let ram :=
      if advance then
        store (store v.spriteram (sprnum * 8 + 6) (offset % 256)) (sprnum * 8 + 7) ((offset >>> 8) % 256)
      else v.spriteram
    { spriteram := ram,
      m_sprite_info :=
        { ve := ve,
          lst := info.lst,
          latched := store info.latched level 0,
          plb := store info.plb level 0,
          offset := store info.offset level ((offset <<< 1) % 2 ^ 32),
          frac := store info.frac level 0,
          step := store info.step level (sprite_xscale xscale % 2 ^ 32) } }
  else v

/-- The function `buckrog_state::prepare_sprites(y)`. -/
def prepare_sprites (m_proms : Nat → Nat) (sprite_xscale : Nat → Nat) (y : Nat)
    (v : Video) : Video :=
  let v0 := { v with m_sprite_info := { v.m_sprite_info with ve := 0, lst := 0 } }
  (List.range 16).foldl (prepare_sprite m_proms sprite_xscale y) v0

end buckrog_state

/-! ### The loop body common to the three boards -/

/-- The boards. -/
inductive Board where
  | turbo
  | subroc3d
  | buckrog
  deriving DecidableEq

/-- The mask the board's `prepare_sprites` XORs to the y-compare bytes
`rambase[0]` and `rambase[1]`: `0xff` on Turbo; on the other boards the
inversion is commented out. -/
def Board.inv : Board → Nat
  | .turbo => 0xff
  | .subroc3d => 0
  | .buckrog => 0

/-- The left shift the board's `prepare_sprites` applies to the row offset it
stores into `offset[level]`. -/
def Board.sh : Board → Nat
  | .turbo => 0
  | .subroc3d => 1
  | .buckrog => 1

/-- The place in `m_proms` of the PROM the board's `prepare_sprites` reads. -/
def Board.prom_base : Board → Nat
  | .turbo => 0x200
  | .subroc3d => 0x300
  | .buckrog => 0x100

/-- The board's `prepare_sprites`. -/
def Board.prepare_sprites : Board → (Nat → Nat) → (Nat → Nat) → Nat → Video → Video
  | .turbo => turbo_state.prepare_sprites
  | .subroc3d => subroc3d_state.prepare_sprites
  | .buckrog => buckrog_state.prepare_sprites

/-- The first ALU sum, `y + (rambase[0] ^ inv)`. -/
def alu_lo (inv y row0 : Nat) : Nat := (y + (row0 ^^^ inv)) % 2 ^ 32

/-- The ALU sum after the second addition. -/
def alu_sum (inv y row0 row1 : Nat) : Nat :=
  (alu_lo inv y row0 + ((y <<< 8) + ((row1 ^^^ inv) <<< 8))) % 2 ^ 32

/-- The low carry `clo`. -/
def alu_clo (inv y row0 : Nat) : Nat := ((alu_lo inv y row0 >>> 8) &&& 1) % 256

/-- The high carry `chi`. -/
def alu_chi (inv y row0 row1 : Nat) : Nat := ((alu_sum inv y row0 row1 >>> 16) &&& 1) % 256

/-- The enable condition `clo & (chi ^ 1)`. -/
def slot_enabled (inv y row0 row1 : Nat) : Bool :=
  decide (alu_clo inv y row0 &&& (alu_chi inv y row0 row1 ^^^ 1) ≠ 0)

/-- The PROM index `offs`. -/
def prom_index (sum yscale : Nat) : Nat := (sum &&& 0xff) ||| ((yscale &&& 0x08) <<< 5)

/-- The PROM bit that decides the row advance: the offset advances when it is 0. -/
def prom_bit (base : Nat) (m_proms : Nat → Nat) (sum yscale : Nat) : Nat :=
  (m_proms (base + prom_index sum yscale) >>> (yscale &&& 0x07)) &&& 1

/-- The 16-bit little-endian word of two bytes, as `uint16_t`. -/
def word16 (lo hi : Nat) : Nat := (lo + (hi <<< 8)) % 2 ^ 16

/-- The row offset after the conditional advance. -/
def row_offset (bit r4 r5 r6 r7 : Nat) : Nat :=
  if bit = 0 then (word16 r6 r7 + (r4 + (r5 <<< 8))) % 2 ^ 16 else word16 r6 r7

/-- The stores of an enabled slot into `m_sprite_info`. -/
def level_load (info : sprite_info) (sprnum offset step : Nat) : sprite_info :=
  { ve := (info.ve ||| (1 <<< sprnum)) % 2 ^ 16,
    lst := info.lst,
    latched := store info.latched (sprnum &&& 7) 0,
    plb := store info.plb (sprnum &&& 7) 0,
    offset := store info.offset (sprnum &&& 7) offset,
    frac := store info.frac (sprnum &&& 7) 0,
    step := store info.step (sprnum &&& 7) step }

/-- The sprite RAM after an enabled slot: the row offset is written back when
the PROM bit is 0. -/
def ram_writeback (ram : Nat → Nat) (sprnum bit offset : Nat) : Nat → Nat :=
  if bit = 0 then
    store (store ram (sprnum * 8 + 6) (offset % 256)) (sprnum * 8 + 7) ((offset >>> 8) % 256)
  else ram

/-- What the loop body of `prepare_sprites` is given: the three differences
between the boards (`inv`, `sh`, `base`), the PROM region, the value of
`sprite_xscale` for the board's constants, and the scanline. -/
structure PrepCtx where
  inv : Nat
  sh : Nat
  base : Nat
  m_proms : Nat → Nat
  sprite_xscale : Nat → Nat
  y : Nat

/-- The context of a board's `prepare_sprites(y)`. -/
def Board.ctx (b : Board) (m_proms : Nat → Nat) (sprite_xscale : Nat → Nat) (y : Nat) : PrepCtx :=
  { inv := b.inv, sh := b.sh, base := b.prom_base, m_proms := m_proms,
    sprite_xscale := sprite_xscale, y := y }

/-- The enable condition of slot `n` of the sprite RAM `ram`. -/
def sl_en (c : PrepCtx) (ram : Nat → Nat) (n : Nat) : Bool :=
  slot_enabled c.inv c.y (ram (n * 8 + 0)) (ram (n * 8 + 1))

/-- The ALU sum of slot `n`. -/
def sl_sum (c : PrepCtx) (ram : Nat → Nat) (n : Nat) : Nat :=
  alu_sum c.inv c.y (ram (n * 8 + 0)) (ram (n * 8 + 1))

/-- The PROM bit of slot `n`. -/
def sl_bit (c : PrepCtx) (ram : Nat → Nat) (n : Nat) : Nat :=
  prom_bit c.base c.m_proms (sl_sum c ram n) (ram (n * 8 + 3))

/-- The row offset of slot `n` after its conditional advance. -/
def sl_off (c : PrepCtx) (ram : Nat → Nat) (n : Nat) : Nat :=
  row_offset (sl_bit c ram n) (ram (n * 8 + 4)) (ram (n * 8 + 5)) (ram (n * 8 + 6))
    (ram (n * 8 + 7))

/-- The step of slot `n`: `sprite_xscale` of `rambase[2] ^ 0xff`, as `uint32_t`. -/
def sl_step (c : PrepCtx) (ram : Nat → Nat) (n : Nat) : Nat :=
  c.sprite_xscale (ram (n * 8 + 2) ^^^ 0xff) % 2 ^ 32

/-- The loop body of `prepare_sprites` with the differences between the boards
as parameters. -/
def prepare_sprite_gen (c : PrepCtx) (v : Video) (sprnum : Nat) : Video :=
  if sl_en c v.spriteram sprnum then
    { spriteram :=
        ram_writeback v.spriteram sprnum (sl_bit c v.spriteram sprnum) (sl_off c v.spriteram sprnum),
      m_sprite_info :=
        level_load v.m_sprite_info sprnum ((sl_off c v.spriteram sprnum <<< c.sh) % 2 ^ 32)
          (sl_step c v.spriteram sprnum) }
  else v

/-- The state after the first `k` iterations of the loop. -/
def prepare_upto (c : PrepCtx) (v : Video) (k : Nat) : Video :=
  (List.range k).foldl (prepare_sprite_gen c) v

/-- Sprite RAM byte `a` once the loop has passed its slot, in terms of the
sprite RAM `ram` at entry. -/
def ram_after (c : PrepCtx) (ram : Nat → Nat) (a : Nat) : Nat :=
  if sl_en c ram (a / 8) = true ∧ sl_bit c ram (a / 8) = 0 then
    if a % 8 = 6 then sl_off c ram (a / 8) % 256
    else if a % 8 = 7 then (sl_off c ram (a / 8) >>> 8) % 256
    else ram a
  else ram a

/-- The per-level members of `sprite_info` at level `l`: `latched`, `plb`,
`offset`, `frac`, `step`. -/
def level_state (info : sprite_info) (l : Nat) : Nat × Nat × Nat × Nat × Nat :=
  (info.latched l, info.plb l, info.offset l, info.frac l, info.step l)

/-- The per-level members an enabled slot `n` loads: `latched = plb = frac = 0`,
the shifted row offset and the step. -/
def slot_load (c : PrepCtx) (ram : Nat → Nat) (n : Nat) : Nat × Nat × Nat × Nat × Nat :=
  (0, 0, (sl_off c ram n <<< c.sh) % 2 ^ 32, 0, sl_step c ram n)

/-! ### Concrete inputs -/

/-- A `sprite_info` with every member zero. -/
def blank_info : sprite_info :=
  { ve := 0, lst := 0, latched := fun _ => 0, plb := fun _ => 0, offset := fun _ => 0,
    frac := fun _ => 0, step := fun _ => 0 }

/-- A machine whose sprite RAM and `sprite_info` are all zero. -/
def blank_video : Video := { spriteram := fun _ => 0, m_sprite_info := blank_info }

/-- A machine whose sprite RAM is zero except for the first y-compare byte of
slot 0, which is `0xff`. -/
def slot0_ff_video : Video :=
  { spriteram := fun a => if a = 0 then 0xff else 0, m_sprite_info := blank_info }

/-- A machine whose slot 0 has y-compare bytes `0x00, 0xff`, row increment
`0x0102` and row offset `0x00ff`, the rest of sprite RAM being zero. -/
def slot0_row_video : Video :=
  { spriteram := fun a =>
      if a = 1 then 0xff else if a = 4 then 0x02 else if a = 5 then 0x01
      else if a = 6 then 0xff else 0,
    m_sprite_info := blank_info }


/-! ### Operations on the controller -/

namespace micom_xe_1a_device

/-- The operations the host and the scheduler perform on the device: a write to
one of the three input lines (with the callbacks' values at that time for
`req_w`) or an expiry of the output timer.  `out_r` is a read and changes no
member. -/
inductive Op where
  | req (state buttons : Nat) (analog : Nat → Nat)
  | mode (state : Nat)
  | iface (state : Nat)
  | timer

/-- The state after an operation. -/
def Op.apply (s : Dev) : Op → Dev
  | .req state buttons analog => req_w s state buttons analog
  | .mode state => mode_w s state
  | .iface state => interface_w s state
  | .timer => timer_fire s

/-- The state after a sequence of operations. -/
def run_ops (s : Dev) (ops : List Op) : Dev := ops.foldl Op.apply s

/-- A write to the Req or the interface line. -/
def Op.is_line_write : Op → Bool
  | .req _ _ _ => true
  | .iface _ => true
  | _ => false

/-- The state in the middle of an output sequence: the one a falling edge on
Req leaves from power-on, after the timer has fired seven times. -/
def mid_sequence : Dev := timer_run 7 strobed

end micom_xe_1a_device

/-! ## Per-pixel sprite sampling (turbo_v.cpp) -/

/-- The expression `~x & 1`: 1 when bit 0 of `x` is clear, else 0. -/
def not_bit0 (x : Nat) : Nat := (x &&& 1) ^^^ 1

/-- The statement `b &= ~(1 << level)` on a `uint8_t` `b`. -/
def clear_bit8 (b level : Nat) : Nat := (b &&& (0xffffffff ^^^ (1 <<< level))) % 256

/-- The state of one call of `get_sprite_bits`: `m_sprite_info`, the locals
`sprlive` (Turbo only) and `sprdata`, the out-parameter `*plb` (Subroc 3D and
Buck Rogers only), and, as a record of what the call did, the sprite-ROM reads
it performed: the level and the ROM index of each read, in order. -/
structure Sampler where
  info : sprite_info
  sprlive : Nat
  sprdata : Nat
  plb : Nat
  fetches : List (Nat × Nat)

namespace turbo_state

/-- One iteration of the `while` loop of `turbo_state::get_sprite_bits`. -/
def fetch (m_spriteroms : Nat → Nat) (level : Nat) (s : Sampler) : Sampler :=
  let offs := s.info.offset level % 2 ^ 16
  let index := (level <<< 14) ||| ((offs >>> 1) &&& 0x3fff)
  let pixdata := (m_spriteroms index >>> (not_bit0 offs * 4)) % 256
  let ended := ((pixdata &&& 0x0c) == 0x04)
  { info :=
      { s.info with
        latched := store s.info.latched level (latch_value pixdata level),
        lst := if ended then clear_bit8 s.info.lst level else s.info.lst,
        offset := store s.info.offset level
          ((s.info.offset level + (if offs &&& 0x8000 ≠ 0 then 2 ^ 32 - 1 else 1)) % 2 ^ 32),
        frac := store s.info.frac level (s.info.frac level - 0x1000000) },
    sprlive := if ended then clear_bit8 s.sprlive level else s.sprlive,
    sprdata := s.sprdata,
    plb := s.plb,
    fetches := s.fetches ++ [(level, index)] }

/-- The loop `while (m_sprite_info.frac[level] >= 0x1000000)`, run for at most
`fuel` iterations. -/
def fetch_loop (m_spriteroms : Nat → Nat) (level : Nat) : Nat → Sampler → Sampler
  | 0, s => s
  | fuel + 1, s =>
    if s.info.frac level ≥ 0x1000000 then
      fetch_loop m_spriteroms level fuel (fetch m_spriteroms level s)
    else s

/-- The body of the loop over the levels of `turbo_state::get_sprite_bits`.  A
`uint32_t` `frac` is below `2^32`, so the `while` loop makes fewer than
`2^32 / 0x1000000 = 256` iterations. -/
def sample_level (m_spriteroms : Nat → Nat) (s : Sampler) (level : Nat) : Sampler :=
  if s.sprlive &&& (1 <<< level) ≠ 0 then
    fetch_loop m_spriteroms level 256
      { s with
        sprdata := (s.sprdata ||| s.info.latched level) % 2 ^ 32,
        info := { s.info with
          frac := store s.info.frac level ((s.info.frac level + s.info.step level) % 2 ^ 32) } }
  else s

/-- The function `turbo_state::get_sprite_bits(road)`: the member `sprdata` of
the result is the value returned, `info` is `m_sprite_info` after the call. -/
def get_sprite_bits (m_spriteroms : Nat → Nat) (road : Nat) (info : sprite_info) : Sampler :=
  let sprlive := info.lst % 256
  let sprlive := if road = 0 then sprlive &&& 0x07 else sprlive
  (List.range 8).foldl (sample_level m_spriteroms)
    { info := info, sprlive := sprlive, sprdata := 0, plb := 0, fetches := [] }

end turbo_state

namespace subroc3d_state

/-- The table `plb_end` of `subroc3d_state::get_sprite_bits`: end in bit 1, plb in
bit 0. -/
def plb_end : List Nat := [0, 1, 1, 2, 1, 1, 1, 1, 1, 1, 1, 1, 0, 1, 1, 2]

/-- One iteration of the `while` loop of `subroc3d_state::get_sprite_bits`. -/
def fetch (m_spriteroms : Nat → Nat) (level : Nat) (s : Sampler) : Sampler :=
  let offs := s.info.offset level
  let index := (level <<< 15) ||| ((offs >>> 1) &&& 0x7fff)
  let pixdata := (m_spriteroms index >>> (not_bit0 offs * 4)) % 256
  { info :=
      { s.info with
        latched := store s.info.latched level (latch_value pixdata level),
        plb := store s.info.plb level
          (((plb_end.getD (pixdata &&& 0x0f) 0 &&& 1) <<< level) % 256),
        lst := if plb_end.getD (pixdata &&& 0x0f) 0 &&& 2 ≠ 0 then clear_bit8 s.info.lst level
          else s.info.lst,
        offset := store s.info.offset level
          ((s.info.offset level + (if offs &&& 0x10000 ≠ 0 then 2 ^ 32 - 1 else 1)) % 2 ^ 32),
        frac := store s.info.frac level (s.info.frac level - 0x800000) },
    sprlive := s.sprlive,
    sprdata := s.sprdata,
    plb := s.plb,
    fetches := s.fetches ++ [(level, index)] }

/-- The loop `while (m_sprite_info.frac[level] >= 0x800000)`, run for at most
`fuel` iterations. -/
def fetch_loop (m_spriteroms : Nat → Nat) (level : Nat) : Nat → Sampler → Sampler
  | 0, s => s
  | fuel + 1, s =>
    if s.info.frac level ≥ 0x800000 then
      fetch_loop m_spriteroms level fuel (fetch m_spriteroms level s)
    else s

/-- The body of the loop over the levels of `subroc3d_state::get_sprite_bits`.  A
`uint32_t` `frac` is below `2^32`, so the `while` loop makes fewer than
`2^32 / 0x800000 = 512` iterations. -/
def sample_level (m_spriteroms : Nat → Nat) (s : Sampler) (level : Nat) : Sampler :=
  if s.info.lst &&& (1 <<< level) ≠ 0 then
    fetch_loop m_spriteroms level 512
      { s with
        sprdata := (s.sprdata ||| s.info.latched level) % 2 ^ 32,
        plb := (s.plb ||| s.info.plb level) % 256,
        info := { s.info with
          frac := store s.info.frac level ((s.info.frac level + s.info.step level) % 2 ^ 32) } }
  else s

/-- The function `subroc3d_state::get_sprite_bits(plb)`: the member `sprdata` of the
result is the value returned, `plb` is `*plb`, `info` is `m_sprite_info` after
the call. -/
def get_sprite_bits (m_spriteroms : Nat → Nat) (info : sprite_info) : Sampler :=
  (List.range 8).foldl (sample_level m_spriteroms)
    { info := info, sprlive := 0, sprdata := 0, plb := 0, fetches := [] }

end subroc3d_state

namespace buckrog_state

/-- The table `plb_end` of `buckrog_state::get_sprite_bits`: end in bit 1, plb in
bit 0. -/
def plb_end : List Nat := [0, 1, 1, 1, 1, 1, 1, 1, 1, 1, 1, 1, 1, 1, 1, 2]

/-- One iteration of the `while` loop of `buckrog_state::get_sprite_bits`. -/
def fetch (m_spriteroms : Nat → Nat) (level : Nat) (s : Sampler) : Sampler :=
  let offs := s.info.offset level
  let index := (level <<< 15) ||| ((offs >>> 1) &&& 0x7fff)
  let pixdata := (m_spriteroms index >>> (not_bit0 offs * 4)) % 256
  { info :=
      { s.info with
        latched := store s.info.latched level (latch_value pixdata level),
        plb := store s.info.plb level
          (((plb_end.getD (pixdata &&& 0x0f) 0 &&& 1) <<< level) % 256),
        lst := if plb_end.getD (pixdata &&& 0x0f) 0 &&& 2 ≠ 0 then clear_bit8 s.info.lst level
          else s.info.lst,
        offset := store s.info.offset level
          ((s.info.offset level + (if offs &&& 0x10000 ≠ 0 then 2 ^ 32 - 1 else 1)) % 2 ^ 32),
        frac := store s.info.frac level (s.info.frac level - 0x800000) },
    sprlive := s.sprlive,
    sprdata := s.sprdata,
    plb := s.plb,
    fetches := s.fetches ++ [(level, index)] }

/-- The loop `while (m_sprite_info.frac[level] >= 0x800000)`, run for at most
`fuel` iterations. -/
def fetch_loop (m_spriteroms : Nat → Nat) (level : Nat) : Nat → Sampler → Sampler
  | 0, s => s
  | fuel + 1, s =>
    if s.info.frac level ≥ 0x800000 then
      fetch_loop m_spriteroms level fuel (fetch m_spriteroms level s)
    else s

/-- The body of the loop over the levels of `buckrog_state::get_sprite_bits`.  A
`uint32_t` `frac` is below `2^32`, so the `while` loop makes fewer than
`2^32 / 0x800000 = 512` iterations. -/
def sample_level (m_spriteroms : Nat → Nat) (s : Sampler) (level : Nat) : Sampler :=
  if s.info.lst &&& (1 <<< level) ≠ 0 then
    fetch_loop m_spriteroms level 512
      { s with
        sprdata := (s.sprdata ||| s.info.latched level) % 2 ^ 32,
        plb := (s.plb ||| s.info.plb level) % 256,
        info := { s.info with
          frac := store s.info.frac level ((s.info.frac level + s.info.step level) % 2 ^ 32) } }
  else s

/-- The function `buckrog_state::get_sprite_bits(plb)`: the member `sprdata` of the
result is the value returned, `plb` is `*plb`, `info` is `m_sprite_info` after
the call. -/
def get_sprite_bits (m_spriteroms : Nat → Nat) (info : sprite_info) : Sampler :=
  (List.range 8).foldl (sample_level m_spriteroms)
    { info := info, sprlive := 0, sprdata := 0, plb := 0, fetches := [] }

end buckrog_state

/-! ### The sampler common to the three boards -/

/-- What differs between the boards' `get_sprite_bits`: whether the live levels
are tested on the local `sprlive` (Turbo) or on `lst`, the threshold `T` of the
`while` loop and the bound `fuel` on its iterations, the truncation of the
offset to the local `offs`, the sprite-ROM index, the direction bit of `offs`,
the end test on `pixdata`, the value stored into `plb[level]` (its old value,
`pixdata` and the level given) and the accumulation into `*plb`. -/
structure SampleCfg where
  turbo : Bool
  T : Nat
  fuel : Nat
  offs_of : Nat → Nat
  rom_index : Nat → Nat → Nat
  dir_mask : Nat
  is_end : Nat → Bool
  plb_val : Nat → Nat → Nat → Nat
  plb_acc : Nat → Nat → Nat

/-- The parameters of `turbo_state::get_sprite_bits`. -/
def turbo_state.cfg : SampleCfg :=
  { turbo := true, T := 0x1000000, fuel := 256,
    offs_of := fun o => o % 2 ^ 16,
    rom_index := fun level offs => (level <<< 14) ||| ((offs >>> 1) &&& 0x3fff),
    dir_mask := 0x8000,
    is_end := fun pixdata => ((pixdata &&& 0x0c) == 0x04),
    plb_val := fun old _ _ => old,
    plb_acc := fun acc _ => acc }

/-- The parameters of `subroc3d_state::get_sprite_bits`. -/
def subroc3d_state.cfg : SampleCfg :=
  { turbo := false, T := 0x800000, fuel := 512,
    offs_of := fun o => o,
    rom_index := fun level offs => (level <<< 15) ||| ((offs >>> 1) &&& 0x7fff),
    dir_mask := 0x10000,
    is_end := fun pixdata => decide (subroc3d_state.plb_end.getD (pixdata &&& 0x0f) 0 &&& 2 ≠ 0),
    plb_val := fun _ pixdata level =>
      ((subroc3d_state.plb_end.getD (pixdata &&& 0x0f) 0 &&& 1) <<< level) % 256,
    plb_acc := fun acc v => (acc ||| v) % 256 }

/-- The parameters of `buckrog_state::get_sprite_bits`. -/
def buckrog_state.cfg : SampleCfg :=
  { turbo := false, T := 0x800000, fuel := 512,
    offs_of := fun o => o,
    rom_index := fun level offs => (level <<< 15) ||| ((offs >>> 1) &&& 0x7fff),
    dir_mask := 0x10000,
    is_end := fun pixdata => decide (buckrog_state.plb_end.getD (pixdata &&& 0x0f) 0 &&& 2 ≠ 0),
    plb_val := fun _ pixdata level =>
      ((buckrog_state.plb_end.getD (pixdata &&& 0x0f) 0 &&& 1) <<< level) % 256,
    plb_acc := fun acc v => (acc ||| v) % 256 }

/-- The parameters of a board's `get_sprite_bits`. -/
def Board.cfg : Board → SampleCfg
  | .turbo => turbo_state.cfg
  | .subroc3d => subroc3d_state.cfg
  | .buckrog => buckrog_state.cfg

/-- The members of one level the sampler works on, with what its `while` loop
did: whether a fetched nibble was an end code, and the sprite-ROM indices it
read, in order. -/
structure Lvl where
  latched : Nat
  plb : Nat
  offset : Nat
  frac : Nat
  ended : Bool
  reads : List Nat

/-- One iteration of the `while` loop, on the members of the level alone. -/
def lvl_fetch (c : SampleCfg) (m_spriteroms : Nat → Nat) (level : Nat) (t : Lvl) : Lvl :=
  let offs := c.offs_of t.offset
  let index := c.rom_index level offs
  let pixdata := (m_spriteroms index >>> (not_bit0 offs * 4)) % 256
  { latched := latch_value pixdata level,
    plb := c.plb_val t.plb pixdata level,
    offset := (t.offset + (if offs &&& c.dir_mask ≠ 0 then 2 ^ 32 - 1 else 1)) % 2 ^ 32,
    frac := t.frac - c.T,
    ended := t.ended || c.is_end pixdata,
    reads := t.reads ++ [index] }

/-- The `while` loop on the members of the level alone, for at most `fuel`
iterations. -/
def lvl_loop (c : SampleCfg) (m_spriteroms : Nat → Nat) (level : Nat) : Nat → Lvl → Lvl
  | 0, t => t
  | fuel + 1, t =>
    if t.frac ≥ c.T then lvl_loop c m_spriteroms level fuel (lvl_fetch c m_spriteroms level t)
    else t

/-- The members of level `level` of `info` as the `while` loop finds them: the
step has been added to `frac`, nothing has been read. -/
def lvl_start (info : sprite_info) (level : Nat) : Lvl :=
  { latched := info.latched level, plb := info.plb level, offset := info.offset level,
    frac := (info.frac level + info.step level) % 2 ^ 32, ended := false, reads := [] }

/-- What the sampler does to a live level. -/
def lvl_run (c : SampleCfg) (m_spriteroms : Nat → Nat) (info : sprite_info) (level : Nat) : Lvl :=
  lvl_loop c m_spriteroms level c.fuel (lvl_start info level)

/-- The state `s` with the members of level `level` replaced by those of `t`,
the level's bit cleared in `lst` (and in `sprlive` on Turbo) when `t` has ended,
and the reads of `t` recorded. -/
def Sampler.put (c : SampleCfg) (s : Sampler) (level : Nat) (t : Lvl) : Sampler :=
  { info :=
      { s.info with
        latched := store s.info.latched level t.latched,
        plb := store s.info.plb level t.plb,
        lst := if t.ended then clear_bit8 s.info.lst level else s.info.lst,
        offset := store s.info.offset level t.offset,
        frac := store s.info.frac level t.frac },
    sprlive := if (c.turbo && t.ended) then clear_bit8 s.sprlive level else s.sprlive,
    sprdata := s.sprdata,
    plb := s.plb,
    fetches := s.fetches ++ t.reads.map (fun i => (level, i)) }

/-- One iteration of the `while` loop, with the differences between the boards
as parameters. -/
def fetch_gen (c : SampleCfg) (m_spriteroms : Nat → Nat) (level : Nat) (s : Sampler) : Sampler :=
  let offs := c.offs_of (s.info.offset level)
  let index := c.rom_index level offs
  let pixdata := (m_spriteroms index >>> (not_bit0 offs * 4)) % 256
  { info :=
      { s.info with
        latched := store s.info.latched level (latch_value pixdata level),
        plb := store s.info.plb level (c.plb_val (s.info.plb level) pixdata level),
        lst := if c.is_end pixdata then clear_bit8 s.info.lst level else s.info.lst,
        offset := store s.info.offset level
          ((s.info.offset level + (if offs &&& c.dir_mask ≠ 0 then 2 ^ 32 - 1 else 1)) % 2 ^ 32),
        frac := store s.info.frac level (s.info.frac level - c.T) },
    sprlive := if (c.turbo && c.is_end pixdata) then clear_bit8 s.sprlive level else s.sprlive,
    sprdata := s.sprdata,
    plb := s.plb,
    fetches := s.fetches ++ [(level, index)] }

/-- The `while` loop, with the differences between the boards as parameters. -/
def fetch_loop_gen (c : SampleCfg) (m_spriteroms : Nat → Nat) (level : Nat) :
    Nat → Sampler → Sampler
  | 0, s => s
  | fuel + 1, s =>
    if s.info.frac level ≥ c.T then
      fetch_loop_gen c m_spriteroms level fuel (fetch_gen c m_spriteroms level s)
    else s

/-- The word whose bits tell the live levels: `sprlive` on Turbo, `lst` on the
other boards. -/
def live_word (c : SampleCfg) (s : Sampler) : Nat := if c.turbo then s.sprlive else s.info.lst

/-- The state in which the `while` loop of a live level starts: the level's
latched data and plb are ORed into the results and its step is added to `frac`. -/
def sample_start (c : SampleCfg) (s : Sampler) (level : Nat) : Sampler :=
  { s with
    sprdata := (s.sprdata ||| s.info.latched level) % 2 ^ 32,
    plb := c.plb_acc s.plb (s.info.plb level),
    info := { s.info with
      frac := store s.info.frac level ((s.info.frac level + s.info.step level) % 2 ^ 32) } }

/-- The body of the loop over the levels, with the differences between the
boards as parameters. -/
def sample_level_gen (c : SampleCfg) (m_spriteroms : Nat → Nat) (s : Sampler) (level : Nat) :
    Sampler :=
  if live_word c s &&& (1 <<< level) ≠ 0 then
    fetch_loop_gen c m_spriteroms level c.fuel (sample_start c s level)
  else s

/-- The state after the first `k` levels of the loop over the levels. -/
def sample_upto (c : SampleCfg) (m_spriteroms : Nat → Nat) (s : Sampler) (k : Nat) : Sampler :=
  (List.range k).foldl (sample_level_gen c m_spriteroms) s

/-- The state in which a board's `get_sprite_bits` enters its loop over the
levels; `road` is the argument of Turbo's function and is not used on the other
boards. -/
def Board.sample_entry (b : Board) (road : Nat) (info : sprite_info) : Sampler :=
  match b with
  | .turbo =>
    { info := info, sprlive := if road = 0 then (info.lst % 256) &&& 0x07 else info.lst % 256,
      sprdata := 0, plb := 0, fetches := [] }
  | _ => { info := info, sprlive := 0, sprdata := 0, plb := 0, fetches := [] }

/-- The board's `get_sprite_bits`; `road` is the argument of Turbo's function
and is not used on the other boards. -/
def Board.get_sprite_bits (b : Board) (m_spriteroms : Nat → Nat) (road : Nat)
    (info : sprite_info) : Sampler :=
  match b with
  | .turbo => turbo_state.get_sprite_bits m_spriteroms road info
  | .subroc3d => subroc3d_state.get_sprite_bits m_spriteroms info
  | .buckrog => buckrog_state.get_sprite_bits m_spriteroms info

/-- The state `s` with the latched data and the plb of level `level` ORed into
the results `sprdata` and `*plb`. -/
def sample_acc (c : SampleCfg) (s : Sampler) (level : Nat) : Sampler :=
  { s with
    sprdata := (s.sprdata ||| s.info.latched level) % 2 ^ 32,
    plb := c.plb_acc s.plb (s.info.plb level) }

/-- Whether level `l` is live in the state `s` in which the sampler enters its
loop over the levels. -/
def live_at (c : SampleCfg) (s : Sampler) (l : Nat) : Bool := (live_word c s).testBit l

/-- The board's `while` loop. -/
def Board.fetch_loop (b : Board) (m_spriteroms : Nat → Nat) (level fuel : Nat) (s : Sampler) :
    Sampler :=
  match b with
  | .turbo => turbo_state.fetch_loop m_spriteroms level fuel s
  | .subroc3d => subroc3d_state.fetch_loop m_spriteroms level fuel s
  | .buckrog => buckrog_state.fetch_loop m_spriteroms level fuel s

/-- A `sprite_info` with levels 0 and 7 live: level 0 holds the latched word
`0x101`, has `frac = 0x400000` and `step = 0x2800000`; level 7 holds `0x80` and
has `step = 0x800000`. -/
def two_level_info : sprite_info :=
  { blank_info with
    lst := 0x81,
    latched := fun l => if l = 0 then 0x101 else if l = 7 then 0x80 else 0,
    step := fun l => if l = 0 then 0x2800000 else 0x800000,
    frac := fun _ => 0x400000 }

/-! ## Video update (turbo_v.cpp) -/

/-- What `screen_update` reads and does not write, for one row: the ROM regions,
the sprite position RAM, the star bitmap RAM, the row `fgpixmap.pix(y)` of the
foreground tilemap, the registers, the value of `sprite_xscale` for the
board's constants, the constant `TURBO_X_SCALE` (turbo.h, not among the
sources) and `cliprect.max_x`. -/
structure Env where
  m_proms : Nat → Nat
  m_roadroms : Nat → Nat
  m_spriteroms : Nat → Nat
  m_bgcolorrom : Nat → Nat
  m_sprite_position : Nat → Nat
  m_bitmap_ram : Nat → Nat
  fore : Nat → Nat
  m_opa : Nat
  m_opb : Nat
  m_opc : Nat
  m_ipa : Nat
  m_ipb : Nat
  m_ipc : Nat
  m_fbpla : Nat
  m_fbcol : Nat
  m_ply : Nat
  m_col : Nat
  m_flip : Nat
  m_fchg : Nat
  m_obch : Nat
  m_mov : Nat
  sprite_xscale : Nat → Nat
  TURBO_X_SCALE : Nat
  max_x : Nat

/-- What `screen_update` writes, for one row: the sprite RAM and
`m_sprite_info` (through `prepare_sprites` and `get_sprite_bits`), the collision
latch `m_collision` (Turbo) and the row `bitmap.pix(y)` of the output bitmap. -/
structure Screen where
  v : Video
  m_collision : Nat
  dest : Nat → Nat

/-- The two statements at the head of the column loop, `he &= m_sprite_info.ve`
and `m_sprite_info.lst |= he | (he >> 8)`, for the `uint16_t` `he` read from the
sprite position RAM. -/
def latch_he (info : sprite_info) (he : Nat) : sprite_info :=
  let he := (he &&& info.ve) % 2 ^ 16
  { info with lst := (info.lst ||| (he ||| (he >>> 8))) % 256 }

/-- The expression `(sprbits >> (24-3)) | (sprbits >> (16-2)) | (sprbits >> (8-1)) | sprbits`
stored into the `uint8_t` `cd`, for the `uint32_t`
`sprbits = (sprbits >> (mux & 0x07)) & 0x01010101`. -/
def cd_of (sprbits mux : Nat) : Nat :=
  let sprbits := (sprbits >>> (mux &&& 0x07)) &&& 0x01010101
  ((sprbits >>> (24 - 3)) ||| (sprbits >>> (16 - 2)) ||| (sprbits >>> (8 - 1)) ||| sprbits) % 256

namespace turbo_state

/-- The values the column loop of `turbo_state::screen_update` gathers before
it mixes the sprites. -/
structure Gathered where
  road : Nat
  slipar_acciar : Nat
  babit : Nat
  bacol : Nat
  foreraw : Nat
  forebits : Nat

/-- The per-column work of `turbo_state::screen_update` between the sprite
position latch and the sprite mixing loop (p. 141-144), for the column `xx`, the
vertical sum `va` and the value `road` the flag has before the column. -/
def gather (e : Env) (va road xx : Nat) : Gathered :=
  let pr1114 := fun i => e.m_proms (0x000 + i)
  let pr1115 := fun i => e.m_proms (0x020 + i)
  let pr1117 := fun i => e.m_proms (0x060 + i)
  let pr1118 := fun i => e.m_proms (0x100 + i)
  let carry := ((xx + e.m_opb) >>> 8) % 256
  let sel := if carry ≠ 0 then e.m_ipb else e.m_ipa
  let coch := if carry ≠ 0 then e.m_ipc >>> 4 else e.m_ipc &&& 15
  let offs := va ||| ((sel &&& 0x0f) <<< 8)
  let areatmp := e.m_roadroms (0x0000 ||| offs)
  let areatmp := ((areatmp + xx) >>> 8) &&& 0x01
  let area := areatmp <<< 0
  let areatmp := e.m_roadroms (0x1000 ||| offs)
  let areatmp := ((areatmp + xx) >>> 8) &&& 0x01
  let area := area ||| (areatmp <<< 1)
  let offs := va ||| ((sel &&& 0xf0) <<< 4)
  let areatmp := e.m_roadroms (0x2000 ||| offs)
  let areatmp := ((areatmp + xx) >>> 8) &&& 0x01
  let area := area ||| (areatmp <<< 2)
  let areatmp := e.m_roadroms (0x3000 ||| offs)
  let areatmp := ((areatmp + xx) >>> 8) &&& 0x01
  let area := area ||| (areatmp <<< 3)
  let offs := (xx >>> 3) ||| ((e.m_opc &&& 0x3f) <<< 5)
  let areatmp := e.m_roadroms (0x4000 ||| offs)
  let areatmp := (areatmp <<< (xx &&& 7)) &&& 0x80
  let area := area ||| (areatmp >>> 3)
  let babit := pr1115 area
  let slipar_acciar := babit &&& 0x30
  let road := if road = 0 ∧ (slipar_acciar &&& 0x20) ≠ 0 then 1 else road
  let offs := (coch &&& 0x0f) ||| ((e.m_fbcol &&& 0x01) <<< 4)
  let bacol := pr1114 offs ||| (pr1117 offs <<< 8)
  let foreraw := if xx < 8 ∨ xx ≥ 0x108 then 0 else e.fore (xx - 8)
  let forebits := pr1118 foreraw
  { road := road, slipar_acciar := slipar_acciar, babit := babit, bacol := bacol,
    foreraw := foreraw, forebits := forebits }

/-- The compositor stage of `turbo_state::screen_update`: what the sprite mixing
loop does with the sprite bits `sprbits` the sampler returned, for the output
pixel `pos = x + ix`.  The int `~red >> mx` has bit 0 equal to the complement of
bit `mx` of `red`; `m_collision` (turbo.h, not among the sources) is taken wide
enough for the PROM output ORed into it. -/
def mix (e : Env) (g : Gathered) (sprbits pos : Nat) (s : Screen) : Screen :=
  let pr1116 := fun i => e.m_proms (0x040 + i)
  let pr1121 := fun i => e.m_proms (0x600 + i)
  let pr1122 := fun i => e.m_proms (0x800 + i)
  let pr1123 := fun i => e.m_proms (0xc00 + i)
  let m_collision := s.m_collision ||| pr1116 (((sprbits >>> 24) &&& 7) ||| (g.slipar_acciar >>> 1))
  let priority := ((sprbits &&& 0xfe000000) >>> 25) ||| ((e.m_fbpla &&& 0x07) <<< 7)
  let priority := pr1122 priority
  let mx := (priority &&& 7) |||
    ((sprbits &&& 0x01000000) >>> 21) |||
    ((g.foreraw &&& 0x80) >>> 3) |||
    ((g.forebits &&& 0x08) <<< 2) |||
    ((g.babit &&& 0x07) <<< 6) |||
    ((e.m_fbpla &&& 0x08) <<< 6)
  let mx := pr1123 mx
  let red := ((sprbits &&& 0x0000ff) >>> 0) |||
    ((g.forebits &&& 0x01) <<< 8) |||
    ((g.bacol &&& 0x001f) <<< 9) |||
    (1 <<< 14) |||
    (0 <<< 15)
  let grn := ((sprbits &&& 0x00ff00) >>> 8) |||
    ((g.forebits &&& 0x02) <<< 7) |||
    ((g.bacol &&& 0x03e0) <<< 4) |||
    (1 <<< 14) |||
    (0 <<< 15)
  let blu := ((sprbits &&& 0xff0000) >>> 16) |||
    ((g.forebits &&& 0x04) <<< 6) |||
    ((g.bacol &&& 0x7c00) >>> 1) |||
    (1 <<< 14) |||
    (0 <<< 15)
  let offs := mx |||
    ((BIT red mx ^^^ 1) <<< 4) |||
    ((BIT grn mx ^^^ 1) <<< 5) |||
    ((BIT blu mx ^^^ 1) <<< 6) |||
    ((e.m_fbcol &&& 6) <<< 6)
  { s with m_collision := m_collision, dest := store s.dest pos (pr1121 offs % 2 ^ 16) }

/-- One iteration of the sprite mixing loop of `turbo_state::screen_update`: the
sampler, then the compositor stage. -/
def pixel (e : Env) (g : Gathered) (x : Nat) (s : Screen) (ix : Nat) : Screen :=
  let r := get_sprite_bits e.m_spriteroms g.road s.v.m_sprite_info
  mix e g r.sprdata (x + ix) { s with v := { s.v with m_sprite_info := r.info } }

/-- One iteration of the column loop of `turbo_state::screen_update`, the
`k`-th, on the machine state and the local `road`. -/
def column (e : Env) (va : Nat) (sr : Screen × Nat) (k : Nat) : Screen × Nat :=
  let s := sr.1
  let x := k * e.TURBO_X_SCALE
  let xx := x / e.TURBO_X_SCALE
  let he := (e.m_sprite_position xx ||| (e.m_sprite_position (xx + 0x100) <<< 8)) % 2 ^ 16
  let s := { s with v := { s.v with m_sprite_info := latch_he s.v.m_sprite_info he } }
  let g := gather e va sr.2 xx
  ((List.range e.TURBO_X_SCALE).foldl (pixel e g x) s, g.road)

/-- The body of the row loop of `turbo_state::screen_update`, for row `y`: the
column loop `for (x = 0; x <= cliprect.max_x; x += TURBO_X_SCALE)` makes
`max_x / TURBO_X_SCALE + 1` iterations. -/
def scanline (e : Env) (y : Nat) (s : Screen) : Screen :=
  let road := 0
  let va := (y + e.m_opa) &&& 0xff
  let va := if e.m_opc &&& 0x80 = 0 then va ^^^ 0xff else va
  let s := { s with v := prepare_sprites e.m_proms e.sprite_xscale (y % 256) s.v }
  ((List.range (e.max_x / e.TURBO_X_SCALE + 1)).foldl (column e va) (s, road)).1

end turbo_state

namespace subroc3d_state

/-- The values the column loop of `subroc3d_state::screen_update` gathers before
it mixes the sprites. -/
structure Gathered where
  forebits : Nat
  mplb : Nat

/-- The per-column work of `subroc3d_state::screen_update` between the sprite
position latch and the sprite mixing loop, for the `uint8_t` column `xx`. -/
def gather (e : Env) (xx : Nat) : Gathered :=
  let pr1620 := fun i => e.m_proms (0x200 + i)
  let pr1454 := fun i => e.m_proms (0x920 + i)
  let foreraw :=
    if e.m_flip = 0 then e.fore xx % 256
    else e.fore ((pr1454 ((xx >>> 3) &&& 0x1f) <<< 3) ||| (xx &&& 0x07)) % 256
  let forebits := pr1620 foreraw % 256
  let mplb := if (foreraw &&& 0x80) ≠ 0 ∨ (forebits &&& 0x0f) = 0 then 1 else 0
  { forebits := forebits, mplb := mplb }

/-- The compositor stage of `subroc3d_state::screen_update`: what the sprite
mixing loop does with the sprite bits `sprbits` and the `plb` the sampler
returned, for the output pixel `pos = x + ix`. -/
def mix (e : Env) (g : Gathered) (sprbits plb pos : Nat) (s : Screen) : Screen :=
  let pr1419 := fun i => e.m_proms (0x000 + i)
  let pr1450 := fun i => e.m_proms (0x500 + i)
  let mux :=
    if g.mplb ≠ 0 then
      let offs := (plb ^^^ 0xff) ||| ((e.m_ply &&& 0x02) <<< 7)
      (pr1450 offs >>> ((e.m_ply &&& 0x01) * 4)) % 256
    else 0
  let cd := cd_of sprbits mux
  let finalbits := if mux &&& 0x08 ≠ 0 then cd else g.forebits
  let offs := (finalbits &&& 0x0f) ||| ((mux &&& 0x08) <<< 1) ||| (e.m_col <<< 5)
  { s with dest := store s.dest pos (pr1419 offs % 2 ^ 16) }

/-- One iteration of the sprite mixing loop of `subroc3d_state::screen_update`:
the sampler, then the compositor stage. -/
def pixel (e : Env) (g : Gathered) (x : Nat) (s : Screen) (ix : Nat) : Screen :=
  let r := get_sprite_bits e.m_spriteroms s.v.m_sprite_info
  mix e g r.sprdata r.plb (x + ix) { s with v := { s.v with m_sprite_info := r.info } }

/-- One iteration of the column loop of `subroc3d_state::screen_update`, the
`k`-th. -/
def column (e : Env) (s : Screen) (k : Nat) : Screen :=
  let x := k * e.TURBO_X_SCALE
  let xx := (x / e.TURBO_X_SCALE) % 256
  let he := (e.m_sprite_position (xx * 2) ||| (e.m_sprite_position (xx * 2 + 1) <<< 8)) % 2 ^ 16
  let s := { s with v := { s.v with m_sprite_info := latch_he s.v.m_sprite_info he } }
  let g := gather e xx
  (List.range e.TURBO_X_SCALE).foldl (pixel e g x) s

/-- The body of the row loop of `subroc3d_state::screen_update`, for row `y`. -/
def scanline (e : Env) (y : Nat) (s : Screen) : Screen :=
  let s := { s with v := prepare_sprites e.m_proms e.sprite_xscale (y % 256) s.v }
  (List.range (e.max_x / e.TURBO_X_SCALE + 1)).foldl (column e) s

end subroc3d_state

/-- Modelled from the spec: the helper `bitswap<8>(plb,0,1,2,3,4,5,6,7)` of the
emulator core, which is not among the sources: the byte with the order of its
eight bits reversed (first step of the 8-to-3 priority decode over the PLB
bits). -/
def bitswap8_rev (x : Nat) : Nat :=
  (BIT x 0 <<< 7) ||| (BIT x 1 <<< 6) ||| (BIT x 2 <<< 5) ||| (BIT x 3 <<< 4) |||
    (BIT x 4 <<< 3) ||| (BIT x 5 <<< 2) ||| (BIT x 6 <<< 1) ||| (BIT x 7 <<< 0)

/-- Modelled from the spec: the helper `count_leading_zeros_32` of the emulator
core, which is not among the sources: the number of zero bits above the highest
set bit of a 32-bit word, 32 for the word 0. -/
def count_leading_zeros_32 (x : Nat) : Nat :=
  if x % 2 ^ 32 = 0 then 32 else 31 - Nat.log2 (x % 2 ^ 32)

namespace buckrog_state

/-- The values the column loop of `buckrog_state::screen_update` gathers before
it mixes the sprites. -/
structure Gathered where
  forebits : Nat
  star : Nat

/-- The per-column work of `buckrog_state::screen_update` between the sprite
position latch and the sprite mixing loop, for row `y` and the `uint8_t` column
`xx`.  The int `(xx >> 3) - 1` is taken in 32-bit two's complement. -/
def gather (e : Env) (y xx : Nat) : Gathered :=
  let pr5194 := fun i => e.m_proms (0x000 + i)
  let pr5198 := fun i => e.m_proms (0x500 + i)
  let foreraw :=
    e.fore ((pr5194 ((((xx >>> 3) + (2 ^ 32 - 1)) % 2 ^ 32) &&& 0x1f) <<< 3) ||| (xx &&& 0x07))
      % 256
  let offs := ((foreraw &&& 0x03) <<< 0) ||| ((foreraw &&& 0xf8) >>> 1) |||
    ((e.m_fchg &&& 0x03) <<< 7)
  let forebits := pr5198 offs % 256
  let star := e.m_bitmap_ram (y * 256 + xx) % 256
  { forebits := forebits, star := star }

/-- The `uint8_t` `mux` of `buckrog_state::screen_update`: the output of the
LS148 8-to-3 decoder on the PLB bits. -/
def mux_of (plb : Nat) : Nat :=
  let mux := (count_leading_zeros_32 (bitswap8_rev plb) + 2 ^ 32 - 24) % 256
  if mux = 8 then 0xf else mux

/-- The `int` `palbits` of `buckrog_state::screen_update`, by its priority
cascade. -/
def palbits_of (e : Env) (g : Gathered) (sprbits plb y : Nat) : Nat :=
  let pr5199 := fun i => e.m_proms (0x700 + i)
  let mux := mux_of plb
  let cd := cd_of sprbits mux
  if g.forebits &&& 0x80 = 0 then
    ((g.forebits &&& 0x3c) <<< 2) ||| ((g.forebits &&& 0x06) <<< 1) ||| ((g.forebits &&& 0x01) <<< 0)
  else if mux &&& 0x08 = 0 then
    let offs := (cd &&& 0x0f) ||| ((mux &&& 0x07) <<< 4) ||| ((e.m_obch &&& 0x07) <<< 7)
    pr5199 offs
  else if g.forebits &&& 0x40 = 0 then
    ((g.forebits &&& 0x3c) <<< 2) ||| ((g.forebits &&& 0x06) <<< 1) ||| ((g.forebits &&& 0x01) <<< 0)
  else if g.star ≠ 0 then
    0xff
  else
    let palbits := e.m_bgcolorrom (y ||| ((e.m_mov &&& 0x1f) <<< 8))
    (palbits &&& 0xc0) ||| ((palbits &&& 0x30) <<< 4) ||| ((palbits &&& 0x0f) <<< 2)

/-- The compositor stage of `buckrog_state::screen_update`: what the sprite
mixing loop does with the sprite bits `sprbits` and the `plb` the sampler
returned, for row `y` and the output pixel `pos = x + ix`. -/
def mix (e : Env) (g : Gathered) (sprbits plb y pos : Nat) (s : Screen) : Screen :=
  { s with dest := store s.dest pos (palbits_of e g sprbits plb y % 2 ^ 16) }

/-- One iteration of the sprite mixing loop of `buckrog_state::screen_update`:
the sampler, then the compositor stage. -/
def pixel (e : Env) (g : Gathered) (y x : Nat) (s : Screen) (ix : Nat) : Screen :=
  let r := get_sprite_bits e.m_spriteroms s.v.m_sprite_info
  mix e g r.sprdata r.plb y (x + ix) { s with v := { s.v with m_sprite_info := r.info } }

/-- One iteration of the column loop of `buckrog_state::screen_update`, the
`k`-th. -/
def column (e : Env) (y : Nat) (s : Screen) (k : Nat) : Screen :=
  let x := k * e.TURBO_X_SCALE
  let xx := (x / e.TURBO_X_SCALE) % 256
  let he := (e.m_sprite_position (xx * 2) ||| (e.m_sprite_position (xx * 2 + 1) <<< 8)) % 2 ^ 16
  let s := { s with v := { s.v with m_sprite_info := latch_he s.v.m_sprite_info he } }
  let g := gather e y xx
  (List.range e.TURBO_X_SCALE).foldl (pixel e g y x) s

/-- The body of the row loop of `buckrog_state::screen_update`, for row `y`. -/
def scanline (e : Env) (y : Nat) (s : Screen) : Screen :=
  let s := { s with v := prepare_sprites e.m_proms e.sprite_xscale (y % 256) s.v }
  (List.range (e.max_x / e.TURBO_X_SCALE + 1)).foldl (column e y) s

end buckrog_state

/-- The board's row of `screen_update`. -/
def Board.scanline : Board → Env → Nat → Screen → Screen
  | .turbo => turbo_state.scanline
  | .subroc3d => subroc3d_state.scanline
  | .buckrog => buckrog_state.scanline

/-! ### What the claims name -/

/-- The function `F` of the Buck Rogers cascade:
`F(f) = ((f & 0x3c) << 2) | ((f & 0x06) << 1) | (f & 0x01)`. -/
def F_fore (f : Nat) : Nat := ((f &&& 0x3c) <<< 2) ||| ((f &&& 0x06) <<< 1) ||| (f &&& 0x01)

/-- The function `G` of the Buck Rogers cascade:
`G(p) = (p & 0xc0) | ((p & 0x30) << 4) | ((p & 0x0f) << 2)`. -/
def G_back (p : Nat) : Nat := (p &&& 0xc0) ||| ((p &&& 0x30) <<< 4) ||| ((p &&& 0x0f) <<< 2)

/-- Whether one of the two slots of level `l` is enabled in `ve`. -/
def level_enabled (ve l : Nat) : Bool := ve.testBit l || ve.testBit (l + 8)

/-! ### Concrete inputs for the video update -/

/-- An environment in which every ROM byte and register is zero, with
`TURBO_X_SCALE = 2` and a row of 4 output pixels. -/
def blank_env : Env :=
  { m_proms := fun _ => 0, m_roadroms := fun _ => 0, m_spriteroms := fun _ => 0,
    m_bgcolorrom := fun _ => 0, m_sprite_position := fun _ => 0, m_bitmap_ram := fun _ => 0,
    fore := fun _ => 0, m_opa := 0, m_opb := 0, m_opc := 0, m_ipa := 0, m_ipb := 0, m_ipc := 0,
    m_fbpla := 0, m_fbcol := 0, m_ply := 0, m_col := 0, m_flip := 0, m_fchg := 0, m_obch := 0,
    m_mov := 0, sprite_xscale := fun _ => 0, TURBO_X_SCALE := 2, max_x := 3 }

/-- The environment `blank_env` with every PROM byte equal to 1. -/
def ones_env : Env := { blank_env with m_proms := fun _ => 1 }

/-- A machine state that is all zero. -/
def blank_screen : Screen := { v := blank_video, m_collision := 0, dest := fun _ => 0 }

/-- The values Turbo's column loop gathers in `blank_env` at column 0. -/
def blank_gathered : turbo_state.Gathered := turbo_state.gather blank_env 0 0 0

/-- Two contents of `m_sprite_info` that differ only in the per-level members of
levels neither of whose slots is enabled: `ve` and `lst` are equal, the levels
with an enabled slot have equal members, and only such levels are live. -/
def info_agree (i1 i2 : sprite_info) : Prop :=
  i1.ve = i2.ve ∧ i1.lst = i2.lst ∧
    (∀ l, l < 8 → level_enabled i1.ve l = true → level_state i1 l = level_state i2 l) ∧
    (∀ l, l < 8 → i1.lst.testBit l = true → level_enabled i1.ve l = true)

/-- Two machine states that differ only as `info_agree` allows. -/
def screen_agree (s1 s2 : Screen) : Prop :=
  s1.v.spriteram = s2.v.spriteram ∧ s1.m_collision = s2.m_collision ∧ s1.dest = s2.dest ∧
    info_agree s1.v.m_sprite_info s2.v.m_sprite_info

/-- Two states of the sampler that agree on everything but the members of the
levels outside `A`. -/
def sampler_agree (A : Nat → Bool) (s1 s2 : Sampler) : Prop :=
  s1.sprdata = s2.sprdata ∧ s1.plb = s2.plb ∧ s1.sprlive = s2.sprlive ∧
    s1.info.lst = s2.info.lst ∧ s1.info.ve = s2.info.ve ∧
    (∀ l, l < 8 → A l = true → level_state s1.info l = level_state s2.info l)

/-- The machine state `blank_screen` with other contents of `m_sprite_info`. -/
def stale_screen : Screen :=
  { blank_screen with v := { blank_video with m_sprite_info := two_level_info } }

/-! ### Digital-mode states -/

namespace micom_xe_1a_device

/-- Digital mode with `interface = 0` and `req = 1`: what `mode_w(0)` leaves from
power-on. -/
def digital_req1 : Dev := mode_w power_on 0

/-- Digital mode with `interface = 1` (Mega Drive) and `req = 1`. -/
def md_req1 : Dev := interface_w (mode_w power_on 0) 1

/-- Digital mode with `interface = 1` (Mega Drive) and `req = 0`. -/
def md_req0 : Dev := req_w (interface_w (mode_w power_on 0) 1) 0 0xffff centred

/-- A button word with only Select (bit 4) pressed; buttons are active-low. -/
def select_pressed : Nat := 0xffef

end micom_xe_1a_device

/-! ### What the sampler fetches, and the documented tables -/

/-- The bytes `pixdata` the `while` loop reads for a level, in order, for at
most `fuel` iterations: the same loop as `lvl_loop`, recording the byte each
iteration computes from the sprite ROM. -/
def lvl_pixdata (c : SampleCfg) (m_spriteroms : Nat → Nat) (level : Nat) : Nat → Lvl → List Nat
  | 0, _ => []
  | fuel + 1, t =>
    if t.frac ≥ c.T then
      ((m_spriteroms (c.rom_index level (c.offs_of t.offset))
          >>> (not_bit0 (c.offs_of t.offset) * 4)) % 256)
        :: lvl_pixdata c m_spriteroms level fuel (lvl_fetch c m_spriteroms level t)
    else []

/-- The bytes `pixdata` one call of the board's `get_sprite_bits` reads for a
live level, in order. -/
def Board.fetched (b : Board) (m_spriteroms : Nat → Nat) (info : sprite_info) (level : Nat) :
    List Nat :=
  lvl_pixdata b.cfg m_spriteroms level b.cfg.fuel (lvl_start info level)

/-- The logic the comment above each `plb_end` table documents, for the pixel
nibble `n` with CDA, CDB, CDC, CDD its bits 0, 1, 2, 3:
`END = (CDA == 1 && (CDA ^ CDB) == 0 && (CDC ^ CDD) == 0)`,
`PLB = END ^ (CDA == 1 && (CDC ^ CDD) == 0)`, end in bit 1, plb in bit 0. -/
def plb_end_documented (n : Nat) : Nat :=
  let cda := BIT n 0
  let cdb := BIT n 1
  let cdc := BIT n 2
  let cdd := BIT n 3
  let e := decide (cda = 1 ∧ cda ^^^ cdb = 0 ∧ cdc ^^^ cdd = 0)
  let p := xor e (decide (cda = 1 ∧ cdc ^^^ cdd = 0))
  (e.toNat <<< 1) ||| p.toNat

/-- The sprite bits of eight levels whose latched pixel nibbles are `n 0` ..
`n 7`: the OR over the levels `l` of `sprite_expand[n l] << l`, as
`get_sprite_bits` accumulates the `latched` words into `sprdata`. -/
def expanded (n : Nat → Nat) : Nat :=
  (List.range 8).foldl (fun acc l => acc ||| latch_value (n l) l) 0

/-- Eight pixel nibbles, level `l` holding `l + 3`. -/
def ramp_nibbles : Nat → Nat := fun l => (l + 3) % 16


/-! ### Locals of the compositors and palette sizes -/

namespace subroc3d_state

/-- The `uint8_t` `foreraw` of `subroc3d_state::screen_update`, the raw
foreground pixel of the column `xx`. -/
def foreraw_of (e : Env) (xx : Nat) : Nat :=
  let pr1454 := fun i => e.m_proms (0x920 + i)
  if e.m_flip = 0 then e.fore xx % 256
  else e.fore ((pr1454 ((xx >>> 3) &&& 0x1f) <<< 3) ||| (xx &&& 0x07)) % 256

/-- The `uint8_t` `mux` of `subroc3d_state::screen_update`: the output of
IC21/PR1450 selected by PLY0, unless MPLB = 0, in which case it is 0. -/
def mux_of (e : Env) (g : Gathered) (plb : Nat) : Nat :=
  let pr1450 := fun i => e.m_proms (0x500 + i)
  if g.mplb ≠ 0 then
    let offs := (plb ^^^ 0xff) ||| ((e.m_ply &&& 0x02) <<< 7)
    (pr1450 offs >>> ((e.m_ply &&& 0x01) * 4)) % 256
  else 0

/-- The number of pens `subroc3d_state::palette` sets: the bound of its loop. -/
def palette_size : Nat := 256

end subroc3d_state

namespace turbo_state

/-- The number of pens `turbo_state::palette` sets: the bound of its loop. -/
def palette_size : Nat := 256

end turbo_state

namespace buckrog_state

/-- The number of pens `buckrog_state::palette` sets: the bound of its loop. -/
def palette_size : Nat := 1024

/-- Gathered values that send the cascade to its last rule whenever no sprite
asserts PLB: bits 7 and 6 of `forebits` set, no star. -/
def fallback_gathered : Gathered := { forebits := 0xc0, star := 0 }

end buckrog_state

/-- The environment `ones_env` with every byte of the background colour ROM
equal to `0xff`. -/
def bright_env : Env := { ones_env with m_bgcolorrom := fun _ => 0xff }

/-! ## Theorems -/

/-! ### The three loop bodies are instances of the common one -/

theorem turbo_prepare_sprite_eq (m_proms xs : Nat → Nat) (y : Nat) (v : Video) (n : Nat) :
    turbo_state.prepare_sprite m_proms xs y v n
      = prepare_sprite_gen (Board.turbo.ctx m_proms xs y) v n := by
  simp only [turbo_state.prepare_sprite, prepare_sprite_gen, slot_enabled, alu_clo, alu_chi,
    alu_sum, alu_lo, prom_bit, sl_en, sl_sum, sl_bit, sl_off, sl_step, Board.ctx, Board.inv,
    Board.sh, Board.prom_base, prom_index, row_offset, word16, level_load, ram_writeback,
    Nat.shiftLeft_zero, decide_eq_true_eq, beq_iff_eq]

theorem subroc3d_prepare_sprite_eq (m_proms xs : Nat → Nat) (y : Nat) (v : Video) (n : Nat) :
    subroc3d_state.prepare_sprite m_proms xs y v n
      = prepare_sprite_gen (Board.subroc3d.ctx m_proms xs y) v n := by
  simp only [subroc3d_state.prepare_sprite, prepare_sprite_gen, slot_enabled, alu_clo, alu_chi,
    alu_sum, alu_lo, prom_bit, sl_en, sl_sum, sl_bit, sl_off, sl_step, Board.ctx, Board.inv,
    Board.sh, Board.prom_base, prom_index, row_offset, word16, level_load, ram_writeback,
    Nat.xor_zero, decide_eq_true_eq, beq_iff_eq]

theorem buckrog_prepare_sprite_eq (m_proms xs : Nat → Nat) (y : Nat) (v : Video) (n : Nat) :
    buckrog_state.prepare_sprite m_proms xs y v n
      = prepare_sprite_gen (Board.buckrog.ctx m_proms xs y) v n := by
  simp only [buckrog_state.prepare_sprite, prepare_sprite_gen, slot_enabled, alu_clo, alu_chi,
    alu_sum, alu_lo, prom_bit, sl_en, sl_sum, sl_bit, sl_off, sl_step, Board.ctx, Board.inv,
    Board.sh, Board.prom_base, prom_index, row_offset, word16, level_load, ram_writeback,
    Nat.xor_zero, decide_eq_true_eq, beq_iff_eq]

theorem board_prepare_sprites_eq (b : Board) (m_proms xs : Nat → Nat) (y : Nat) (v : Video) :
    b.prepare_sprites m_proms xs y v
      = prepare_upto (b.ctx m_proms xs y)
          { v with m_sprite_info := { v.m_sprite_info with ve := 0, lst := 0 } } 16 := by
  cases b
  · have h : turbo_state.prepare_sprite m_proms xs y
        = prepare_sprite_gen (Board.turbo.ctx m_proms xs y) := by
      funext v n; exact turbo_prepare_sprite_eq m_proms xs y v n
    simp only [Board.prepare_sprites, turbo_state.prepare_sprites, h, prepare_upto]
  · have h : subroc3d_state.prepare_sprite m_proms xs y
        = prepare_sprite_gen (Board.subroc3d.ctx m_proms xs y) := by
      funext v n; exact subroc3d_prepare_sprite_eq m_proms xs y v n
    simp only [Board.prepare_sprites, subroc3d_state.prepare_sprites, h, prepare_upto]
  · have h : buckrog_state.prepare_sprite m_proms xs y
        = prepare_sprite_gen (Board.buckrog.ctx m_proms xs y) := by
      funext v n; exact buckrog_prepare_sprite_eq m_proms xs y v n
    simp only [Board.prepare_sprites, buckrog_state.prepare_sprites, h, prepare_upto]

/-! ### The loop of `prepare_sprites`, slot by slot -/

theorem prepare_upto_succ (c : PrepCtx) (v : Video) (k : Nat) :
    prepare_upto c v (k + 1) = prepare_sprite_gen c (prepare_upto c v k) k := by
  simp only [prepare_upto, List.range_succ, List.foldl_append, List.foldl_cons, List.foldl_nil]

theorem sl_congr (c : PrepCtx) (ram ram2 : Nat → Nat) (n : Nat)
    (h : ∀ i, i < 8 → ram2 (n * 8 + i) = ram (n * 8 + i)) :
    sl_en c ram2 n = sl_en c ram n ∧ sl_bit c ram2 n = sl_bit c ram n ∧
      sl_off c ram2 n = sl_off c ram n ∧ sl_step c ram2 n = sl_step c ram n := by
  simp only [sl_en, sl_bit, sl_sum, sl_off, sl_step, h 0 (by omega), h 1 (by omega),
    h 2 (by omega), h 3 (by omega), h 4 (by omega), h 5 (by omega), h 6 (by omega),
    h 7 (by omega), and_self]

theorem ram_writeback_apply (ram : Nat → Nat) (n bit off a : Nat) :
    ram_writeback ram n bit off a =
      if bit = 0 ∧ a = n * 8 + 6 then off % 256
      else if bit = 0 ∧ a = n * 8 + 7 then (off >>> 8) % 256
      else ram a := by
  unfold ram_writeback store
  by_cases hb : bit = 0
  · by_cases h7 : a = n * 8 + 7
    · have h6 : ¬ a = n * 8 + 6 := by omega
      simp [hb, h7]
    · by_cases h6 : a = n * 8 + 6
      · simp [hb, h6]
      · simp [hb, h6, h7]
  · simp [hb]

theorem prepare_sprite_gen_ram (c : PrepCtx) (v : Video) (n a : Nat) :
    (prepare_sprite_gen c v n).spriteram a =
      if a / 8 = n then ram_after c v.spriteram a else v.spriteram a := by
  have h : (prepare_sprite_gen c v n).spriteram a =
      if sl_en c v.spriteram n = true then
        ram_writeback v.spriteram n (sl_bit c v.spriteram n) (sl_off c v.spriteram n) a
      else v.spriteram a := by
    unfold prepare_sprite_gen
    by_cases he : sl_en c v.spriteram n = true
    · rw [if_pos he, if_pos he]
    · rw [if_neg he, if_neg he]
  rw [h, ram_writeback_apply]
  by_cases hn : a / 8 = n
  · have h7 : (a = n * 8 + 7) ↔ a % 8 = 7 := by omega
    have h6 : (a = n * 8 + 6) ↔ a % 8 = 6 := by omega
    unfold ram_after
    simp only [h7, h6, hn, if_true]
    by_cases he : sl_en c v.spriteram n = true
    · by_cases hb : sl_bit c v.spriteram n = 0
      · simp only [he, hb, and_self, true_and, if_true]
      · simp only [he, hb, and_false, false_and, if_true, if_false]
    · simp only [he, false_and, if_false, Bool.false_eq_true]
  · have h7 : ¬ a = n * 8 + 7 := by omega
    have h6 : ¬ a = n * 8 + 6 := by omega
    simp only [hn, h6, h7, and_false, if_false, ite_self]

/-- Sprite RAM after the first `k` slots: the bytes of the slots below `k` are
those of `ram_after`, the others are untouched. -/
theorem prepare_upto_ram (c : PrepCtx) (v : Video) (k a : Nat) :
    (prepare_upto c v k).spriteram a =
      if a / 8 < k then ram_after c v.spriteram a else v.spriteram a := by
  induction k generalizing a with
  | zero => simp [prepare_upto]
  | succ k ih =>
    rw [prepare_upto_succ, prepare_sprite_gen_ram]
    by_cases hk : a / 8 = k
    · have hlt : a / 8 < k + 1 := by omega
      have hread : ∀ i, i < 8 →
          (prepare_upto c v k).spriteram (a / 8 * 8 + i) = v.spriteram (a / 8 * 8 + i) := by
        intro i hi
        rw [ih]
        have : ¬ (a / 8 * 8 + i) / 8 < k := by omega
        simp only [this, if_false]
      obtain ⟨h1, h2, h3, _⟩ := sl_congr c v.spriteram (prepare_upto c v k).spriteram (a / 8) hread
      have hself : (prepare_upto c v k).spriteram a = v.spriteram a := by
        rw [ih]
        have : ¬ a / 8 < k := by omega
        simp only [this, if_false]
      subst hk
      simp only [hlt, if_true, ram_after, h1, h2, h3, hself]
    · simp only [hk, if_false]
      rw [ih]
      by_cases hlt : a / 8 < k
      · have : a / 8 < k + 1 := by omega
        simp only [hlt, this, if_true]
      · have : ¬ a / 8 < k + 1 := by omega
        simp only [hlt, this, if_false]

/-- What slot `k` reads when its turn comes is what the sprite RAM held at entry. -/
theorem prepare_upto_reads (c : PrepCtx) (v : Video) (k : Nat) :
    sl_en c (prepare_upto c v k).spriteram k = sl_en c v.spriteram k ∧
      sl_bit c (prepare_upto c v k).spriteram k = sl_bit c v.spriteram k ∧
      sl_off c (prepare_upto c v k).spriteram k = sl_off c v.spriteram k ∧
      sl_step c (prepare_upto c v k).spriteram k = sl_step c v.spriteram k := by
  apply sl_congr
  intro i hi
  rw [prepare_upto_ram]
  have : ¬ (k * 8 + i) / 8 < k := by omega
  simp only [this, if_false]

theorem prepare_upto_info (c : PrepCtx) (v : Video) (k : Nat) :
    (prepare_upto c v (k + 1)).m_sprite_info =
      if sl_en c v.spriteram k = true then
        level_load (prepare_upto c v k).m_sprite_info k
          ((sl_off c v.spriteram k <<< c.sh) % 2 ^ 32) (sl_step c v.spriteram k)
      else (prepare_upto c v k).m_sprite_info := by
  obtain ⟨h1, _, h3, h4⟩ := prepare_upto_reads c v k
  rw [prepare_upto_succ]
  unfold prepare_sprite_gen
  rw [h1, h3, h4]
  by_cases he : sl_en c v.spriteram k = true
  · simp only [he, if_true]
  · simp only [he, if_false, Bool.false_eq_true]

theorem prepare_upto_lst (c : PrepCtx) (v : Video) (k : Nat) :
    (prepare_upto c v k).m_sprite_info.lst = v.m_sprite_info.lst := by
  induction k with
  | zero => simp [prepare_upto]
  | succ k ih =>
    rw [prepare_upto_info]
    by_cases he : sl_en c v.spriteram k = true
    · simp only [he, if_true, level_load, ih]
    · simp only [he, if_false, ih, Bool.false_eq_true]

theorem testBit_ve_store (ve k n : Nat) :
    ((ve ||| (1 <<< k)) % 2 ^ 16).testBit n = (decide (n < 16) && (ve.testBit n || decide (k = n))) := by
  rw [Nat.testBit_mod_two_pow, Nat.testBit_or, Nat.one_shiftLeft, Nat.testBit_two_pow]

theorem prepare_upto_ve (c : PrepCtx) (v : Video) (hv : v.m_sprite_info.ve = 0) (k n : Nat)
    (hk : k ≤ 16) :
    (prepare_upto c v k).m_sprite_info.ve.testBit n = (decide (n < k) && sl_en c v.spriteram n) := by
  induction k with
  | zero => simp [prepare_upto, hv]
  | succ k ih =>
    have ih2 := ih (by omega)
    have hload : ∀ off st, (level_load (prepare_upto c v k).m_sprite_info k off st).ve.testBit n
        = (decide (n < 16) && ((decide (n < k) && sl_en c v.spriteram n) || decide (k = n))) := by
      intro off st
      show (((prepare_upto c v k).m_sprite_info.ve ||| (1 <<< k)) % 2 ^ 16).testBit n = _
      rw [testBit_ve_store, ih2]
    rw [prepare_upto_info]
    by_cases he : sl_en c v.spriteram k = true
    · rw [if_pos he, hload]
      rcases Nat.lt_trichotomy n k with h1 | h1 | h1
      · have h2 : n < 16 := by omega
        have h3 : n < k + 1 := by omega
        have h5 : ¬ k = n := by omega
        simp only [h1, h2, h3, h5, decide_True, decide_False, Bool.true_and, Bool.or_false]
      · have h2 : n < 16 := by omega
        have h3 : n < k + 1 := by omega
        have h5 : ¬ n < k := by omega
        subst h1
        simp [h2, he]
      · have h3 : ¬ n < k + 1 := by omega
        have h4 : ¬ n < k := by omega
        have h5 : ¬ k = n := by omega
        simp only [h3, h4, h5, decide_False, Bool.false_and, Bool.or_false, Bool.and_false]
    · rw [if_neg he, ih2]
      by_cases h4 : n = k
      · have h3 : n < k + 1 := by omega
        have h5 : ¬ n < k := by omega
        have he2 : sl_en c v.spriteram n = false := by
          rw [h4]; simpa using he
        simp only [h3, h5, he2, decide_True, decide_False, Bool.and_false]
      · have : n < k + 1 ↔ n < k := by omega
        simp only [this]

theorem level_state_load (info : sprite_info) (n off st l : Nat) :
    level_state (level_load info n off st) l =
      if l = n &&& 7 then (0, 0, off, 0, st) else level_state info l := by
  unfold level_state level_load store
  by_cases h : l = n &&& 7
  · simp only [h, if_true]
  · simp only [h, if_false]

theorem and_seven (n : Nat) : n &&& 7 = n % 8 := by
  have h := Nat.and_pow_two_sub_one_eq_mod n 3
  simpa using h

/-- The per-level members after the first `k` slots (`k ≤ 16`): those loaded by
slot `l + 8` when it has been processed and is enabled, otherwise those loaded
by slot `l` when it has been processed and is enabled, otherwise unchanged. -/
theorem prepare_upto_level (c : PrepCtx) (v : Video) (k l : Nat) (hk : k ≤ 16) :
    level_state (prepare_upto c v k).m_sprite_info l =
      if l < 8 ∧ l + 8 < k ∧ sl_en c v.spriteram (l + 8) = true then slot_load c v.spriteram (l + 8)
      else if l < 8 ∧ l < k ∧ sl_en c v.spriteram l = true then slot_load c v.spriteram l
      else level_state v.m_sprite_info l := by
  induction k with
  | zero => simp [prepare_upto]
  | succ k ih =>
    have ih2 := ih (by omega)
    rw [prepare_upto_info]
    by_cases he : sl_en c v.spriteram k = true
    · simp only [he, if_true, level_state_load, and_seven, ih2]
      by_cases hl : l = k % 8
      · simp only [hl, if_true]
        by_cases hk8 : k < 8
        · have e : k % 8 = k := by omega
          have a1 : ¬ (k + 8 < k + 1) := by omega
          have a2 : k < k + 1 := by omega
          rw [e]
          simp only [a1, a2, he, hk8, false_and, and_false, and_self, if_true, if_false, slot_load]
        · have e : k = k % 8 + 8 := by omega
          have a1 : k % 8 < 8 := by omega
          have a2 : k % 8 + 8 < k + 1 := by omega
          have he2 : sl_en c v.spriteram (k % 8 + 8) = true := by rw [← e]; exact he
          simp only [a1, a2, he2, and_self, if_true, slot_load]
          rw [← e]
      · simp only [hl, if_false]
        have a1 : l < 8 → (l + 8 < k + 1 ↔ l + 8 < k) := by omega
        have a2 : l < 8 → (l < k + 1 ↔ l < k) := by omega
        by_cases h8 : l < 8
        · simp only [h8, a1 h8, a2 h8, true_and]
        · simp only [h8, false_and, if_false]
    · simp only [he, if_false, ih2, Bool.false_eq_true]
      have key1 : (l < 8 ∧ l + 8 < k + 1 ∧ sl_en c v.spriteram (l + 8) = true) ↔
          (l < 8 ∧ l + 8 < k ∧ sl_en c v.spriteram (l + 8) = true) := by
        constructor
        · rintro ⟨h1, h2, h3⟩
          refine ⟨h1, ?_, h3⟩
          rcases Nat.lt_or_ge (l + 8) k with h | h
          · exact h
          · have e : l + 8 = k := by omega
            rw [e] at h3
            exact absurd h3 he
        · rintro ⟨h1, h2, h3⟩
          exact ⟨h1, by omega, h3⟩
      have key2 : (l < 8 ∧ l < k + 1 ∧ sl_en c v.spriteram l = true) ↔
          (l < 8 ∧ l < k ∧ sl_en c v.spriteram l = true) := by
        constructor
        · rintro ⟨h1, h2, h3⟩
          refine ⟨h1, ?_, h3⟩
          rcases Nat.lt_or_ge l k with h | h
          · exact h
          · have e : l = k := by omega
            rw [e] at h3
            exact absurd h3 he
        · rintro ⟨h1, h2, h3⟩
          exact ⟨h1, by omega, h3⟩
      simp only [key1, key2]

/-! ### The state `prepare_sprites` leaves -/

theorem prepare_sprites_ve (b : Board) (m_proms xs : Nat → Nat) (y : Nat) (v : Video) (n : Nat) :
    (b.prepare_sprites m_proms xs y v).m_sprite_info.ve.testBit n =
      (decide (n < 16) && sl_en (b.ctx m_proms xs y) v.spriteram n) := by
  rw [board_prepare_sprites_eq]
  exact prepare_upto_ve _ _ rfl 16 n (Nat.le_refl 16)

theorem prepare_sprites_lst (b : Board) (m_proms xs : Nat → Nat) (y : Nat) (v : Video) :
    (b.prepare_sprites m_proms xs y v).m_sprite_info.lst = 0 := by
  rw [board_prepare_sprites_eq, prepare_upto_lst]

theorem prepare_sprites_ram (b : Board) (m_proms xs : Nat → Nat) (y : Nat) (v : Video) (a : Nat) :
    (b.prepare_sprites m_proms xs y v).spriteram a =
      if a / 8 < 16 then ram_after (b.ctx m_proms xs y) v.spriteram a else v.spriteram a := by
  rw [board_prepare_sprites_eq, prepare_upto_ram]

theorem prepare_sprites_level (b : Board) (m_proms xs : Nat → Nat) (y : Nat) (v : Video)
    (l : Nat) (hl : l < 8) :
    level_state (b.prepare_sprites m_proms xs y v).m_sprite_info l =
      if sl_en (b.ctx m_proms xs y) v.spriteram (l + 8) = true then
        slot_load (b.ctx m_proms xs y) v.spriteram (l + 8)
      else if sl_en (b.ctx m_proms xs y) v.spriteram l = true then
        slot_load (b.ctx m_proms xs y) v.spriteram l
      else level_state v.m_sprite_info l := by
  rw [board_prepare_sprites_eq, prepare_upto_level _ _ 16 l (Nat.le_refl 16)]
  have a1 : l + 8 < 16 := by omega
  have a2 : l < 16 := by omega
  simp only [hl, a1, a2, true_and]
  rfl

/-! ### Arithmetic of the enable ALU and of the row offset -/

theorem and_one_le (x : Nat) : x &&& 1 ≤ 1 := Nat.and_le_right

theorem xor_ff_lt (r : Nat) (h : r < 256) : r ^^^ 0xff < 256 :=
  Nat.xor_lt_two_pow (n := 8) h (by decide)

theorem board_inv_xor_lt (b : Board) (r : Nat) (h : r < 256) : r ^^^ b.inv < 256 := by
  cases b
  · exact xor_ff_lt r h
  · simpa [Board.inv] using h
  · simpa [Board.inv] using h

theorem alu_clo_le (inv y r0 : Nat) : alu_clo inv y r0 ≤ 1 := by
  unfold alu_clo
  have h := and_one_le (alu_lo inv y r0 >>> 8)
  omega

theorem alu_chi_le (inv y r0 r1 : Nat) : alu_chi inv y r0 r1 ≤ 1 := by
  unfold alu_chi
  have h := and_one_le (alu_sum inv y r0 r1 >>> 16)
  omega

/-- The enable condition `clo & (chi ^ 1)` holds exactly when `clo = 1` and `chi = 0`. -/
theorem slot_enabled_iff (inv y r0 r1 : Nat) :
    slot_enabled inv y r0 r1 = true ↔ alu_clo inv y r0 = 1 ∧ alu_chi inv y r0 r1 = 0 := by
  unfold slot_enabled
  have h1 := alu_clo_le inv y r0
  have h2 := alu_chi_le inv y r0 r1
  rw [decide_eq_true_iff]
  have c1 : alu_clo inv y r0 = 0 ∨ alu_clo inv y r0 = 1 := by omega
  have c2 : alu_chi inv y r0 r1 = 0 ∨ alu_chi inv y r0 r1 = 1 := by omega
  rcases c1 with c1 | c1 <;> rcases c2 with c2 | c2 <;> rw [c1, c2] <;> decide

/-- For bytes, the `uint32_t` and `uint8_t` truncations of the ALU do nothing. -/
theorem alu_clo_bytes (inv y r0 : Nat) (hy : y < 256) (h0 : r0 ^^^ inv < 256) :
    alu_clo inv y r0 = ((y + (r0 ^^^ inv)) >>> 8) &&& 1 := by
  unfold alu_clo alu_lo
  have h := and_one_le ((y + (r0 ^^^ inv)) >>> 8)
  rw [Nat.mod_eq_of_lt (show y + (r0 ^^^ inv) < 2 ^ 32 by omega)]
  omega

theorem alu_sum_bytes (inv y r0 r1 : Nat) (hy : y < 256) (h0 : r0 ^^^ inv < 256)
    (h1 : r1 ^^^ inv < 256) :
    alu_sum inv y r0 r1 = y + (r0 ^^^ inv) + ((y <<< 8) + ((r1 ^^^ inv) <<< 8)) := by
  unfold alu_sum alu_lo
  rw [Nat.mod_eq_of_lt (show y + (r0 ^^^ inv) < 2 ^ 32 by omega)]
  apply Nat.mod_eq_of_lt
  rw [Nat.shiftLeft_eq, Nat.shiftLeft_eq]
  omega

theorem alu_chi_bytes (inv y r0 r1 : Nat) (hy : y < 256) (h0 : r0 ^^^ inv < 256)
    (h1 : r1 ^^^ inv < 256) :
    alu_chi inv y r0 r1
      = ((y + (r0 ^^^ inv) + ((y <<< 8) + ((r1 ^^^ inv) <<< 8))) >>> 16) &&& 1 := by
  unfold alu_chi
  rw [alu_sum_bytes inv y r0 r1 hy h0 h1]
  have h := and_one_le ((y + (r0 ^^^ inv) + ((y <<< 8) + ((r1 ^^^ inv) <<< 8))) >>> 16)
  omega

theorem word16_lt (lo hi : Nat) : word16 lo hi < 65536 := by
  unfold word16
  omega

theorem row_offset_lt (bit r4 r5 r6 r7 : Nat) : row_offset bit r4 r5 r6 r7 < 65536 := by
  unfold row_offset
  split
  · omega
  · exact word16_lt r6 r7

/-- Writing a 16-bit value back as two bytes and reading the word again. -/
theorem word16_split (x : Nat) (h : x < 65536) : word16 (x % 256) ((x >>> 8) % 256) = x := by
  unfold word16
  rw [Nat.shiftLeft_eq, Nat.shiftRight_eq_div_pow]
  omega

/-! ### C1: the enable ALU at `row0 = row1 = 0`, `y = 0` -/

/-- C1, as stated, fails: with an all-zero sprite RAM, on scanline 0, it is not
the case that slot 0 has `clo = 1`, `chi = 0` and its `ve` bit set, on any of
the three boards. -/
theorem C1_counterexample :
    ¬ (alu_clo Board.turbo.inv 0 (blank_video.spriteram 0) = 1 ∧
        alu_chi Board.turbo.inv 0 (blank_video.spriteram 0) (blank_video.spriteram 1) = 0 ∧
        (Board.turbo.prepare_sprites (fun _ => 0) (fun _ => 0) 0
          blank_video).m_sprite_info.ve.testBit 0 = true) ∧
    ¬ (alu_clo Board.subroc3d.inv 0 (blank_video.spriteram 0) = 1 ∧
        alu_chi Board.subroc3d.inv 0 (blank_video.spriteram 0) (blank_video.spriteram 1) = 0 ∧
        (Board.subroc3d.prepare_sprites (fun _ => 0) (fun _ => 0) 0
          blank_video).m_sprite_info.ve.testBit 0 = true) ∧
    ¬ (alu_clo Board.buckrog.inv 0 (blank_video.spriteram 0) = 1 ∧
        alu_chi Board.buckrog.inv 0 (blank_video.spriteram 0) (blank_video.spriteram 1) = 0 ∧
        (Board.buckrog.prepare_sprites (fun _ => 0) (fun _ => 0) 0
          blank_video).m_sprite_info.ve.testBit 0 = true) := by
  refine ⟨fun h => ?_, fun h => ?_, fun h => ?_⟩ <;> exact absurd h.1 (by decide)

/-- C1, amended: for a slot whose y-compare bytes are `row0 = row1 = 0`, on
scanline `y = 0`, the enable ALU of `prepare_sprites` evaluates `clo = 0` and
`chi = 0`, so the slot is not enabled (its `ve` bit is clear), on each board. -/
theorem C1_row_zero_not_enabled (b : Board) (m_proms xs : Nat → Nat) (v : Video) (n : Nat)
    (h0 : v.spriteram (n * 8 + 0) = 0) (h1 : v.spriteram (n * 8 + 1) = 0) :
    alu_clo b.inv 0 (v.spriteram (n * 8 + 0)) = 0 ∧
      alu_chi b.inv 0 (v.spriteram (n * 8 + 0)) (v.spriteram (n * 8 + 1)) = 0 ∧
      (b.prepare_sprites m_proms xs 0 v).m_sprite_info.ve.testBit n = false := by
  have hclo : alu_clo b.inv 0 0 = 0 := by cases b <;> decide
  have hchi : alu_chi b.inv 0 0 0 = 0 := by cases b <;> decide
  refine ⟨by rw [h0]; exact hclo, by rw [h0, h1]; exact hchi, ?_⟩
  rw [prepare_sprites_ve]
  have hen : sl_en (b.ctx m_proms xs 0) v.spriteram n = false := by
    cases hs : sl_en (b.ctx m_proms xs 0) v.spriteram n with
    | false => rfl
    | true =>
      have h := (slot_enabled_iff b.inv 0 (v.spriteram (n * 8 + 0)) (v.spriteram (n * 8 + 1))).1 hs
      rw [h0] at h
      omega
  rw [hen, Bool.and_false]

theorem C1_row_zero_not_enabled_witness :
    (blank_video.spriteram (0 * 8 + 0) = 0 ∧ blank_video.spriteram (0 * 8 + 1) = 0) ∧
    (alu_clo Board.turbo.inv 0 (blank_video.spriteram (0 * 8 + 0)) = 0 ∧
      alu_chi Board.turbo.inv 0 (blank_video.spriteram (0 * 8 + 0))
        (blank_video.spriteram (0 * 8 + 1)) = 0 ∧
      (Board.turbo.prepare_sprites (fun _ => 0) (fun _ => 0) 0
        blank_video).m_sprite_info.ve.testBit 0 = false) :=
  ⟨⟨rfl, rfl⟩,
    C1_row_zero_not_enabled Board.turbo (fun _ => 0) (fun _ => 0) blank_video 0 rfl rfl⟩

/-! ### C3: the enable condition -/

/-- The `ve` bit of slot `n` in terms of the board's ALU. -/
theorem ve_bit_iff (b : Board) (m_proms xs : Nat → Nat) (y : Nat) (v : Video) (n : Nat)
    (hy : y < 256) (hv : ∀ a, v.spriteram a < 256) (hn : n < 16) :
    (b.prepare_sprites m_proms xs y v).m_sprite_info.ve.testBit n = true ↔
      (((y + (v.spriteram (n * 8 + 0) ^^^ b.inv)) >>> 8) &&& 1 = 1 ∧
        ((y + (v.spriteram (n * 8 + 0) ^^^ b.inv) +
          ((y <<< 8) + ((v.spriteram (n * 8 + 1) ^^^ b.inv) <<< 8))) >>> 16) &&& 1 = 0) := by
  have x0 := board_inv_xor_lt b _ (hv (n * 8 + 0))
  have x1 := board_inv_xor_lt b _ (hv (n * 8 + 1))
  rw [prepare_sprites_ve, ← alu_clo_bytes b.inv y _ hy x0, ← alu_chi_bytes b.inv y _ _ hy x0 x1,
    ← slot_enabled_iff]
  simp only [hn, decide_True, Bool.true_and]
  rfl

/-- C3, as stated, fails on Subroc 3D: with `row0 = 0xff`, `row1 = 0` in slot 0
and `y = 1` the slot is enabled, although the carry out of bit 7 of
`y + (row0 XOR 0xff)` is 0. -/
theorem C3_counterexample :
    ¬ ((Board.subroc3d.prepare_sprites (fun _ => 0) (fun _ => 0) 1
          slot0_ff_video).m_sprite_info.ve.testBit 0 = true ↔
        (((1 + (slot0_ff_video.spriteram 0 ^^^ 0xff)) >>> 8) &&& 1 = 1 ∧
          ((1 + (slot0_ff_video.spriteram 0 ^^^ 0xff) +
            ((1 <<< 8) + ((slot0_ff_video.spriteram 1 ^^^ 0xff) <<< 8))) >>> 16) &&& 1 = 0)) := by
  intro h
  have hen : (Board.subroc3d.prepare_sprites (fun _ => 0) (fun _ => 0) 1
      slot0_ff_video).m_sprite_info.ve.testBit 0 = true := by
    rw [prepare_sprites_ve]
    decide
  exact absurd (h.1 hen).1 (by decide)

/-- C3, amended: for every scanline byte `y` and every slot, `prepare_sprites`
enables the slot exactly when `clo = 1` and `chi = 0`, where on Turbo `clo` is
the carry out of bit 7 of `y + (row0 XOR 0xff)` and `chi` is bit 16 of that sum
after adding `(y << 8) + ((row1 XOR 0xff) << 8)`, and on Subroc 3D and Buck
Rogers `clo` is the carry out of bit 7 of `y + row0` and `chi` is bit 16 of that
sum after adding `(y << 8) + (row1 << 8)`: their compare bytes are not inverted. -/
theorem C3_enable_condition (m_proms xs : Nat → Nat) (y : Nat) (v : Video) (n : Nat)
    (hy : y < 256) (hv : ∀ a, v.spriteram a < 256) (hn : n < 16) :
    ((Board.turbo.prepare_sprites m_proms xs y v).m_sprite_info.ve.testBit n = true ↔
      (((y + (v.spriteram (n * 8 + 0) ^^^ 0xff)) >>> 8) &&& 1 = 1 ∧
        ((y + (v.spriteram (n * 8 + 0) ^^^ 0xff) +
          ((y <<< 8) + ((v.spriteram (n * 8 + 1) ^^^ 0xff) <<< 8))) >>> 16) &&& 1 = 0)) ∧
    ((Board.subroc3d.prepare_sprites m_proms xs y v).m_sprite_info.ve.testBit n = true ↔
      (((y + v.spriteram (n * 8 + 0)) >>> 8) &&& 1 = 1 ∧
        ((y + v.spriteram (n * 8 + 0) +
          ((y <<< 8) + (v.spriteram (n * 8 + 1) <<< 8))) >>> 16) &&& 1 = 0)) ∧
    ((Board.buckrog.prepare_sprites m_proms xs y v).m_sprite_info.ve.testBit n = true ↔
      (((y + v.spriteram (n * 8 + 0)) >>> 8) &&& 1 = 1 ∧
        ((y + v.spriteram (n * 8 + 0) +
          ((y <<< 8) + (v.spriteram (n * 8 + 1) <<< 8))) >>> 16) &&& 1 = 0)) := by
  have ht := ve_bit_iff Board.turbo m_proms xs y v n hy hv hn
  have hs := ve_bit_iff Board.subroc3d m_proms xs y v n hy hv hn
  have hb := ve_bit_iff Board.buckrog m_proms xs y v n hy hv hn
  simp only [Board.inv, Nat.xor_zero] at ht hs hb
  exact ⟨ht, hs, hb⟩

theorem C3_enable_condition_witness :
    (1 < 256 ∧ (∀ a, slot0_ff_video.spriteram a < 256) ∧ 0 < 16) ∧
    ((Board.subroc3d.prepare_sprites (fun _ => 0) (fun _ => 0) 1
        slot0_ff_video).m_sprite_info.ve.testBit 0 = true ↔
      (((1 + slot0_ff_video.spriteram (0 * 8 + 0)) >>> 8) &&& 1 = 1 ∧
        ((1 + slot0_ff_video.spriteram (0 * 8 + 0) +
          ((1 <<< 8) + (slot0_ff_video.spriteram (0 * 8 + 1) <<< 8))) >>> 16) &&& 1 = 0)) :=
  ⟨⟨by decide, fun a => by unfold slot0_ff_video; dsimp only; split <;> decide, by decide⟩,
    (C3_enable_condition (fun _ => 0) (fun _ => 0) 1 slot0_ff_video 0 (by decide)
      (fun a => by unfold slot0_ff_video; dsimp only; split <;> decide) (by decide)).2.1⟩

/-! ### C8: the sprite expansion table, shifted to a level -/

set_option maxRecDepth 100000 in
theorem latch_value_fits : ∀ n < 16, ∀ l < 8,
    sprite_expand.getD n 0 <<< l < 2 ^ 32 ∧ latch_value n l = sprite_expand.getD n 0 <<< l := by
  decide

set_option maxRecDepth 100000 in
theorem latch_value_bits : ∀ n < 16, ∀ l < 8, ∀ k < 32,
    (latch_value n l).testBit k = (decide (k % 8 = l) && n.testBit (k / 8)) := by
  decide!

set_option maxRecDepth 100000 in
theorem latch_value_disjoint : ∀ n < 16, ∀ l < 8, ∀ m < 16, ∀ l2 < 8, l2 ≠ l →
    latch_value n l &&& latch_value m l2 = 0 := by
  decide!

/-- C8: for every nibble `n` in 0..15 and level `l` in 0..7, the 32-bit value
`sprite_expand[n] << l` has bit `8i + l` set exactly when bit `i` of `n` is set
(`i = 0..3`) and no other bit set; no bit is shifted out of the word, and the
patterns of different levels never overlap. -/
theorem C8_sprite_expand_shift (n l : Nat) (hn : n < 16) (hl : l < 8) :
    (∀ k, (latch_value n l).testBit k = true ↔ ∃ i, i < 4 ∧ k = 8 * i + l ∧ n.testBit i = true) ∧
    sprite_expand.getD n 0 <<< l < 2 ^ 32 ∧
    latch_value n l = sprite_expand.getD n 0 <<< l ∧
    (∀ m l2, m < 16 → l2 < 8 → l2 ≠ l → latch_value n l &&& latch_value m l2 = 0) := by
  refine ⟨fun k => ?_, (latch_value_fits n hn l hl).1, (latch_value_fits n hn l hl).2,
    fun m l2 hm hl2 hne => latch_value_disjoint n hn l hl m hm l2 hl2 hne⟩
  by_cases hk : k < 32
  · rw [latch_value_bits n hn l hl k hk]
    simp only [Bool.and_eq_true, decide_eq_true_eq]
    constructor
    · rintro ⟨h1, h2⟩
      exact ⟨k / 8, by omega, by omega, h2⟩
    · rintro ⟨i, hi, hki, hb⟩
      have e : k / 8 = i := by omega
      exact ⟨by omega, by rw [e]; exact hb⟩
  · have hlt : latch_value n l < 2 ^ k := by
      have h1 : latch_value n l < 2 ^ 32 := by
        unfold latch_value
        exact Nat.mod_lt _ (by decide)
      exact Nat.lt_of_lt_of_le h1 (Nat.pow_le_pow_right (by decide) (by omega))
    rw [Nat.testBit_lt_two_pow hlt]
    constructor
    · intro h; exact absurd h (by decide)
    · rintro ⟨i, hi, hki, _⟩
      omega

theorem C8_sprite_expand_shift_witness :
    (5 < 16 ∧ 3 < 8) ∧ latch_value 5 3 = sprite_expand.getD 5 0 <<< 3 :=
  ⟨⟨by decide, by decide⟩, (C8_sprite_expand_shift 5 3 (by decide) (by decide)).2.2.1⟩

/-! ### C9: the conditional advance of the row offset -/

theorem slot_addr (n i : Nat) (hi : i < 8) : (n * 8 + i) / 8 = n ∧ (n * 8 + i) % 8 = i := by
  omega

/-- Byte `i` of slot `n` after `prepare_sprites`. -/
theorem prepare_sprites_slot_byte (b : Board) (m_proms xs : Nat → Nat) (y : Nat) (v : Video)
    (n i : Nat) (hn : n < 16) (hi : i < 8) :
    (b.prepare_sprites m_proms xs y v).spriteram (n * 8 + i) =
      if sl_en (b.ctx m_proms xs y) v.spriteram n = true ∧
          sl_bit (b.ctx m_proms xs y) v.spriteram n = 0 then
        if i = 6 then sl_off (b.ctx m_proms xs y) v.spriteram n % 256
        else if i = 7 then (sl_off (b.ctx m_proms xs y) v.spriteram n >>> 8) % 256
        else v.spriteram (n * 8 + i)
      else v.spriteram (n * 8 + i) := by
  obtain ⟨h1, h2⟩ := slot_addr n i hi
  rw [prepare_sprites_ram, h1, if_pos hn]
  unfold ram_after
  rw [h1, h2]

/-- The row offset of slot `n` in the sprite RAM `prepare_sprites` leaves is the
offset after the conditional advance, whenever the slot is enabled. -/
theorem prepare_sprites_row (b : Board) (m_proms xs : Nat → Nat) (y : Nat) (v : Video) (n : Nat)
    (hn : n < 16) (he : sl_en (b.ctx m_proms xs y) v.spriteram n = true) :
    word16 ((b.prepare_sprites m_proms xs y v).spriteram (n * 8 + 6))
        ((b.prepare_sprites m_proms xs y v).spriteram (n * 8 + 7))
      = sl_off (b.ctx m_proms xs y) v.spriteram n := by
  have e6 := prepare_sprites_slot_byte b m_proms xs y v n 6 hn (by decide)
  have e7 := prepare_sprites_slot_byte b m_proms xs y v n 7 hn (by decide)
  by_cases hb : sl_bit (b.ctx m_proms xs y) v.spriteram n = 0
  · rw [if_pos ⟨he, hb⟩, if_pos rfl] at e6
    rw [if_pos ⟨he, hb⟩, if_neg (by decide), if_pos rfl] at e7
    rw [e6, e7]
    exact word16_split _ (row_offset_lt _ _ _ _ _)
  · rw [if_neg (fun h => hb h.2)] at e6 e7
    rw [e6, e7]
    unfold sl_off row_offset
    rw [if_neg hb]

/-- What an enabled slot `n` loads into its level, in terms of the sprite RAM
`prepare_sprites` leaves. -/
theorem slot_load_eq (b : Board) (m_proms xs : Nat → Nat) (y : Nat) (v : Video) (n : Nat)
    (hn : n < 16) (he : sl_en (b.ctx m_proms xs y) v.spriteram n = true) :
    slot_load (b.ctx m_proms xs y) v.spriteram n =
      (0, 0,
        word16 ((b.prepare_sprites m_proms xs y v).spriteram (n * 8 + 6))
          ((b.prepare_sprites m_proms xs y v).spriteram (n * 8 + 7)) <<< b.sh,
        0, xs (v.spriteram (n * 8 + 2) ^^^ 0xff) % 2 ^ 32) := by
  rw [prepare_sprites_row b m_proms xs y v n hn he]
  have hlt : sl_off (b.ctx m_proms xs y) v.spriteram n < 65536 := row_offset_lt _ _ _ _ _
  have hsh : (sl_off (b.ctx m_proms xs y) v.spriteram n <<< b.sh) % 2 ^ 32
      = sl_off (b.ctx m_proms xs y) v.spriteram n <<< b.sh := by
    apply Nat.mod_eq_of_lt
    rw [Nat.shiftLeft_eq]
    cases b <;> simp only [Board.sh] <;> omega
  unfold slot_load
  rw [show (b.ctx m_proms xs y).sh = b.sh from rfl, hsh]
  rfl

/-- C10: after `prepare_sprites(y)`, `lst = 0`; bit `n` of `ve` is set exactly
when slot `n` (`n = 0..15`) is enabled; and for each level `l` in 0..7: if slot
`l + 8` is enabled, the level's offset and step are those derived from slot
`l + 8`, otherwise if slot `l` is enabled those of slot `l`, with
`latched = plb = frac = 0` in both cases; if neither is enabled the level's
latched, plb, offset, frac and step are unchanged.  The level offset is the
slot's row offset after its conditional advance on Turbo and twice that value
on Subroc 3D and Buck Rogers; the step is `sprite_xscale` of byte 2 of the slot
XOR `0xff`. -/
theorem C10_prepare_sprites_state (b : Board) (m_proms xs : Nat → Nat) (y : Nat) (v : Video) :
    let v2 := b.prepare_sprites m_proms xs y v
    let enabled := fun n => slot_enabled b.inv y (v.spriteram (n * 8 + 0)) (v.spriteram (n * 8 + 1))
    let row := fun n => word16 (v2.spriteram (n * 8 + 6)) (v2.spriteram (n * 8 + 7))
    let step := fun n => xs (v.spriteram (n * 8 + 2) ^^^ 0xff) % 2 ^ 32
    v2.m_sprite_info.lst = 0 ∧
    (∀ n, v2.m_sprite_info.ve.testBit n = true ↔ n < 16 ∧ enabled n = true) ∧
    (∀ l, l < 8 →
      (enabled (l + 8) = true →
        level_state v2.m_sprite_info l = (0, 0, row (l + 8) <<< b.sh, 0, step (l + 8))) ∧
      (enabled (l + 8) = false → enabled l = true →
        level_state v2.m_sprite_info l = (0, 0, row l <<< b.sh, 0, step l)) ∧
      (enabled (l + 8) = false → enabled l = false →
        level_state v2.m_sprite_info l = level_state v.m_sprite_info l)) ∧
    (∀ x, x <<< Board.turbo.sh = x) ∧
    (∀ x, x <<< Board.subroc3d.sh = 2 * x) ∧
    (∀ x, x <<< Board.buckrog.sh = 2 * x) := by
  intro v2 enabled row step
  have hen : ∀ n, enabled n = sl_en (b.ctx m_proms xs y) v.spriteram n := fun _ => rfl
  refine ⟨prepare_sprites_lst b m_proms xs y v, fun n => ?_, fun l hl => ?_, fun x => rfl,
    fun x => ?_, fun x => ?_⟩
  · show (b.prepare_sprites m_proms xs y v).m_sprite_info.ve.testBit n = true ↔ _
    rw [prepare_sprites_ve, hen, Bool.and_eq_true, decide_eq_true_eq]
  · have hlev := prepare_sprites_level b m_proms xs y v l hl
    refine ⟨fun h8 => ?_, fun h8 h0 => ?_, fun h8 h0 => ?_⟩
    · rw [hen] at h8
      show level_state (b.prepare_sprites m_proms xs y v).m_sprite_info l = _
      rw [hlev, if_pos h8]
      exact slot_load_eq b m_proms xs y v (l + 8) (by omega) h8
    · rw [hen] at h8 h0
      show level_state (b.prepare_sprites m_proms xs y v).m_sprite_info l = _
      rw [hlev, if_neg (by rw [h8]; decide), if_pos h0]
      exact slot_load_eq b m_proms xs y v l (by omega) h0
    · rw [hen] at h8 h0
      show level_state (b.prepare_sprites m_proms xs y v).m_sprite_info l = _
      rw [hlev, if_neg (by rw [h8]; decide), if_neg (by rw [h0]; decide)]
  · show x <<< 1 = 2 * x
    rw [Nat.shiftLeft_eq]
    omega
  · show x <<< 1 = 2 * x
    rw [Nat.shiftLeft_eq]
    omega

/-! ## Controller protocol engine -/

namespace micom_xe_1a_device

/-! ### C2: digital mode, basic read, nothing pressed -/

/-- C2, as stated, fails: in digital mode with `interface = 0`, `req = 0`, no
button pressed (`0xffff`) and axes 0 and 1 at `0x80`, `out_r` does not return
`0x30`. -/
theorem C2_counterexample : ¬ (out_r digital_req0 0xffff centred = 0x30) := by
  decide

/-- C2, amended: in digital mode (`mode = 0`) with `interface = 0` and `req = 0`,
when no button is pressed (the button query returns `0xffff`) and analog axes 0
and 1 both read `0x80`, `out_r` returns exactly `0x3f`: every line is at its
inactive (high) level. -/
theorem C2_digital_idle_read (s : Dev) (analog : Nat → Nat) (hm : s.m_mode = 0)
    (hi : s.m_interface = 0) (hr : s.m_req = 0) (h0 : analog 0 = 0x80) (h1 : analog 1 = 0x80) :
    out_r s 0xffff analog = 0x3f := by
  unfold out_r
  rw [hm, hi, hr, h0, h1, if_neg (by decide), if_neg (by decide), if_neg (by decide)]
  decide

theorem C2_digital_idle_read_witness :
    (digital_req0.m_mode = 0 ∧ digital_req0.m_interface = 0 ∧ digital_req0.m_req = 0) ∧
      out_r digital_req0 0xffff centred = 0x3f :=
  ⟨⟨rfl, rfl, rfl⟩, C2_digital_idle_read digital_req0 centred rfl rfl rfl rfl rfl⟩

/-! ### C4: the length of the output sequence -/

/-- The timer after a callback: scheduled with the next parameter while the
step is below `2 * std::size(m_data)`, otherwise as it was. -/
theorem step_output_timer (s : Dev) (p : Nat) :
    (step_output s p).m_output_timer =
      if p >>> 1 < 12 then some (p + 1) else s.m_output_timer := by
  unfold step_output data_size
  by_cases hp : p >>> 1 < 12
  · have h12 : 6 * 2 > p >>> 1 := hp
    by_cases hb : BIT p 0 = 0
    · simp only [hb, h12, hp, if_true]
    · simp only [hb, h12, hp, if_true, if_false]
  · have h12 : ¬ 6 * 2 > p >>> 1 := hp
    by_cases hb : BIT p 0 = 0
    · simp only [hb, h12, hp, if_true, if_false]
    · simp only [hb, h12, hp, if_false]

theorem timer_fire_timer (s : Dev) (p : Nat) (h : s.m_output_timer = some p) :
    (timer_fire s).m_output_timer = if p < 24 then some (p + 1) else none := by
  unfold timer_fire
  rw [h]
  show (step_output _ p).m_output_timer = _
  rw [step_output_timer, Nat.shiftRight_eq_div_pow]
  by_cases hp : p < 24
  · rw [if_pos hp, if_pos (by omega)]
  · rw [if_neg hp, if_neg (by omega)]

theorem timer_fire_idle (s : Dev) (h : s.m_output_timer = none) : timer_fire s = s := by
  unfold timer_fire
  rw [h]

theorem timer_run_idle (n : Nat) (s : Dev) (h : s.m_output_timer = none) : timer_run n s = s := by
  induction n with
  | zero => rfl
  | succ n ih =>
    show timer_run n (timer_fire s) = s
    rw [timer_fire_idle s h, ih]

/-- From a timer scheduled with parameter `p ≤ 24`, `k` firings with
`p + k ≤ 24` leave it scheduled with parameter `p + k`. -/
theorem timer_run_scheduled (k : Nat) : ∀ (p : Nat) (s : Dev), s.m_output_timer = some p →
    p + k ≤ 24 → (timer_run k s).m_output_timer = some (p + k) := by
  induction k with
  | zero => intro p s h _; exact h
  | succ k ih =>
    intro p s h hk
    show (timer_run k (timer_fire s)).m_output_timer = _
    have hf : (timer_fire s).m_output_timer = some (p + 1) := by
      rw [timer_fire_timer s p h, if_pos (by omega)]
    rw [ih (p + 1) (timer_fire s) hf (by omega)]
    congr 1
    omega

/-- From a timer scheduled with parameter `p ≤ 24`, the firing number `25 - p`
leaves it idle. -/
theorem timer_run_stops (d : Nat) : ∀ (p : Nat) (s : Dev), s.m_output_timer = some p →
    p + d = 24 → (timer_run (d + 1) s).m_output_timer = none := by
  induction d with
  | zero =>
    intro p s h hd
    show (timer_fire s).m_output_timer = none
    rw [timer_fire_timer s p h, if_neg (by omega)]
  | succ d ih =>
    intro p s h hd
    show (timer_run (d + 1) (timer_fire s)).m_output_timer = none
    have hf : (timer_fire s).m_output_timer = some (p + 1) := by
      rw [timer_fire_timer s p h, if_pos (by omega)]
    exact ih (p + 1) (timer_fire s) hf (by omega)

/-- The callbacks performed from a timer scheduled with parameter `p ≤ 24`, with
enough fuel: those of parameters `p, p + 1, ..., 24`. -/
theorem timer_trace_from (d : Nat) : ∀ (p fuel : Nat) (s : Dev), s.m_output_timer = some p →
    p + d = 24 → d < fuel → timer_trace fuel s = List.range' p (d + 1) := by
  induction d with
  | zero =>
    intro p fuel s h hd hf
    obtain ⟨f, rfl⟩ : ∃ f, fuel = f + 1 := ⟨fuel - 1, by omega⟩
    have hn : (timer_fire s).m_output_timer = none := by
      rw [timer_fire_timer s p h, if_neg (by omega)]
    have ht : timer_trace f (timer_fire s) = [] := by
      cases f with
      | zero => rfl
      | succ f => simp only [timer_trace, hn]
    simp only [timer_trace, h, ht, List.range']
  | succ d ih =>
    intro p fuel s h hd hf
    obtain ⟨f, rfl⟩ : ∃ f, fuel = f + 1 := ⟨fuel - 1, by omega⟩
    have hs : (timer_fire s).m_output_timer = some (p + 1) := by
      rw [timer_fire_timer s p h, if_pos (by omega)]
    have ht := ih (p + 1) f (timer_fire s) hs (by omega) (by omega)
    simp only [timer_trace, h, ht, List.range']

/-- C4, as stated, fails: after the falling edge that starts the sequence from
power-on, the timer does not stop after 22 steps having exposed 11 nybbles: it
is still scheduled after 22 callbacks. -/
theorem C4_counterexample :
    strobed.m_output_timer = some 0 ∧
    ¬ ((timer_trace 100 strobed).length = 22 ∧
        ((timer_trace 100 strobed).filter presents_nybble).length = 11 ∧
        (timer_run 22 strobed).m_output_timer = none) := by
  refine ⟨rfl, fun h => ?_⟩
  have h22 := timer_run_scheduled 22 0 strobed rfl (by decide)
  rw [h.2.2] at h22
  exact absurd h22 (by decide)

/-- C4, amended: in analog mode, once a falling strobe edge has started the
output sequence (the timer is scheduled with parameter 0), the self-rescheduling
timer performs exactly 25 callbacks, with parameters 0 to 24; the 12 odd ones
below 24 (1, 3, ..., 23) each expose a nybble, the 13 even ones do not; after
the 25th callback the timer is idle and stays idle. -/
theorem C4_output_sequence_length (s : Dev) (h : s.m_output_timer = some 0) :
    (∀ fuel, 25 ≤ fuel → timer_trace fuel s = List.range 25) ∧
    (∀ k, k ≤ 24 → (timer_run k s).m_output_timer = some k) ∧
    (∀ k, 25 ≤ k → (timer_run k s).m_output_timer = none) ∧
    (List.range 25).filter presents_nybble = [1, 3, 5, 7, 9, 11, 13, 15, 17, 19, 21, 23] ∧
    ((List.range 25).filter presents_nybble).length = 12 := by
  refine ⟨fun fuel hf => ?_, fun k hk => ?_, fun k hk => ?_, by decide, by decide⟩
  · rw [timer_trace_from 24 0 fuel s h (by decide) (by omega), List.range_eq_range']
  · have := timer_run_scheduled k 0 s h (by omega)
    rw [this, Nat.zero_add]
  · have h25 := timer_run_stops 24 0 s h (by decide)
    obtain ⟨j, rfl⟩ : ∃ j, k = 25 + j := ⟨k - 25, by omega⟩
    have hsplit : ∀ (a b : Nat) (t : Dev), timer_run (a + b) t = timer_run b (timer_run a t) := by
      intro a
      induction a with
      | zero => intro b t; rw [Nat.zero_add]; rfl
      | succ a ih =>
        intro b t
        rw [show a + 1 + b = (a + b) + 1 by omega]
        show timer_run (a + b) (timer_fire t) = timer_run b (timer_run a (timer_fire t))
        exact ih b (timer_fire t)
    rw [hsplit 25 j s, timer_run_idle j _ h25]
    exact h25

theorem C4_output_sequence_length_witness :
    strobed.m_output_timer = some 0 ∧ timer_trace 25 strobed = List.range 25 :=
  ⟨rfl, (C4_output_sequence_length strobed rfl).1 25 (by decide)⟩

end micom_xe_1a_device

namespace micom_xe_1a_device

/-! ### C5: the nybble an odd step presents -/

theorem bitw_lt (x n : Nat) : BITW x n 4 < 16 := by
  unfold BITW
  exact Nat.and_lt_two_pow _ (n := 4) (by decide)

theorem and_16_cases (o : Nat) : o &&& 0x10 = 0 ∨ o &&& 0x10 = 0x10 := by
  have h : o &&& 0x10 = o &&& 2 ^ 4 := rfl
  rw [h, Nat.and_two_pow]
  cases o.testBit 4
  · left; rfl
  · right; rfl

theorem low_nibble_keep : ∀ x < 16, ((x ||| 0) % 256) &&& 0x0f = x ∧
    ((x ||| 0x10) % 256) &&& 0x0f = x := by
  decide

/-- The data bits of `out` after the store of an odd step. -/
theorem odd_store_low (x o : Nat) (hx : x < 16) : ((x ||| (o &&& 0x10)) % 256) &&& 0x0f = x := by
  rcases and_16_cases o with h | h
  · rw [h]; exact (low_nibble_keep x hx).1
  · rw [h]; exact (low_nibble_keep x hx).2

theorem nybble_store_low (data : Nat → Nat) (k o : Nat) :
    ((nybble_of data k ||| (o &&& 0x10)) % 256) &&& 0x0f = nybble_of data k :=
  odd_store_low _ _ (bitw_lt _ _)

theorem step_output_odd (d : Dev) (s : Nat) (hs : s < 12) :
    (step_output d (2 * s + 1)).m_out =
      (nybble_of d.m_data (s ^^^ d.m_interface) ||| (d.m_out &&& 0x10)) % 256 := by
  have hb : BIT (2 * s + 1) 0 = 1 := by
    unfold BIT
    rw [Nat.shiftRight_zero, Nat.and_one_is_mod]
    omega
  have hstep : (2 * s + 1) >>> 1 = s := by
    rw [Nat.shiftRight_eq_div_pow]
    omega
  unfold step_output data_size nybble_of
  simp only [hb, hstep, show (6 * 2 > s) from hs, if_true, if_false, one_ne_zero]

theorem xor_one_lt (s i : Nat) (hs : s < 12) (hi : i ≤ 1) : s ^^^ i < 12 := by
  have h : ∀ s < 12, ∀ i < 2, s ^^^ i < 12 := by decide
  exact h s hs i (by omega)

theorem xor_one_pair : ∀ s < 12, (s ^^^ 1) >>> 1 = s >>> 1 ∧ s ^^^ 1 ≠ s ∧ s ^^^ 1 < 12 ∧
    s ^^^ 0 = s := by
  decide

/-- C5: for every step index `s < 12` and interface bit `i`, the odd-numbered
callback `step_output(2s+1)` sets the low four bits of `out` to nybble
`s XOR i` of the packed buffer, where nybble `2k` is the low half and nybble
`2k+1` the high half of `data[k]`; hence with `interface = 1` the two nybbles of
each pair are presented in the reverse order of `interface = 0`. -/
theorem C5_odd_step_nybble (d : Dev) (s : Nat) (hs : s < 12) (hi : d.m_interface ≤ 1) :
    (step_output d (2 * s + 1)).m_out &&& 0x0f = nybble_of d.m_data (s ^^^ d.m_interface) ∧
    s ^^^ d.m_interface < 12 ∧
    (∀ k, nybble_of d.m_data (2 * k) = d.m_data k &&& 0x0f ∧
      nybble_of d.m_data (2 * k + 1) = (d.m_data k >>> 4) &&& 0x0f) ∧
    ((step_output { d with m_interface := 1 } (2 * s + 1)).m_out &&& 0x0f
        = (step_output { d with m_interface := 0 } (2 * (s ^^^ 1) + 1)).m_out &&& 0x0f ∧
      (s ^^^ 1) >>> 1 = s >>> 1 ∧ s ^^^ 1 ≠ s) := by
  obtain ⟨p1, p2, p3, p4⟩ := xor_one_pair s hs
  refine ⟨?_, xor_one_lt s _ hs hi, fun k => ⟨?_, ?_⟩, ?_, p1, p2⟩
  · rw [step_output_odd d s hs]
    exact nybble_store_low _ _ _
  · have hb : BIT (2 * k) 0 = 0 := by
      unfold BIT
      rw [Nat.shiftRight_zero, Nat.and_one_is_mod]
      omega
    have hk : (2 * k) >>> 1 = k := by
      rw [Nat.shiftRight_eq_div_pow]
      omega
    unfold nybble_of
    rw [hb, hk]
    rfl
  · have hb : BIT (2 * k + 1) 0 = 1 := by
      unfold BIT
      rw [Nat.shiftRight_zero, Nat.and_one_is_mod]
      omega
    have hk : (2 * k + 1) >>> 1 = k := by
      rw [Nat.shiftRight_eq_div_pow]
      omega
    unfold nybble_of
    rw [hb, hk]
    rfl
  · rw [step_output_odd _ s hs, step_output_odd _ (s ^^^ 1) p3, nybble_store_low,
      nybble_store_low]
    show nybble_of d.m_data (s ^^^ 1) = nybble_of d.m_data ((s ^^^ 1) ^^^ 0)
    rw [Nat.xor_zero]

theorem C5_odd_step_nybble_witness :
    (5 < 12 ∧ strobed.m_interface ≤ 1) ∧
      (step_output strobed (2 * 5 + 1)).m_out &&& 0x0f
        = nybble_of strobed.m_data (5 ^^^ strobed.m_interface) :=
  ⟨⟨by decide, by decide⟩, (C5_odd_step_nybble strobed 5 (by decide) (by decide)).1⟩

end micom_xe_1a_device

namespace micom_xe_1a_device

/-! ### C6: the capture on a falling edge of Req -/

theorem testBit_mod_256 (x j : Nat) : (x % 256).testBit j = (decide (j < 8) && x.testBit j) :=
  Nat.testBit_mod_two_pow x 8 j

set_option maxRecDepth 100000 in
theorem byte_fields : ∀ x < 256, BITW x 4 4 = x >>> 4 ∧ BITW x 0 4 = x &&& 0x0f ∧
    x >>> 4 < 16 ∧ x &&& 0x0f < 16 := by
  decide

set_option maxRecDepth 100000 in
theorem nibble_pair : ∀ l < 16, ∀ h < 16, (l ||| (h <<< 4)) % 256 = l ||| (h <<< 4) ∧
    BITW (l ||| (h <<< 4)) 0 4 = l ∧ BITW (l ||| (h <<< 4)) 4 4 = h := by
  decide

/-- The stores of `pack_data`, entry by entry. -/
theorem pack_data_entries (m : Nat → Nat) (b : Nat) (a : Nat → Nat) :
    pack_data m b a 0 = (BITW b 0 8 &&& ((BITW b 8 2 <<< 2) ||| 0xf3)) % 256 ∧
    pack_data m b a 1 = (BITW (a 0) 4 4 ||| (BITW (a 1) 4 4 <<< 4)) % 256 ∧
    pack_data m b a 2 = (BITW (a 2) 4 4 ||| (BITW (a 3) 4 4 <<< 4)) % 256 ∧
    pack_data m b a 3 = (BITW (a 0) 0 4 ||| (BITW (a 1) 0 4 <<< 4)) % 256 ∧
    pack_data m b a 4 = (BITW (a 2) 0 4 ||| (BITW (a 3) 0 4 <<< 4)) % 256 ∧
    pack_data m b a 5 = (BITW b 8 8 &&& ((BITW b 6 2 <<< 2) ||| 0xf3)) % 256 :=
  ⟨rfl, rfl, rfl, rfl, rfl, rfl⟩

/-- A falling edge on Req in analog mode. -/
theorem req_w_falling (d : Dev) (b : Nat) (a : Nat → Nat) (hm : d.m_mode = 1) (hr : d.m_req = 1) :
    req_w d 0 b a =
      { d with m_data := pack_data d.m_data b a, m_output_timer := some 0, m_req := 0 } := by
  unfold req_w
  simp only [hm, hr, ne_eq, not_true_eq_false, if_false, if_true, one_ne_zero, zero_ne_one,
    not_false_eq_true]

theorem data0_eq (b : Nat) :
    (BITW b 0 8 &&& ((BITW b 8 2 <<< 2) ||| 0xf3)) % 256
      = (b &&& 0xff) &&& ((((b >>> 8) &&& 3) <<< 2) ||| 0xf3) := by
  have h : BITW b 0 8 = b &&& 0xff := rfl
  have h2 : BITW b 8 2 = (b >>> 8) &&& 3 := rfl
  rw [h, h2]
  apply Nat.mod_eq_of_lt
  have h1 : (b &&& 0xff) &&& ((((b >>> 8) &&& 3) <<< 2) ||| 0xf3) ≤ b &&& 0xff := Nat.and_le_left
  have h3 : b &&& 0xff ≤ 0xff := Nat.and_le_right
  omega

theorem nybble0_bits (m : Nat → Nat) (b : Nat) (a : Nat → Nat) :
    (nybble_of (pack_data m b a) 0).testBit 0 = b.testBit 0 ∧
    (nybble_of (pack_data m b a) 0).testBit 1 = b.testBit 1 ∧
    (nybble_of (pack_data m b a) 0).testBit 2 = (b.testBit 2 && b.testBit 8) ∧
    (nybble_of (pack_data m b a) 0).testBit 3 = (b.testBit 3 && b.testBit 9) := by
  have e : pack_data m b a 0 = (BITW b 0 8 &&& ((BITW b 8 2 <<< 2) ||| 0xf3)) % 256 := rfl
  have k0 : (0 : Nat) >>> 1 = 0 := rfl
  have kb : BIT 0 0 = 0 := rfl
  unfold nybble_of
  rw [k0, kb, e]
  simp only [BITW, if_neg (show ¬ ((0 : Nat) ≠ 0) by decide), testBit_mod_256, Nat.testBit_and,
    Nat.testBit_or, Nat.testBit_shiftRight, Nat.testBit_shiftLeft, Nat.testBit_two_pow_sub_one]
  simp [show Nat.testBit 243 0 = true by decide, show Nat.testBit 243 1 = true by decide,
    show Nat.testBit 243 2 = false by decide, show Nat.testBit 243 3 = false by decide]

theorem nybble1_bits (m : Nat → Nat) (b : Nat) (a : Nat → Nat) :
    (nybble_of (pack_data m b a) 1).testBit 0 = b.testBit 4 ∧
    (nybble_of (pack_data m b a) 1).testBit 1 = b.testBit 5 ∧
    (nybble_of (pack_data m b a) 1).testBit 2 = b.testBit 6 ∧
    (nybble_of (pack_data m b a) 1).testBit 3 = b.testBit 7 := by
  have e : pack_data m b a 0 = (BITW b 0 8 &&& ((BITW b 8 2 <<< 2) ||| 0xf3)) % 256 := rfl
  have k0 : (1 : Nat) >>> 1 = 0 := rfl
  have kb : BIT 1 0 = 1 := rfl
  unfold nybble_of
  rw [k0, kb, e]
  simp only [BITW, if_pos (show (1 : Nat) ≠ 0 by decide), testBit_mod_256, Nat.testBit_and,
    Nat.testBit_or, Nat.testBit_shiftRight, Nat.testBit_shiftLeft, Nat.testBit_two_pow_sub_one]
  simp [show Nat.testBit 243 4 = true by decide, show Nat.testBit 243 5 = true by decide,
    show Nat.testBit 243 6 = true by decide, show Nat.testBit 243 7 = true by decide]

theorem nybble10_bits (m : Nat → Nat) (b : Nat) (a : Nat → Nat) :
    (nybble_of (pack_data m b a) 10).testBit 0 = b.testBit 8 ∧
    (nybble_of (pack_data m b a) 10).testBit 1 = b.testBit 9 ∧
    (nybble_of (pack_data m b a) 10).testBit 2 = (b.testBit 10 && b.testBit 6) ∧
    (nybble_of (pack_data m b a) 10).testBit 3 = (b.testBit 11 && b.testBit 7) := by
  have e : pack_data m b a 5 = (BITW b 8 8 &&& ((BITW b 6 2 <<< 2) ||| 0xf3)) % 256 := rfl
  have k0 : (10 : Nat) >>> 1 = 5 := rfl
  have kb : BIT 10 0 = 0 := rfl
  unfold nybble_of
  rw [k0, kb, e]
  simp only [BITW, if_neg (show ¬ ((0 : Nat) ≠ 0) by decide), testBit_mod_256, Nat.testBit_and,
    Nat.testBit_or, Nat.testBit_shiftRight, Nat.testBit_shiftLeft, Nat.testBit_two_pow_sub_one]
  simp [show Nat.testBit 243 0 = true by decide, show Nat.testBit 243 1 = true by decide,
    show Nat.testBit 243 2 = false by decide, show Nat.testBit 243 3 = false by decide]

theorem nybble_axes (m : Nat → Nat) (b : Nat) (a : Nat → Nat) (ha : ∀ i, a i < 256) :
    nybble_of (pack_data m b a) 2 = a 0 >>> 4 ∧ nybble_of (pack_data m b a) 3 = a 1 >>> 4 ∧
    nybble_of (pack_data m b a) 4 = a 2 >>> 4 ∧ nybble_of (pack_data m b a) 5 = a 3 >>> 4 ∧
    nybble_of (pack_data m b a) 6 = a 0 &&& 0x0f ∧ nybble_of (pack_data m b a) 7 = a 1 &&& 0x0f ∧
    nybble_of (pack_data m b a) 8 = a 2 &&& 0x0f ∧ nybble_of (pack_data m b a) 9 = a 3 &&& 0x0f := by
  obtain ⟨_, e1, e2, e3, e4, _⟩ := pack_data_entries m b a
  obtain ⟨p0, q0, r0, s0⟩ := byte_fields (a 0) (ha 0)
  obtain ⟨p1, q1, r1, s1⟩ := byte_fields (a 1) (ha 1)
  obtain ⟨p2, q2, r2, s2⟩ := byte_fields (a 2) (ha 2)
  obtain ⟨p3, q3, r3, s3⟩ := byte_fields (a 3) (ha 3)
  obtain ⟨h01, l01, u01⟩ := nibble_pair _ r0 _ r1
  obtain ⟨h23, l23, u23⟩ := nibble_pair _ r2 _ r3
  obtain ⟨g01, m01, v01⟩ := nibble_pair _ s0 _ s1
  obtain ⟨g23, m23, v23⟩ := nibble_pair _ s2 _ s3
  rw [p0, p1, h01] at e1
  rw [p2, p3, h23] at e2
  rw [q0, q1, g01] at e3
  rw [q2, q3, g23] at e4
  refine ⟨?_, ?_, ?_, ?_, ?_, ?_, ?_, ?_⟩
  · show BITW (pack_data m b a 1) 0 4 = _
    rw [e1, l01]
  · show BITW (pack_data m b a 1) 4 4 = _
    rw [e1, u01]
  · show BITW (pack_data m b a 2) 0 4 = _
    rw [e2, l23]
  · show BITW (pack_data m b a 2) 4 4 = _
    rw [e2, u23]
  · show BITW (pack_data m b a 3) 0 4 = _
    rw [e3, m01]
  · show BITW (pack_data m b a 3) 4 4 = _
    rw [e3, v01]
  · show BITW (pack_data m b a 4) 0 4 = _
    rw [e4, m23]
  · show BITW (pack_data m b a 4) 4 4 = _
    rw [e4, v23]

theorem centred_lt {i : Nat} : centred i < 256 := by
  show (0x80 : Nat) < 256
  decide

/-- C6: a falling edge on Req in analog mode (`mode = 1`, `req` going 1 -> 0)
with button snapshot `b` and axis samples `a 0 .. a 3` stores
`data[0] = (b & 0xff) & ((((b >> 8) & 3) << 2) | 0xf3)`,
`data[1] = (a0 >> 4) | ((a1 >> 4) << 4)`, `data[2] = (a2 >> 4) | ((a3 >> 4) << 4)`,
`data[3] = (a0 & 0x0f) | ((a1 & 0x0f) << 4)`, `data[4] = (a2 & 0x0f) | ((a3 & 0x0f) << 4)`,
sets `req` to 0 and schedules the output timer with step parameter 0; so nybbles
0-9 of the buffer are the documented steps 1-10: D, C, B/B', A/A' (button bits
0, 1, 2 AND 8, 3 AND 9); Select, Start, E2, E1 (bits 4, 5, 6, 7); the high
nibbles of Y, X, Z, RZ (axes 0..3); the low nibbles of Y, X, Z, RZ. -/
theorem C6_analog_capture (d : Dev) (b : Nat) (a : Nat → Nat) (hm : d.m_mode = 1)
    (hr : d.m_req = 1) (ha : ∀ i, a i < 256) :
    let d2 := req_w d 0 b a
    (d2.m_data 0 = (b &&& 0xff) &&& ((((b >>> 8) &&& 3) <<< 2) ||| 0xf3) ∧
      d2.m_data 1 = (a 0 >>> 4) ||| ((a 1 >>> 4) <<< 4) ∧
      d2.m_data 2 = (a 2 >>> 4) ||| ((a 3 >>> 4) <<< 4) ∧
      d2.m_data 3 = (a 0 &&& 0x0f) ||| ((a 1 &&& 0x0f) <<< 4) ∧
      d2.m_data 4 = (a 2 &&& 0x0f) ||| ((a 3 &&& 0x0f) <<< 4)) ∧
    d2.m_req = 0 ∧ d2.m_output_timer = some 0 ∧
    ((nybble_of d2.m_data 0).testBit 0 = b.testBit 0 ∧
      (nybble_of d2.m_data 0).testBit 1 = b.testBit 1 ∧
      (nybble_of d2.m_data 0).testBit 2 = (b.testBit 2 && b.testBit 8) ∧
      (nybble_of d2.m_data 0).testBit 3 = (b.testBit 3 && b.testBit 9)) ∧
    ((nybble_of d2.m_data 1).testBit 0 = b.testBit 4 ∧
      (nybble_of d2.m_data 1).testBit 1 = b.testBit 5 ∧
      (nybble_of d2.m_data 1).testBit 2 = b.testBit 6 ∧
      (nybble_of d2.m_data 1).testBit 3 = b.testBit 7) ∧
    (nybble_of d2.m_data 2 = a 0 >>> 4 ∧ nybble_of d2.m_data 3 = a 1 >>> 4 ∧
      nybble_of d2.m_data 4 = a 2 >>> 4 ∧ nybble_of d2.m_data 5 = a 3 >>> 4 ∧
      nybble_of d2.m_data 6 = a 0 &&& 0x0f ∧ nybble_of d2.m_data 7 = a 1 &&& 0x0f ∧
      nybble_of d2.m_data 8 = a 2 &&& 0x0f ∧ nybble_of d2.m_data 9 = a 3 &&& 0x0f) := by
  intro d2
  have hd2 := req_w_falling d b a hm hr
  have hdata : d2.m_data = pack_data d.m_data b a := by
    show (req_w d 0 b a).m_data = _
    rw [hd2]
  have hreq : d2.m_req = 0 := by
    show (req_w d 0 b a).m_req = _
    rw [hd2]
  have htimer : d2.m_output_timer = some 0 := by
    show (req_w d 0 b a).m_output_timer = _
    rw [hd2]
  obtain ⟨e0, e1, e2, e3, e4, _⟩ := pack_data_entries d.m_data b a
  obtain ⟨p0, q0, r0, s0⟩ := byte_fields (a 0) (ha 0)
  obtain ⟨p1, q1, r1, s1⟩ := byte_fields (a 1) (ha 1)
  obtain ⟨p2, q2, r2, s2⟩ := byte_fields (a 2) (ha 2)
  obtain ⟨p3, q3, r3, s3⟩ := byte_fields (a 3) (ha 3)
  refine ⟨⟨?_, ?_, ?_, ?_, ?_⟩, hreq, htimer, ?_, ?_, ?_⟩
  · rw [hdata, e0, data0_eq]
  · rw [hdata, e1, p0, p1, (nibble_pair _ r0 _ r1).1]
  · rw [hdata, e2, p2, p3, (nibble_pair _ r2 _ r3).1]
  · rw [hdata, e3, q0, q1, (nibble_pair _ s0 _ s1).1]
  · rw [hdata, e4, q2, q3, (nibble_pair _ s2 _ s3).1]
  · rw [hdata]; exact nybble0_bits d.m_data b a
  · rw [hdata]; exact nybble1_bits d.m_data b a
  · rw [hdata]; exact nybble_axes d.m_data b a ha

theorem C6_analog_capture_witness :
    (power_on.m_mode = 1 ∧ power_on.m_req = 1 ∧ ∀ i, centred i < 256) ∧
      (req_w power_on 0 0xffff centred).m_req = 0 ∧
      (req_w power_on 0 0xffff centred).m_output_timer = some 0 :=
  ⟨⟨rfl, rfl, fun _ => centred_lt⟩,
    (C6_analog_capture power_on 0xffff centred rfl rfl (fun _ => centred_lt)).2.1,
    (C6_analog_capture power_on 0xffff centred rfl rfl (fun _ => centred_lt)).2.2.1⟩

/-! ### C7: the eleventh nybble -/

/-- C7 at a failing input: with only button B pressed (`b = 0xfffb`: bit 2
clear, the unused bits 10-15 set), the eleventh nybble of the captured buffer is
`0xf`: its D2 line is 1 although B is pressed, where the documented step 11
presents B on D2.  With only E2 pressed (`b = 0xffbf`) the eleventh nybble has
D2 = 0 although B is released.  In general D2 and D3 carry button bits 6 and 7
(E2, E1) ANDed with the unused bits 10 and 11, not bits 2 and 3 (B, A). -/
theorem C7_eleventh_nybble_presents_E2_E1 :
    nybble_of (req_w power_on 0 0xfffb centred).m_data 10 = 0xf ∧
    (0xfffb : Nat).testBit 2 = false ∧
    (nybble_of (req_w power_on 0 0xfffb centred).m_data 10).testBit 2 = true ∧
    (nybble_of (req_w power_on 0 0xffbf centred).m_data 10).testBit 2 = false ∧
    (0xffbf : Nat).testBit 2 = true ∧
    (∀ (d : Dev) (b : Nat) (a : Nat → Nat), d.m_mode = 1 → d.m_req = 1 →
      (nybble_of (req_w d 0 b a).m_data 10).testBit 0 = b.testBit 8 ∧
      (nybble_of (req_w d 0 b a).m_data 10).testBit 1 = b.testBit 9 ∧
      (nybble_of (req_w d 0 b a).m_data 10).testBit 2 = (b.testBit 10 && b.testBit 6) ∧
      (nybble_of (req_w d 0 b a).m_data 10).testBit 3 = (b.testBit 11 && b.testBit 7)) := by
  refine ⟨by decide, by decide, by decide, by decide, by decide, fun d b a hm hr => ?_⟩
  rw [req_w_falling d b a hm hr]
  exact nybble10_bits d.m_data b a

end micom_xe_1a_device

namespace micom_xe_1a_device

/-! ### C16: redundant writes -/

/-- C16: a write through `req_w` or `mode_w` whose value, normalised to 0 or 1,
equals the current `req` or `mode` respectively leaves the entire controller
state unchanged: `req`, `mode`, `interface`, `data`, `out` and the timer. -/
theorem C16_redundant_write_noop (s : Dev) (state buttons : Nat) (analog : Nat → Nat) :
    ((if state ≠ 0 then 1 else 0) = s.m_req → req_w s state buttons analog = s) ∧
    ((if state ≠ 0 then 1 else 0) = s.m_mode → mode_w s state = s) := by
  constructor
  · intro h
    unfold req_w
    simp only [h, ne_eq, not_true_eq_false, if_false]
  · intro h
    unfold mode_w
    simp only [h, ne_eq, not_true_eq_false, if_false]

/-! ### C17: switching to digital mode during an output sequence -/

theorem mode_w_zero (s : Dev) (hm : s.m_mode ≠ 0) :
    mode_w s 0 = { s with m_output_timer := none, m_out := 0x2f, m_mode := 0 } := by
  unfold mode_w
  have h : ((if (0 : Nat) ≠ 0 then 1 else 0) : Nat) = 0 := rfl
  simp only [h]
  rw [if_pos (fun e => hm e.symm), if_neg (by decide)]

theorem out_of_line_write (s : Dev) (o : Op) (ho : o.is_line_write = true) :
    (o.apply s).m_out = s.m_out ∧ (o.apply s).m_mode = s.m_mode := by
  cases o with
  | req state buttons analog =>
    show (req_w s state buttons analog).m_out = _ ∧ (req_w s state buttons analog).m_mode = _
    unfold req_w
    dsimp only
    split_ifs <;> exact ⟨rfl, rfl⟩
  | mode state => exact absurd ho (Bool.false_ne_true)
  | iface state => exact ⟨rfl, rfl⟩
  | timer => exact absurd ho (Bool.false_ne_true)

theorem out_of_line_writes (ops : List Op) : ∀ (s : Dev), (∀ o ∈ ops, o.is_line_write = true) →
    (run_ops s ops).m_out = s.m_out ∧ (run_ops s ops).m_mode = s.m_mode := by
  induction ops with
  | nil => intro s _; exact ⟨rfl, rfl⟩
  | cons o ops ih =>
    intro s h
    have h1 := out_of_line_write s o (h o (List.mem_cons_self o ops))
    have h2 := ih (o.apply s) (fun o2 ho2 => h o2 (List.mem_cons_of_mem o ho2))
    show (run_ops (o.apply s) ops).m_out = _ ∧ (run_ops (o.apply s) ops).m_mode = _
    exact ⟨h2.1.trans h1.1, h2.2.trans h1.2⟩

theorem timer_trace_idle (fuel : Nat) (s : Dev) (h : s.m_output_timer = none) :
    timer_trace fuel s = [] := by
  cases fuel with
  | zero => rfl
  | succ f => simp only [timer_trace, h]

/-- C17: `mode_w(0)` issued while in analog mode, at any point of an output
sequence, disables the output timer (no further `step_output` callback fires),
sets `out` to `0x2f` and `mode` to 0, and leaves `req`, `interface` and `data`
unchanged; if `mode_w(1)` follows, `out_r` returns `0x2f`, and keeps returning
it after any writes to the Req and interface lines, as long as no timer step
has run. -/
theorem C17_mode_w_digital_cancels (s : Dev) (hm : s.m_mode ≠ 0) :
    (mode_w s 0).m_output_timer = none ∧
    (∀ fuel, timer_trace fuel (mode_w s 0) = []) ∧
    (∀ n, timer_run n (mode_w s 0) = mode_w s 0) ∧
    (mode_w s 0).m_out = 0x2f ∧ (mode_w s 0).m_mode = 0 ∧
    (mode_w s 0).m_req = s.m_req ∧ (mode_w s 0).m_interface = s.m_interface ∧
    (mode_w s 0).m_data = s.m_data ∧
    (∀ (ops : List Op) (buttons : Nat) (analog : Nat → Nat),
      (∀ o ∈ ops, o.is_line_write = true) →
      out_r (run_ops (mode_w (mode_w s 0) 1) ops) buttons analog = 0x2f) := by
  have h0 := mode_w_zero s hm
  have ht : (mode_w s 0).m_output_timer = none := by rw [h0]
  refine ⟨ht, fun fuel => timer_trace_idle fuel _ ht, fun n => timer_run_idle n _ ht,
    by rw [h0], by rw [h0], by rw [h0], by rw [h0], by rw [h0], fun ops buttons analog hops => ?_⟩
  have h1 : mode_w (mode_w s 0) 1 = { mode_w s 0 with m_mode := 1 } := by
    rw [h0]
    rfl
  obtain ⟨e1, e2⟩ := out_of_line_writes ops (mode_w (mode_w s 0) 1) hops
  have hmode : (run_ops (mode_w (mode_w s 0) 1) ops).m_mode = 1 := by rw [e2, h1]
  have hout : (run_ops (mode_w (mode_w s 0) 1) ops).m_out = 0x2f := by rw [e1, h1, h0]
  unfold out_r
  rw [if_pos (by rw [hmode]; decide), hout]

theorem C17_mode_w_digital_cancels_witness :
    mid_sequence.m_mode ≠ 0 ∧ mid_sequence.m_output_timer = some 7 ∧
      mid_sequence.m_out = 0x38 ∧
      (mode_w mid_sequence 0).m_output_timer = none ∧ (mode_w mid_sequence 0).m_out = 0x2f :=
  ⟨by decide, by decide, by decide,
    (C17_mode_w_digital_cancels mid_sequence (by decide)).1,
    (C17_mode_w_digital_cancels mid_sequence (by decide)).2.2.2.1⟩

/-! ### C18: what modifies the packed buffer -/

theorem req_w_falling_ne (d : Dev) (b : Nat) (a : Nat → Nat) (hm : d.m_mode ≠ 0)
    (hr : d.m_req ≠ 0) :
    req_w d 0 b a =
      { d with m_data := pack_data d.m_data b a, m_output_timer := some 0, m_req := 0 } := by
  unfold req_w
  have e : ((if (0 : Nat) ≠ 0 then 1 else 0) : Nat) = 0 := rfl
  simp only [e]
  rw [if_pos (fun x => hr x.symm), if_pos hm]
  simp only [if_true]

/-- C18: the packed buffer `data[0..5]` is modified only by `req_w` performing a
high-to-low transition (previous `req` non-zero, new value 0) while `mode` is
non-zero; every other `req_w`, and every `mode_w`, `interface_w` and
`step_output` (also through the timer) leaves it unchanged; `out_r` is a read. -/
theorem C18_data_frame (s : Dev) (state buttons : Nat) (analog : Nat → Nat) (param : Nat) :
    (¬ (s.m_req ≠ 0 ∧ state = 0 ∧ s.m_mode ≠ 0) →
      (req_w s state buttons analog).m_data = s.m_data) ∧
    (s.m_req ≠ 0 → state = 0 → s.m_mode ≠ 0 →
      (req_w s state buttons analog).m_data = pack_data s.m_data buttons analog) ∧
    (mode_w s state).m_data = s.m_data ∧
    (interface_w s state).m_data = s.m_data ∧
    (step_output s param).m_data = s.m_data ∧
    (timer_fire s).m_data = s.m_data := by
  have hstep : ∀ (t : Dev) (p : Nat), (step_output t p).m_data = t.m_data := by
    intro t p
    unfold step_output
    dsimp only
    split_ifs <;> rfl
  refine ⟨fun h => ?_, fun h1 h2 h3 => ?_, ?_, rfl, hstep s param, ?_⟩
  · unfold req_w
    by_cases hs : state = 0
    · subst hs
      have e : ((if (0 : Nat) ≠ 0 then 1 else 0) : Nat) = 0 := rfl
      simp only [e]
      by_cases hr : (0 : Nat) ≠ s.m_req
      · have hr2 : s.m_req ≠ 0 := fun x => hr x.symm
        have hmode : s.m_mode = 0 := by
          by_contra hne
          exact h ⟨hr2, rfl, hne⟩
        rw [if_pos hr, if_neg (by rw [hmode]; decide)]
      · rw [if_neg hr]
    · have e : ((if state ≠ 0 then 1 else 0) : Nat) = 1 := if_pos hs
      simp only [e, one_ne_zero, if_false]
      split_ifs <;> rfl
  · subst h2
    rw [req_w_falling_ne s buttons analog h3 h1]
  · unfold mode_w
    dsimp only
    split_ifs <;> rfl
  · unfold timer_fire
    cases hT : s.m_output_timer with
    | none => rfl
    | some p => exact hstep _ p

/-! ### C19: strobe transitions in digital mode -/

/-- C19: while in digital mode (`mode = 0`), a write through `req_w` captures
nothing and starts nothing: `data`, `out`, `mode`, `interface` and the timer are
unchanged and only the recorded `req` level is updated, to the written value
normalised to 0 or 1; `out_r` then takes its branch by that level. -/
theorem C19_digital_strobe_ignored (s : Dev) (state buttons : Nat) (analog : Nat → Nat)
    (hm : s.m_mode = 0) :
    req_w s state buttons analog = { s with m_req := if state ≠ 0 then 1 else 0 } ∧
    (req_w s state buttons analog).m_data = s.m_data ∧
    (req_w s state buttons analog).m_out = s.m_out ∧
    (req_w s state buttons analog).m_mode = s.m_mode ∧
    (req_w s state buttons analog).m_interface = s.m_interface ∧
    (req_w s state buttons analog).m_output_timer = s.m_output_timer ∧
    (req_w s state buttons analog).m_req = (if state ≠ 0 then 1 else 0) ∧
    (∀ (b2 : Nat) (a2 : Nat → Nat), out_r (req_w s state buttons analog) b2 a2
      = out_r { s with m_req := if state ≠ 0 then 1 else 0 } b2 a2) := by
  have h : req_w s state buttons analog = { s with m_req := if state ≠ 0 then 1 else 0 } := by
    unfold req_w
    by_cases hr : (if state ≠ 0 then 1 else 0) ≠ s.m_req
    · rw [if_pos hr, if_neg (by rw [hm]; decide)]
    · rw [if_neg hr]
      have e : (if state ≠ 0 then 1 else 0) = s.m_req := by
        by_contra x
        exact hr x
      rw [e]
  refine ⟨h, ?_, ?_, ?_, ?_, ?_, ?_, fun b2 a2 => ?_⟩ <;> rw [h]

theorem C19_digital_strobe_ignored_witness :
    digital_req0.m_mode = 0 ∧
      req_w digital_req0 1 0xffff centred = { digital_req0 with m_req := 1 } :=
  ⟨rfl, (C19_digital_strobe_ignored digital_req0 1 0xffff centred rfl).1⟩

/-! ### C20: the L/H and Ack lines -/

theorem even_store_bits (o s : Nat) :
    (∀ j, j < 4 → (((o &&& 0x0f) ||| (if BIT s 0 ≠ 0 then 0x30 else 0x20)) % 256).testBit j
      = o.testBit j) ∧
    (((o &&& 0x0f) ||| (if BIT s 0 ≠ 0 then 0x30 else 0x20)) % 256).testBit 4
      = decide (s % 2 = 1) ∧
    (((o &&& 0x0f) ||| (if BIT s 0 ≠ 0 then 0x30 else 0x20)) % 256).testBit 5 = true := by
  have hb : BIT s 0 = s % 2 := by
    unfold BIT
    rw [Nat.shiftRight_zero, Nat.and_one_is_mod]
  have h15 : ∀ j, Nat.testBit 15 j = decide (j < 4) := by
    intro j
    have := Nat.testBit_two_pow_sub_one 4 j
    simpa using this
  rw [hb]
  rcases Nat.mod_two_eq_zero_or_one s with h | h
  · rw [h]
    simp only [ne_eq, not_true_eq_false, if_false, testBit_mod_256, Nat.testBit_or,
      Nat.testBit_and, h15]
    refine ⟨fun j hj => ?_, ?_, ?_⟩
    · have : Nat.testBit 32 j = false := by
        have h32 : (32 : Nat) = 2 ^ 5 := rfl
        rw [h32, Nat.testBit_two_pow]
        simp only [decide_eq_false_iff_not]
        omega
      simp [this, hj]
      omega
    · simp [show Nat.testBit 32 4 = false by decide]
    · simp [show Nat.testBit 32 5 = true by decide]
  · rw [h]
    simp only [ne_eq, one_ne_zero, not_false_eq_true, if_true, testBit_mod_256, Nat.testBit_or,
      Nat.testBit_and, h15]
    refine ⟨fun j hj => ?_, ?_, ?_⟩
    · have : Nat.testBit 48 j = false := by
        have hj4 : j = 0 ∨ j = 1 ∨ j = 2 ∨ j = 3 := by omega
        rcases hj4 with e | e | e | e <;> rw [e] <;> decide
      simp [this, hj]
      omega
    · simp [show Nat.testBit 48 4 = true by decide]
    · simp [show Nat.testBit 48 5 = true by decide]

theorem odd_store_bits (x o : Nat) (hx : x < 16) :
    ((x ||| (o &&& 0x10)) % 256).testBit 4 = o.testBit 4 ∧
    ((x ||| (o &&& 0x10)) % 256).testBit 5 = false := by
  have hx4 : x.testBit 4 = false := Nat.testBit_lt_two_pow (Nat.lt_of_lt_of_le hx (by decide))
  have hx5 : x.testBit 5 = false := Nat.testBit_lt_two_pow (Nat.lt_of_lt_of_le hx (by decide))
  simp only [testBit_mod_256, Nat.testBit_or, Nat.testBit_and, hx4, hx5]
  constructor
  · simp [show Nat.testBit 16 4 = true by decide]
  · simp [show Nat.testBit 16 5 = false by decide]

/-- C20: every even-numbered callback `step_output(2s)` leaves the four data
bits (bits 0-3) of `out` unchanged, sets the L/H bit (bit 4) to `s mod 2` and
sets the Ack bit (bit 5); every odd-numbered callback `step_output(2s+1)` with
`s < 12` leaves the L/H bit unchanged and clears the Ack bit. -/
theorem C20_handshake_lines (d : Dev) (s : Nat) :
    (∀ j, j < 4 → (step_output d (2 * s)).m_out.testBit j = d.m_out.testBit j) ∧
    (step_output d (2 * s)).m_out.testBit 4 = decide (s % 2 = 1) ∧
    (step_output d (2 * s)).m_out.testBit 5 = true ∧
    (s < 12 →
      (step_output d (2 * s + 1)).m_out.testBit 4 = d.m_out.testBit 4 ∧
      (step_output d (2 * s + 1)).m_out.testBit 5 = false) := by
  have hb : BIT (2 * s) 0 = 0 := by
    unfold BIT
    rw [Nat.shiftRight_zero, Nat.and_one_is_mod]
    omega
  have hstep : (2 * s) >>> 1 = s := by
    rw [Nat.shiftRight_eq_div_pow]
    omega
  have heven : (step_output d (2 * s)).m_out
      = ((d.m_out &&& 0x0f) ||| (if BIT s 0 ≠ 0 then 0x30 else 0x20)) % 256 := by
    unfold step_output
    simp only [hb, hstep, if_true]
    split_ifs <;> rfl
  obtain ⟨e1, e2, e3⟩ := even_store_bits d.m_out s
  refine ⟨fun j hj => by rw [heven]; exact e1 j hj, by rw [heven]; exact e2,
    by rw [heven]; exact e3, fun hs => ?_⟩
  rw [step_output_odd d s hs]
  exact odd_store_bits _ _ (bitw_lt _ _)

end micom_xe_1a_device

theorem store_same (a : Nat → Nat) (i v : Nat) : store a i v i = v := by
  unfold store
  rw [if_pos rfl]

theorem store_other (a : Nat → Nat) (i v j : Nat) (h : j ≠ i) : store a i v j = a j := by
  unfold store
  rw [if_neg h]

theorem store_self (a : Nat → Nat) (i : Nat) : store a i (a i) = a := by
  funext j
  unfold store
  split
  · next h => rw [h]
  · rfl

theorem store_store (a : Nat → Nat) (i v w : Nat) : store (store a i v) i w = store a i w := by
  funext j
  unfold store
  split <;> rfl

theorem turbo_fetch_eq (rom : Nat → Nat) (level : Nat) (s : Sampler) :
    turbo_state.fetch rom level s = fetch_gen turbo_state.cfg rom level s := by
  simp only [turbo_state.fetch, fetch_gen, turbo_state.cfg, store_self, Bool.true_and]

theorem subroc3d_fetch_eq (rom : Nat → Nat) (level : Nat) (s : Sampler) :
    subroc3d_state.fetch rom level s = fetch_gen subroc3d_state.cfg rom level s := by
  simp only [subroc3d_state.fetch, fetch_gen, subroc3d_state.cfg, Bool.false_and,
    decide_eq_true_eq, Bool.false_eq_true, if_false]

theorem buckrog_fetch_eq (rom : Nat → Nat) (level : Nat) (s : Sampler) :
    buckrog_state.fetch rom level s = fetch_gen buckrog_state.cfg rom level s := by
  simp only [buckrog_state.fetch, fetch_gen, buckrog_state.cfg, Bool.false_and,
    decide_eq_true_eq, Bool.false_eq_true, if_false]

theorem turbo_fetch_loop_eq (rom : Nat → Nat) (level fuel : Nat) (s : Sampler) :
    turbo_state.fetch_loop rom level fuel s = fetch_loop_gen turbo_state.cfg rom level fuel s := by
  induction fuel generalizing s with
  | zero => rfl
  | succ n ih =>
    simp only [turbo_state.fetch_loop, fetch_loop_gen, turbo_fetch_eq, ih]
    rfl

theorem turbo_sample_level_eq (rom : Nat → Nat) (s : Sampler) (level : Nat) :
    turbo_state.sample_level rom s level = sample_level_gen turbo_state.cfg rom s level := by
  simp only [turbo_state.sample_level, sample_level_gen, turbo_fetch_loop_eq, live_word,
    sample_start]
  rfl

theorem subroc3d_fetch_loop_eq (rom : Nat → Nat) (level fuel : Nat) (s : Sampler) :
    subroc3d_state.fetch_loop rom level fuel s
      = fetch_loop_gen subroc3d_state.cfg rom level fuel s := by
  induction fuel generalizing s with
  | zero => rfl
  | succ n ih =>
    simp only [subroc3d_state.fetch_loop, fetch_loop_gen, subroc3d_fetch_eq, ih]
    rfl

theorem buckrog_fetch_loop_eq (rom : Nat → Nat) (level fuel : Nat) (s : Sampler) :
    buckrog_state.fetch_loop rom level fuel s
      = fetch_loop_gen buckrog_state.cfg rom level fuel s := by
  induction fuel generalizing s with
  | zero => rfl
  | succ n ih =>
    simp only [buckrog_state.fetch_loop, fetch_loop_gen, buckrog_fetch_eq, ih]
    rfl

theorem subroc3d_sample_level_eq (rom : Nat → Nat) (s : Sampler) (level : Nat) :
    subroc3d_state.sample_level rom s level = sample_level_gen subroc3d_state.cfg rom s level := by
  simp only [subroc3d_state.sample_level, sample_level_gen, subroc3d_fetch_loop_eq, live_word,
    sample_start]
  rfl

theorem buckrog_sample_level_eq (rom : Nat → Nat) (s : Sampler) (level : Nat) :
    buckrog_state.sample_level rom s level = sample_level_gen buckrog_state.cfg rom s level := by
  simp only [buckrog_state.sample_level, sample_level_gen, buckrog_fetch_loop_eq, live_word,
    sample_start]
  rfl

/-- Each board's `get_sprite_bits` is the common loop over the eight levels. -/
theorem board_get_sprite_bits_eq (b : Board) (rom : Nat → Nat) (road : Nat) (info : sprite_info) :
    b.get_sprite_bits rom road info = sample_upto b.cfg rom (b.sample_entry road info) 8 := by
  cases b
  · have h : turbo_state.sample_level rom = sample_level_gen turbo_state.cfg rom := by
      funext s l; exact turbo_sample_level_eq rom s l
    simp only [Board.get_sprite_bits, turbo_state.get_sprite_bits, h, sample_upto, Board.cfg,
      Board.sample_entry]
  · have h : subroc3d_state.sample_level rom = sample_level_gen subroc3d_state.cfg rom := by
      funext s l; exact subroc3d_sample_level_eq rom s l
    simp only [Board.get_sprite_bits, subroc3d_state.get_sprite_bits, h, sample_upto, Board.cfg,
      Board.sample_entry]
  · have h : buckrog_state.sample_level rom = sample_level_gen buckrog_state.cfg rom := by
      funext s l; exact buckrog_sample_level_eq rom s l
    simp only [Board.get_sprite_bits, buckrog_state.get_sprite_bits, h, sample_upto, Board.cfg,
      Board.sample_entry]

/-! ### The `while` loop on one level -/

theorem testBit_clear_bit8 (b level j : Nat) :
    (clear_bit8 b level).testBit j = (decide (j < 8) && (b.testBit j && !decide (level = j))) := by
  unfold clear_bit8
  have h32 : (0xffffffff : Nat) = 2 ^ 32 - 1 := rfl
  rw [show (256 : Nat) = 2 ^ 8 from rfl, Nat.testBit_mod_two_pow, Nat.testBit_and,
    Nat.testBit_xor, h32, Nat.testBit_two_pow_sub_one, Nat.one_shiftLeft, Nat.testBit_two_pow]
  by_cases h8 : j < 8
  · have : j < 32 := by omega
    simp [h8, this]
  · simp [h8]

theorem clear_bit8_idem (b level : Nat) :
    clear_bit8 (clear_bit8 b level) level = clear_bit8 b level := by
  apply Nat.eq_of_testBit_eq
  intro j
  rw [testBit_clear_bit8, testBit_clear_bit8]
  cases decide (j < 8) <;> cases b.testBit j <;> cases decide (level = j) <;> rfl

theorem clear_twice (a b : Bool) (x level : Nat) :
    (if b = true then clear_bit8 (if a = true then clear_bit8 x level else x) level
      else if a = true then clear_bit8 x level else x)
      = if (a || b) = true then clear_bit8 x level else x := by
  cases a <;> cases b <;> simp [clear_bit8_idem]

/-- One iteration of the `while` loop acts on the members of its level. -/
theorem fetch_gen_put (c : SampleCfg) (rom : Nat → Nat) (level : Nat) (s : Sampler) (t : Lvl) :
    fetch_gen c rom level (s.put c level t) = s.put c level (lvl_fetch c rom level t) := by
  unfold fetch_gen Sampler.put lvl_fetch
  simp only [store_same, store_store, List.map_append, List.map_cons, List.map_nil,
    List.append_assoc, clear_twice, Bool.and_or_distrib_left]

/-- The `while` loop acts on the members of its level. -/
theorem fetch_loop_gen_put (c : SampleCfg) (rom : Nat → Nat) (level fuel : Nat) (s : Sampler)
    (t : Lvl) :
    fetch_loop_gen c rom level fuel (s.put c level t)
      = s.put c level (lvl_loop c rom level fuel t) := by
  induction fuel generalizing t with
  | zero => rfl
  | succ n ih =>
    have hf : (s.put c level t).info.frac level = t.frac := by
      unfold Sampler.put
      exact store_same _ _ _
    unfold fetch_loop_gen lvl_loop
    rw [hf]
    by_cases h : t.frac ≥ c.T
    · rw [if_pos h, if_pos h, fetch_gen_put, ih]
    · rw [if_neg h, if_neg h]

/-! ### The loop over the levels -/

theorem and_shift_ne_zero (x l : Nat) : x &&& (1 <<< l) ≠ 0 ↔ x.testBit l = true := by
  rw [Nat.one_shiftLeft, Nat.and_two_pow]
  cases x.testBit l
  · simp
  · simp

theorem sample_start_put (c : SampleCfg) (s : Sampler) (level : Nat) :
    sample_start c s level = (sample_acc c s level).put c level (lvl_start s.info level) := by
  unfold sample_start sample_acc Sampler.put lvl_start
  simp only [store_self, Bool.and_false, Bool.false_eq_true, if_false, List.map_nil,
    List.append_nil]

/-- The body of the loop over the levels: a live level is run on its own
members, a level that is not live is skipped. -/
theorem sample_level_gen_eq (c : SampleCfg) (rom : Nat → Nat) (s : Sampler) (level : Nat) :
    sample_level_gen c rom s level =
      if live_at c s level = true then
        (sample_acc c s level).put c level (lvl_run c rom s.info level)
      else s := by
  unfold sample_level_gen live_at lvl_run
  by_cases h : (live_word c s).testBit level = true
  · rw [if_pos ((and_shift_ne_zero _ _).2 h), if_pos h, sample_start_put, fetch_loop_gen_put]
  · rw [if_neg (fun x => h ((and_shift_ne_zero _ _).1 x)), if_neg h]

theorem lvl_start_congr (i1 i2 : sprite_info) (l : Nat)
    (h : level_state i1 l = level_state i2 l) : lvl_start i1 l = lvl_start i2 l := by
  unfold level_state at h
  simp only [Prod.mk.injEq] at h
  obtain ⟨h1, h2, h3, h4, h5⟩ := h
  unfold lvl_start
  rw [h1, h2, h3, h4, h5]

theorem lvl_run_congr (c : SampleCfg) (rom : Nat → Nat) (i1 i2 : sprite_info) (l : Nat)
    (h : level_state i1 l = level_state i2 l) : lvl_run c rom i1 l = lvl_run c rom i2 l := by
  unfold lvl_run
  rw [lvl_start_congr i1 i2 l h]

/-- A step of the loop over the levels leaves the members of the other levels
and the live bits of the other levels as they are. -/
theorem sample_level_gen_frame (c : SampleCfg) (rom : Nat → Nat) (s : Sampler) (level l : Nat)
    (hl : l ≠ level) :
    level_state (sample_level_gen c rom s level).info l = level_state s.info l ∧
    (l < 8 → live_at c (sample_level_gen c rom s level) l = live_at c s l) ∧
    (l < 8 → (sample_level_gen c rom s level).info.lst.testBit l = s.info.lst.testBit l) := by
  rw [sample_level_gen_eq]
  by_cases h : live_at c s level = true
  · rw [if_pos h]
    have hne : ¬ decide (level = l) = true := by
      simp only [decide_eq_true_eq]
      exact fun e => hl e.symm
    refine ⟨?_, fun h8 => ?_, fun h8 => ?_⟩
    · unfold level_state Sampler.put sample_acc
      simp only [store_other _ _ _ _ hl]
    · unfold live_at live_word Sampler.put sample_acc
      cases c.turbo <;> cases (lvl_run c rom s.info level).ended <;>
        simp [testBit_clear_bit8, h8, hl.symm]
    · unfold Sampler.put sample_acc
      cases (lvl_run c rom s.info level).ended <;> simp [testBit_clear_bit8, h8, hl.symm]
  · rw [if_neg h]
    exact ⟨rfl, fun _ => rfl, fun _ => rfl⟩

theorem sample_upto_succ (c : SampleCfg) (rom : Nat → Nat) (s : Sampler) (k : Nat) :
    sample_upto c rom s (k + 1) = sample_level_gen c rom (sample_upto c rom s k) k := by
  simp only [sample_upto, List.range_succ, List.foldl_append, List.foldl_cons, List.foldl_nil]

/-- After the first `k` levels, the levels from `k` on are as at entry. -/
theorem sample_upto_frame (c : SampleCfg) (rom : Nat → Nat) (s : Sampler) (k l : Nat)
    (hl : k ≤ l) :
    level_state (sample_upto c rom s k).info l = level_state s.info l ∧
    (l < 8 → live_at c (sample_upto c rom s k) l = live_at c s l) ∧
    (l < 8 → (sample_upto c rom s k).info.lst.testBit l = s.info.lst.testBit l) := by
  induction k with
  | zero => exact ⟨rfl, fun _ => rfl, fun _ => rfl⟩
  | succ k ih =>
    obtain ⟨i1, i2, i3⟩ := ih (by omega)
    obtain ⟨f1, f2, f3⟩ := sample_level_gen_frame c rom (sample_upto c rom s k) k l (by omega)
    rw [sample_upto_succ]
    exact ⟨f1.trans i1, fun h8 => (f2 h8).trans (i2 h8), fun h8 => (f3 h8).trans (i3 h8)⟩

/-- The step of level `k`, in terms of the state at entry. -/
theorem sample_upto_step (c : SampleCfg) (rom : Nat → Nat) (s : Sampler) (k : Nat) (hk : k < 8) :
    sample_upto c rom s (k + 1) =
      if live_at c s k = true then
        (sample_acc c (sample_upto c rom s k) k).put c k (lvl_run c rom s.info k)
      else sample_upto c rom s k := by
  obtain ⟨f1, f2, _⟩ := sample_upto_frame c rom s k k (Nat.le_refl k)
  rw [sample_upto_succ, sample_level_gen_eq, f2 hk, lvl_run_congr c rom _ _ k f1]

/-! ### The arithmetic of the `while` loop -/

/-- With enough fuel the `while` loop on a level makes exactly `frac / T`
iterations and leaves `frac mod T`. -/
theorem lvl_loop_frac (c : SampleCfg) (rom : Nat → Nat) (level : Nat) (hT : 0 < c.T)
    (fuel : Nat) : ∀ (t : Lvl), t.frac / c.T ≤ fuel →
      (lvl_loop c rom level fuel t).frac = t.frac % c.T ∧
      (lvl_loop c rom level fuel t).reads.length = t.reads.length + t.frac / c.T := by
  induction fuel with
  | zero =>
    intro t h
    have h0 : t.frac / c.T = 0 := Nat.le_zero.mp h
    have hlt : t.frac < c.T := by
      rcases Nat.lt_or_ge t.frac c.T with h1 | h1
      · exact h1
      · have := Nat.div_pos h1 hT
        omega
    exact ⟨(Nat.mod_eq_of_lt hlt).symm, by rw [h0]; rfl⟩
  | succ n ih =>
    intro t h
    unfold lvl_loop
    by_cases hge : t.frac ≥ c.T
    · rw [if_pos hge]
      have hdiv : t.frac / c.T = (t.frac - c.T) / c.T + 1 := Nat.div_eq_sub_div hT hge
      have hmod : t.frac % c.T = (t.frac - c.T) % c.T := Nat.mod_eq_sub_mod hge
      have hf : (lvl_fetch c rom level t).frac = t.frac - c.T := rfl
      have hr : (lvl_fetch c rom level t).reads.length = t.reads.length + 1 := by
        unfold lvl_fetch
        simp only [List.length_append, List.length_cons, List.length_nil]
      obtain ⟨e1, e2⟩ := ih (lvl_fetch c rom level t) (by rw [hf]; omega)
      rw [e1, e2, hf, hr, hmod, hdiv]
      exact ⟨rfl, by omega⟩
    · rw [if_neg hge]
      have hlt : t.frac < c.T := by omega
      rw [Nat.mod_eq_of_lt hlt, Nat.div_eq_of_lt hlt]
      exact ⟨rfl, rfl⟩

/-- More fuel than the `frac / T` iterations the loop makes changes nothing. -/
theorem lvl_loop_fuel (c : SampleCfg) (rom : Nat → Nat) (level : Nat) (hT : 0 < c.T)
    (fuel : Nat) : ∀ (t : Lvl), t.frac / c.T ≤ fuel →
      lvl_loop c rom level fuel t = lvl_loop c rom level (t.frac / c.T) t := by
  induction fuel with
  | zero =>
    intro t h
    have h0 : t.frac / c.T = 0 := Nat.le_zero.mp h
    rw [h0]
  | succ n ih =>
    intro t h
    by_cases hge : t.frac ≥ c.T
    · have hdiv : t.frac / c.T = (t.frac - c.T) / c.T + 1 := Nat.div_eq_sub_div hT hge
      have hf : (lvl_fetch c rom level t).frac = t.frac - c.T := rfl
      rw [hdiv]
      unfold lvl_loop
      rw [if_pos hge, if_pos hge, ih (lvl_fetch c rom level t) (by rw [hf]; omega), hf]
    · have hlt : t.frac < c.T := by omega
      rw [Nat.div_eq_of_lt hlt]
      unfold lvl_loop
      rw [if_neg hge]

/-- The members of level `level` of a state, nothing read. -/
theorem put_self (c : SampleCfg) (s : Sampler) (level : Nat) :
    s.put c level
      { latched := s.info.latched level, plb := s.info.plb level, offset := s.info.offset level,
        frac := s.info.frac level, ended := false, reads := [] } = s := by
  unfold Sampler.put
  simp only [store_self, Bool.and_false, Bool.false_eq_true, if_false, List.map_nil,
    List.append_nil]

/-- The `while` loop of the code, from any state: with fuel for `frac / T`
iterations it ends with `frac mod T`, and more fuel changes nothing. -/
theorem fetch_loop_gen_terminates (c : SampleCfg) (rom : Nat → Nat) (level : Nat) (hT : 0 < c.T)
    (s : Sampler) (fuel : Nat) (h : s.info.frac level / c.T ≤ fuel) :
    (fetch_loop_gen c rom level fuel s).info.frac level = s.info.frac level % c.T ∧
    fetch_loop_gen c rom level fuel s
      = fetch_loop_gen c rom level (s.info.frac level / c.T) s := by
  have hs := put_self c s level
  have e1 := fetch_loop_gen_put c rom level fuel s
    { latched := s.info.latched level, plb := s.info.plb level, offset := s.info.offset level,
      frac := s.info.frac level, ended := false, reads := [] }
  have e2 := fetch_loop_gen_put c rom level (s.info.frac level / c.T) s
    { latched := s.info.latched level, plb := s.info.plb level, offset := s.info.offset level,
      frac := s.info.frac level, ended := false, reads := [] }
  rw [hs] at e1 e2
  constructor
  · rw [e1]
    unfold Sampler.put
    simp only [store_same]
    exact (lvl_loop_frac c rom level hT fuel _ h).1
  · rw [e1, e2, lvl_loop_fuel c rom level hT fuel _ h]

theorem board_T_pos (b : Board) : 0 < b.cfg.T := by
  cases b <;> decide

theorem board_fuel (b : Board) : b.cfg.fuel * b.cfg.T = 2 ^ 32 := by
  cases b <;> decide

/-- What the sampler leaves of a live level: `frac mod T`, after `frac / T`
reads, `frac` being the `uint32_t` sum of the level's `frac` and `step`. -/
theorem lvl_run_frac (b : Board) (rom : Nat → Nat) (info : sprite_info) (l : Nat) :
    (lvl_run b.cfg rom info l).frac = ((info.frac l + info.step l) % 2 ^ 32) % b.cfg.T ∧
    (lvl_run b.cfg rom info l).reads.length = ((info.frac l + info.step l) % 2 ^ 32) / b.cfg.T := by
  have hT := board_T_pos b
  have hfuel : (lvl_start info l).frac / b.cfg.T ≤ b.cfg.fuel := by
    have h1 : (lvl_start info l).frac < 2 ^ 32 := Nat.mod_lt _ (by decide)
    rw [← board_fuel b] at h1
    have := (Nat.div_lt_iff_lt_mul hT).2 h1
    omega
  obtain ⟨e1, e2⟩ := lvl_loop_frac b.cfg rom l hT b.cfg.fuel (lvl_start info l) hfuel
  unfold lvl_run
  rw [e1, e2]
  exact ⟨rfl, Nat.zero_add _⟩

/-! ### The state the sampler leaves -/

/-- The members of level `l` after the first `k` levels: those the sampler
leaves of a live level when `l < k` is live at entry, otherwise unchanged. -/
theorem sample_upto_level (c : SampleCfg) (rom : Nat → Nat) (s : Sampler) (k l : Nat)
    (hk : k ≤ 8) :
    level_state (sample_upto c rom s k).info l =
      if l < k ∧ live_at c s l = true then
        ((lvl_run c rom s.info l).latched, (lvl_run c rom s.info l).plb,
          (lvl_run c rom s.info l).offset, (lvl_run c rom s.info l).frac, s.info.step l)
      else level_state s.info l := by
  induction k with
  | zero =>
    rw [if_neg (fun h => absurd h.1 (Nat.not_lt_zero l))]
    rfl
  | succ k ih =>
    have ih2 := ih (by omega)
    rw [sample_upto_step c rom s k (by omega)]
    by_cases hlk : l = k
    · subst hlk
      have hfr := (sample_upto_frame c rom s l l (Nat.le_refl l)).1
      by_cases hlive : live_at c s l = true
      · rw [if_pos hlive, if_pos ⟨by omega, hlive⟩]
        have hstep : (sample_upto c rom s l).info.step l = s.info.step l := by
          have := hfr
          unfold level_state at this
          simp only [Prod.mk.injEq] at this
          exact this.2.2.2.2
        unfold level_state Sampler.put sample_acc
        simp only [store_same, hstep]
      · rw [if_neg hlive, if_neg (fun h => hlive h.2)]
        exact hfr
    · have hiff : (l < k + 1 ∧ live_at c s l = true) ↔ (l < k ∧ live_at c s l = true) := by
        constructor
        · rintro ⟨h1, h2⟩; exact ⟨by omega, h2⟩
        · rintro ⟨h1, h2⟩; exact ⟨by omega, h2⟩
      simp only [hiff]
      by_cases hlive : live_at c s k = true
      · rw [if_pos hlive, ← ih2]
        unfold level_state Sampler.put sample_acc
        simp only [store_other _ _ _ _ hlk]
      · rw [if_neg hlive, ih2]

/-- The sprite-ROM reads recorded for level `l` after the first `k` levels. -/
theorem sample_upto_fetches (c : SampleCfg) (rom : Nat → Nat) (s : Sampler) (k l : Nat)
    (hk : k ≤ 8) :
    (sample_upto c rom s k).fetches.filter (fun e => e.1 == l) =
      s.fetches.filter (fun e => e.1 == l) ++
        (if l < k ∧ live_at c s l = true then (lvl_run c rom s.info l).reads.map (fun i => (l, i))
          else []) := by
  induction k with
  | zero =>
    rw [if_neg (fun h => absurd h.1 (Nat.not_lt_zero l)), List.append_nil]
    rfl
  | succ k ih =>
    have ih2 := ih (by omega)
    rw [sample_upto_step c rom s k (by omega)]
    have hput : ∀ (t : Lvl), ((sample_acc c (sample_upto c rom s k) k).put c k t).fetches
        = (sample_upto c rom s k).fetches ++ t.reads.map (fun i => (k, i)) := fun _ => rfl
    by_cases hlk : l = k
    · subst hlk
      have hnot : ¬ (l < l ∧ live_at c s l = true) := fun h => absurd h.1 (Nat.lt_irrefl l)
      rw [if_neg hnot, List.append_nil] at ih2
      by_cases hlive : live_at c s l = true
      · rw [if_pos hlive, if_pos ⟨by omega, hlive⟩, hput, List.filter_append, ih2]
        congr 1
        rw [List.filter_eq_self]
        intro e he
        obtain ⟨i, _, rfl⟩ := List.mem_map.1 he
        simp
      · rw [if_neg hlive, if_neg (fun h => hlive h.2), List.append_nil, ih2]
    · have hiff : (l < k + 1 ∧ live_at c s l = true) ↔ (l < k ∧ live_at c s l = true) := by
        constructor
        · rintro ⟨h1, h2⟩; exact ⟨by omega, h2⟩
        · rintro ⟨h1, h2⟩; exact ⟨by omega, h2⟩
      simp only [hiff]
      by_cases hlive : live_at c s k = true
      · rw [if_pos hlive, hput, List.filter_append, ih2]
        have hnone : List.filter (fun e => e.1 == l)
            ((lvl_run c rom s.info k).reads.map (fun i => (k, i))) = [] := by
          rw [List.filter_eq_nil_iff]
          intro e he
          obtain ⟨i, _, rfl⟩ := List.mem_map.1 he
          simp only [beq_iff_eq]
          exact fun x => hlk x.symm
        rw [hnone, List.append_nil]
      · rw [if_neg hlive, ih2]

/-- The bit of level `l` in `lst` after the first `k` levels: cleared when the
level has been run and has met an end code. -/
theorem sample_upto_lst (c : SampleCfg) (rom : Nat → Nat) (s : Sampler) (k l : Nat)
    (hk : k ≤ 8) (hl : l < 8) :
    (sample_upto c rom s k).info.lst.testBit l =
      (s.info.lst.testBit l &&
        !(decide (l < k) && live_at c s l && (lvl_run c rom s.info l).ended)) := by
  induction k with
  | zero => simp [sample_upto]
  | succ k ih =>
    have ih2 := ih (by omega)
    rw [sample_upto_step c rom s k (by omega)]
    have hput : ∀ (t : Lvl), ((sample_acc c (sample_upto c rom s k) k).put c k t).info.lst
        = if t.ended = true then clear_bit8 (sample_upto c rom s k).info.lst k
          else (sample_upto c rom s k).info.lst := fun _ => rfl
    by_cases hlk : l = k
    · subst hlk
      have h1 : ¬ l < l := Nat.lt_irrefl l
      have h2 : l < l + 1 := Nat.lt_succ_self l
      simp only [h1, decide_False, Bool.false_and, Bool.not_false, Bool.and_true] at ih2
      by_cases hlive : live_at c s l = true
      · rw [if_pos hlive, hput]
        cases he : (lvl_run c rom s.info l).ended
        · simp [ih2, hlive]
        · simp [testBit_clear_bit8, hl, hlive]
      · rw [if_neg hlive, ih2]
        simp [hlive]
    · have h1 : decide (l < k + 1) = decide (l < k) := by
        have : l < k + 1 ↔ l < k := by omega
        simp only [this]
      rw [h1]
      by_cases hlive : live_at c s k = true
      · rw [if_pos hlive, hput]
        cases he : (lvl_run c rom s.info k).ended
        · simpa using ih2
        · have hne : ¬ k = l := fun x => hlk x.symm
          simp only [if_true, testBit_clear_bit8, hl, decide_True, Bool.true_and, hne,
            decide_False, Bool.not_false, Bool.and_true]
          exact ih2
      · rw [if_neg hlive, ih2]

/-- The result `sprdata` after the first `k` levels: the OR, truncated to 32
bits, of the latched words the live levels below `k` held at entry. -/
theorem sample_upto_sprdata (c : SampleCfg) (rom : Nat → Nat) (s : Sampler) (hs : s.sprdata = 0)
    (k j : Nat) (hk : k ≤ 8) :
    (sample_upto c rom s k).sprdata.testBit j =
      (decide (j < 32) &&
        (List.range k).any (fun l => live_at c s l && (s.info.latched l).testBit j)) := by
  induction k with
  | zero => simp [sample_upto, hs]
  | succ k ih =>
    have ih2 := ih (by omega)
    rw [sample_upto_step c rom s k (by omega), List.range_succ, List.any_append, List.any_cons,
      List.any_nil, Bool.or_false]
    have hlat : (sample_upto c rom s k).info.latched k = s.info.latched k := by
      have := (sample_upto_frame c rom s k k (Nat.le_refl k)).1
      unfold level_state at this
      simp only [Prod.mk.injEq] at this
      exact this.1
    by_cases hlive : live_at c s k = true
    · rw [if_pos hlive]
      show (((sample_upto c rom s k).sprdata ||| (sample_upto c rom s k).info.latched k)
        % 2 ^ 32).testBit j = _
      rw [Nat.testBit_mod_two_pow, Nat.testBit_or, ih2, hlat, hlive]
      cases decide (j < 32) <;> simp
    · rw [if_neg hlive, ih2]
      simp [hlive]

/-- The levels that are live when Turbo's sampler enters its loop. -/
theorem turbo_live_at (road : Nat) (info : sprite_info) (l : Nat) (hl : l < 8) :
    live_at turbo_state.cfg (Board.turbo.sample_entry road info) l =
      (info.lst.testBit l && decide (road = 0 → l < 3)) := by
  unfold live_at live_word Board.sample_entry
  show (if road = 0 then (info.lst % 256) &&& 0x07 else info.lst % 256).testBit l = _
  have h7 : Nat.testBit 7 l = decide (l < 3) := by
    have := Nat.testBit_two_pow_sub_one 3 l
    simpa using this
  by_cases hr : road = 0
  · rw [if_pos hr, Nat.testBit_and, micom_xe_1a_device.testBit_mod_256, h7]
    simp [hl, hr]
  · rw [if_neg hr, micom_xe_1a_device.testBit_mod_256]
    simp [hl, hr]

/-- The levels that are live when the sampler of Subroc 3D or Buck Rogers enters
its loop. -/
theorem plb_live_at (b : Board) (hb : b ≠ Board.turbo) (road : Nat) (info : sprite_info)
    (l : Nat) : live_at b.cfg (b.sample_entry road info) l = info.lst.testBit l := by
  cases b
  · exact absurd rfl hb
  · rfl
  · rfl

theorem board_live_at (b : Board) (road : Nat) (info : sprite_info) (l : Nat) (hl : l < 8)
    (hlst : info.lst.testBit l = true) (hroad : b = Board.turbo → road = 0 → l < 3) :
    live_at b.cfg (b.sample_entry road info) l = true := by
  by_cases hb : b = Board.turbo
  · subst hb
    show live_at turbo_state.cfg _ l = true
    rw [turbo_live_at road info l hl, hlst]
    simp only [Bool.true_and, decide_eq_true_eq]
    exact hroad rfl
  · rw [plb_live_at b hb, hlst]

theorem board_fetch_loop_eq (b : Board) (rom : Nat → Nat) (level fuel : Nat) (s : Sampler) :
    b.fetch_loop rom level fuel s = fetch_loop_gen b.cfg rom level fuel s := by
  cases b
  · exact turbo_fetch_loop_eq rom level fuel s
  · exact subroc3d_fetch_loop_eq rom level fuel s
  · exact buckrog_fetch_loop_eq rom level fuel s

theorem sample_entry_info (b : Board) (road : Nat) (info : sprite_info) :
    (b.sample_entry road info).info = info ∧ (b.sample_entry road info).sprdata = 0 ∧
      (b.sample_entry road info).plb = 0 ∧ (b.sample_entry road info).fetches = [] := by
  cases b <;> exact ⟨rfl, rfl, rfl, rfl⟩

/-! ### C11: the fetch loop -/

/-- C11: in `get_sprite_bits`, for every live level `l` processed in a call (its
`lst` bit is set at entry and, on Turbo with `road = 0`, `l < 3`), with
`T = 0x1000000` on Turbo and `T = 0x800000` on Subroc 3D and Buck Rogers, and
provided `frac + step < 2^32`: the call leaves `frac = (frac + step) mod T`,
hence `frac < T`, and performs exactly `floor((frac + step) / T)` sprite-ROM
nibble fetches for the level; the `while` loop terminates: from any state, fuel
for `frac / T` iterations is enough, more fuel changes nothing and the loop
ends with `frac < T`. -/
theorem C11_fetch_loop_count (b : Board) (rom : Nat → Nat) (road : Nat) (info : sprite_info)
    (l : Nat) (hl : l < 8) (hlst : info.lst.testBit l = true)
    (hroad : b = Board.turbo → road = 0 → l < 3) (hsum : info.frac l + info.step l < 2 ^ 32) :
    (b.get_sprite_bits rom road info).info.frac l = (info.frac l + info.step l) % b.cfg.T ∧
    (b.get_sprite_bits rom road info).info.frac l < b.cfg.T ∧
    ((b.get_sprite_bits rom road info).fetches.filter (fun e => e.1 == l)).length
      = (info.frac l + info.step l) / b.cfg.T ∧
    (∀ (s : Sampler) (fuel : Nat), s.info.frac l / b.cfg.T ≤ fuel →
      b.fetch_loop rom l fuel s = b.fetch_loop rom l (s.info.frac l / b.cfg.T) s ∧
      (b.fetch_loop rom l fuel s).info.frac l < b.cfg.T) ∧
    Board.turbo.cfg.T = 0x1000000 ∧ Board.subroc3d.cfg.T = 0x800000 ∧
    Board.buckrog.cfg.T = 0x800000 := by
  have hlive := board_live_at b road info l hl hlst hroad
  have hT := board_T_pos b
  obtain ⟨hi, _, _, hf⟩ := sample_entry_info b road info
  have hlev := sample_upto_level b.cfg rom (b.sample_entry road info) 8 l (Nat.le_refl 8)
  rw [if_pos ⟨hl, hlive⟩, hi] at hlev
  have hfrac : (b.get_sprite_bits rom road info).info.frac l = (lvl_run b.cfg rom info l).frac := by
    rw [board_get_sprite_bits_eq]
    unfold level_state at hlev
    simp only [Prod.mk.injEq] at hlev
    exact hlev.2.2.2.1
  obtain ⟨r1, r2⟩ := lvl_run_frac b rom info l
  rw [Nat.mod_eq_of_lt hsum] at r1 r2
  have hfet := sample_upto_fetches b.cfg rom (b.sample_entry road info) 8 l (Nat.le_refl 8)
  rw [if_pos ⟨hl, hlive⟩, hi, hf] at hfet
  refine ⟨by rw [hfrac, r1], by rw [hfrac, r1]; exact Nat.mod_lt _ hT, ?_, fun s fuel h => ?_,
    rfl, rfl, rfl⟩
  · rw [board_get_sprite_bits_eq, hfet]
    simp only [List.filter_nil, List.nil_append, List.length_map]
    exact r2
  · obtain ⟨t1, t2⟩ := fetch_loop_gen_terminates b.cfg rom l hT s fuel h
    rw [board_fetch_loop_eq, board_fetch_loop_eq]
    exact ⟨t2, by rw [t1]; exact Nat.mod_lt _ hT⟩

theorem two_level_latched_lt (l : Nat) : two_level_info.latched l < 2 ^ 32 := by
  show (if l = 0 then 0x101 else if l = 7 then 0x80 else 0) < 2 ^ 32
  split_ifs <;> decide

theorem C11_fetch_loop_count_witness :
    ((0 : Nat) < 8 ∧ two_level_info.lst.testBit 0 = true ∧
      two_level_info.frac 0 + two_level_info.step 0 < 2 ^ 32) ∧
    (Board.subroc3d.get_sprite_bits (fun _ => 0x33) 0 two_level_info).info.frac 0
      = (two_level_info.frac 0 + two_level_info.step 0) % Board.subroc3d.cfg.T :=
  ⟨⟨by decide, by decide, by decide⟩,
    (C11_fetch_loop_count Board.subroc3d (fun _ => 0x33) 0 two_level_info 0 (by decide)
      (by decide) (fun h => absurd h (by decide)) (by decide)).1⟩

/-! ### C12: what Turbo's sampler returns and what it leaves alone -/

/-- C12: Turbo's `get_sprite_bits(road)` returns the bitwise OR of the values
`latched[l]` held at entry, taken over exactly the levels `l` whose `lst` bit is
set at entry and, when `road = 0`, `l < 3`; every other level's `latched`,
`offset` and `frac` and its `lst` bit are unchanged by the call. -/
theorem C12_turbo_get_sprite_bits (rom : Nat → Nat) (road : Nat) (info : sprite_info)
    (hlat : ∀ l, info.latched l < 2 ^ 32) :
    (∀ j, (turbo_state.get_sprite_bits rom road info).sprdata.testBit j = true ↔
      ∃ l, (l < 8 ∧ info.lst.testBit l = true ∧ (road = 0 → l < 3)) ∧
        (info.latched l).testBit j = true) ∧
    (∀ l, ¬ (l < 8 ∧ info.lst.testBit l = true ∧ (road = 0 → l < 3)) →
      (turbo_state.get_sprite_bits rom road info).info.latched l = info.latched l ∧
      (turbo_state.get_sprite_bits rom road info).info.offset l = info.offset l ∧
      (turbo_state.get_sprite_bits rom road info).info.frac l = info.frac l ∧
      (l < 8 → (turbo_state.get_sprite_bits rom road info).info.lst.testBit l
        = info.lst.testBit l)) := by
  have heq := board_get_sprite_bits_eq Board.turbo rom road info
  have hgs : turbo_state.get_sprite_bits rom road info
      = sample_upto turbo_state.cfg rom (Board.turbo.sample_entry road info) 8 := heq
  obtain ⟨hi, hs, _, _⟩ := sample_entry_info Board.turbo road info
  have hlive : ∀ l, l < 8 → (live_at turbo_state.cfg (Board.turbo.sample_entry road info) l = true
      ↔ (info.lst.testBit l = true ∧ (road = 0 → l < 3))) := by
    intro l hl
    rw [turbo_live_at road info l hl, Bool.and_eq_true, decide_eq_true_eq]
  constructor
  · intro j
    rw [hgs, sample_upto_sprdata turbo_state.cfg rom _ hs 8 j (Nat.le_refl 8), Bool.and_eq_true,
      List.any_eq_true, decide_eq_true_eq, hi]
    constructor
    · rintro ⟨_, l, hmem, hb⟩
      have hl : l < 8 := List.mem_range.1 hmem
      rw [Bool.and_eq_true] at hb
      exact ⟨l, ⟨hl, (hlive l hl).1 hb.1⟩, hb.2⟩
    · rintro ⟨l, ⟨hl, h2⟩, hb⟩
      refine ⟨?_, l, List.mem_range.2 hl, ?_⟩
      · by_contra hj
        have hge : 32 ≤ j := by omega
        have := Nat.testBit_lt_two_pow
          (Nat.lt_of_lt_of_le (hlat l) (Nat.pow_le_pow_right (by decide) hge))
        rw [this] at hb
        exact absurd hb (by decide)
      · rw [Bool.and_eq_true]
        exact ⟨(hlive l hl).2 h2, hb⟩
  · intro l hnot
    have hnl : ¬ (l < 8 ∧ live_at turbo_state.cfg (Board.turbo.sample_entry road info) l = true) := by
      rintro ⟨hl, h⟩
      exact hnot ⟨hl, (hlive l hl).1 h⟩
    have hlev := sample_upto_level turbo_state.cfg rom (Board.turbo.sample_entry road info) 8 l
      (Nat.le_refl 8)
    rw [if_neg hnl, hi] at hlev
    unfold level_state at hlev
    simp only [Prod.mk.injEq] at hlev
    rw [hgs]
    refine ⟨hlev.1, hlev.2.2.1, hlev.2.2.2.1, fun hl => ?_⟩
    rw [sample_upto_lst turbo_state.cfg rom _ 8 l (Nat.le_refl 8) hl, hi]
    have : live_at turbo_state.cfg (Board.turbo.sample_entry road info) l = false := by
      cases h : live_at turbo_state.cfg (Board.turbo.sample_entry road info) l
      · rfl
      · exact absurd ⟨hl, h⟩ hnl
    rw [this]
    simp

theorem C12_turbo_get_sprite_bits_witness :
    (∀ l, two_level_info.latched l < 2 ^ 32) ∧
    (¬ (7 < 8 ∧ two_level_info.lst.testBit 7 = true ∧ ((0 : Nat) = 0 → 7 < 3)) →
      (turbo_state.get_sprite_bits (fun i => i % 256) 0 two_level_info).info.latched 7
        = two_level_info.latched 7 ∧
      (turbo_state.get_sprite_bits (fun i => i % 256) 0 two_level_info).info.offset 7
        = two_level_info.offset 7 ∧
      (turbo_state.get_sprite_bits (fun i => i % 256) 0 two_level_info).info.frac 7
        = two_level_info.frac 7 ∧
      (7 < 8 → (turbo_state.get_sprite_bits (fun i => i % 256) 0 two_level_info).info.lst.testBit 7
        = two_level_info.lst.testBit 7)) :=
  ⟨two_level_latched_lt,
    (C12_turbo_get_sprite_bits (fun i => i % 256) 0 two_level_info two_level_latched_lt).2 7⟩

/-! ### C13: the Buck Rogers priority cascade -/

theorem and_pow_eq_zero_iff (x i : Nat) : x &&& 2 ^ i = 0 ↔ x.testBit i = false := by
  rw [Nat.and_two_pow]
  cases x.testBit i
  · simp
  · simp

theorem F_fore_lt (f : Nat) : F_fore f < 2 ^ 16 := by
  unfold F_fore
  have h1 : f &&& 0x3c ≤ 0x3c := Nat.and_le_right
  have h2 : f &&& 0x06 ≤ 0x06 := Nat.and_le_right
  have h3 : f &&& 0x01 ≤ 0x01 := Nat.and_le_right
  apply Nat.or_lt_two_pow
  · apply Nat.or_lt_two_pow
    · rw [Nat.shiftLeft_eq]; omega
    · rw [Nat.shiftLeft_eq]; omega
  · omega

theorem G_back_lt (p : Nat) : G_back p < 2 ^ 16 := by
  unfold G_back
  have h1 : p &&& 0xc0 ≤ 0xc0 := Nat.and_le_right
  have h2 : p &&& 0x30 ≤ 0x30 := Nat.and_le_right
  have h3 : p &&& 0x0f ≤ 0x0f := Nat.and_le_right
  apply Nat.or_lt_two_pow
  · apply Nat.or_lt_two_pow
    · omega
    · rw [Nat.shiftLeft_eq]; omega
  · rw [Nat.shiftLeft_eq]; omega

/-- The cascade of `palbits_of`, in the words of the claim. -/
theorem palbits_of_cascade (e : Env) (g : buckrog_state.Gathered) (sprbits plb y : Nat) :
    buckrog_state.palbits_of e g sprbits plb y =
      if g.forebits.testBit 7 = false then F_fore g.forebits
      else if (buckrog_state.mux_of plb).testBit 3 = false then
        e.m_proms (0x700 + ((cd_of sprbits (buckrog_state.mux_of plb) &&& 0x0f) |||
          ((buckrog_state.mux_of plb &&& 0x07) <<< 4) ||| ((e.m_obch &&& 0x07) <<< 7)))
      else if g.forebits.testBit 6 = false then F_fore g.forebits
      else if g.star ≠ 0 then 0xff
      else G_back (e.m_bgcolorrom (y ||| ((e.m_mov &&& 0x1f) <<< 8))) := by
  have h7 := and_pow_eq_zero_iff g.forebits 7
  have h6 := and_pow_eq_zero_iff g.forebits 6
  have h3 := and_pow_eq_zero_iff (buckrog_state.mux_of plb) 3
  have e7 : (2 : Nat) ^ 7 = 0x80 := rfl
  have e6 : (2 : Nat) ^ 6 = 0x40 := rfl
  have e3 : (2 : Nat) ^ 3 = 0x08 := rfl
  rw [e7] at h7
  rw [e6] at h6
  rw [e3] at h3
  unfold buckrog_state.palbits_of F_fore G_back
  simp only [h7, h6, h3, Nat.shiftLeft_zero]

/-- C13: the Buck Rogers pixel value is chosen by the first matching rule of
this cascade, with `F(f) = ((f & 0x3c) << 2) | ((f & 0x06) << 1) | (f & 0x01)`
and `G(p) = (p & 0xc0) | ((p & 0x30) << 4) | ((p & 0x0f) << 2)`: (1) if bit 7 of
`forebits` is 0, `F(forebits)`; (2) else if bit 3 of `mux` is 0,
`pr5199[(cd & 0x0f) | ((mux & 7) << 4) | ((obch & 7) << 7)]`; (3) else if bit 6
of `forebits` is 0, `F(forebits)`; (4) else if the star bit is non-zero, `0xff`;
(5) else `G(bgcolorrom[y | ((mov & 0x1f) << 8)])`.  In particular, when bit 7 of
`forebits` is 0 the pixel does not depend on sprite bits, star or background
ROM. -/
theorem C13_buckrog_cascade (e : Env) (g : buckrog_state.Gathered) (sprbits plb y pos : Nat)
    (s : Screen) (hp : ∀ i, e.m_proms i < 256) :
    (buckrog_state.mix e g sprbits plb y pos s).dest pos =
      (if g.forebits.testBit 7 = false then F_fore g.forebits
      else if (buckrog_state.mux_of plb).testBit 3 = false then
        e.m_proms (0x700 + ((cd_of sprbits (buckrog_state.mux_of plb) &&& 0x0f) |||
          ((buckrog_state.mux_of plb &&& 0x07) <<< 4) ||| ((e.m_obch &&& 0x07) <<< 7)))
      else if g.forebits.testBit 6 = false then F_fore g.forebits
      else if g.star ≠ 0 then 0xff
      else G_back (e.m_bgcolorrom (y ||| ((e.m_mov &&& 0x1f) <<< 8)))) ∧
    (g.forebits.testBit 7 = false →
      ∀ (sprbits2 plb2 star2 : Nat) (bg2 : Nat → Nat),
        (buckrog_state.mix { e with m_bgcolorrom := bg2 } { g with star := star2 } sprbits2 plb2 y
          pos s).dest pos = (buckrog_state.mix e g sprbits plb y pos s).dest pos) := by
  have hdest : ∀ (e2 : Env) (g2 : buckrog_state.Gathered) (sb pl : Nat),
      (buckrog_state.mix e2 g2 sb pl y pos s).dest pos
        = buckrog_state.palbits_of e2 g2 sb pl y % 2 ^ 16 := by
    intro e2 g2 sb pl
    unfold buckrog_state.mix
    exact store_same _ _ _
  constructor
  · rw [hdest, palbits_of_cascade]
    apply Nat.mod_eq_of_lt
    split_ifs
    · exact F_fore_lt _
    · exact Nat.lt_of_lt_of_le (hp _) (by decide)
    · exact F_fore_lt _
    · decide
    · exact G_back_lt _
  · intro h7 sprbits2 plb2 star2 bg2
    rw [hdest, hdest, palbits_of_cascade, palbits_of_cascade]
    simp only [h7, if_true]

theorem ones_env_byte {i : Nat} : ones_env.m_proms i < 256 := by
  show (1 : Nat) < 256
  decide

theorem C13_buckrog_cascade_witness :
    (∀ i, ones_env.m_proms i < 256) ∧
    (buckrog_state.mix ones_env (buckrog_state.gather ones_env 3 0) 0 0 3 0 blank_screen).dest 0
      = 1 :=
  ⟨fun _ => ones_env_byte,
    ((C13_buckrog_cascade ones_env (buckrog_state.gather ones_env 3 0) 0 0 3 0 blank_screen
      (fun _ => ones_env_byte)).1).trans (by decide)⟩

/-! ### C15: what the compositor stage writes -/

/-- C15, as stated, fails on Turbo: the compositor stage changes `m_collision`
(with every PROM byte 1 and `m_collision = 0` it leaves `m_collision = 1`). -/
theorem C15_counterexample :
    ¬ ((turbo_state.mix ones_env blank_gathered 0 0 blank_screen).m_collision
        = blank_screen.m_collision) := by
  decide

/-- C15, amended: on Subroc 3D and Buck Rogers the per-pixel compositor stage
changes no machine state other than the output row buffer entry it writes; on
Turbo it also ORs the output of the collision PROM (PR1116) into the collision
latch `m_collision`, and changes nothing else. -/
theorem C15_compositor_frame (e : Env) (sprbits plb y pos : Nat) (s : Screen) :
    (∀ g, (subroc3d_state.mix e g sprbits plb pos s).v = s.v ∧
      (subroc3d_state.mix e g sprbits plb pos s).m_collision = s.m_collision ∧
      ∀ j, j ≠ pos → (subroc3d_state.mix e g sprbits plb pos s).dest j = s.dest j) ∧
    (∀ g, (buckrog_state.mix e g sprbits plb y pos s).v = s.v ∧
      (buckrog_state.mix e g sprbits plb y pos s).m_collision = s.m_collision ∧
      ∀ j, j ≠ pos → (buckrog_state.mix e g sprbits plb y pos s).dest j = s.dest j) ∧
    (∀ g, (turbo_state.mix e g sprbits pos s).v = s.v ∧
      (turbo_state.mix e g sprbits pos s).m_collision = s.m_collision |||
        e.m_proms (0x040 + (((sprbits >>> 24) &&& 7) ||| (g.slipar_acciar >>> 1))) ∧
      ∀ j, j ≠ pos → (turbo_state.mix e g sprbits pos s).dest j = s.dest j) := by
  refine ⟨fun g => ⟨rfl, rfl, fun j hj => ?_⟩, fun g => ⟨rfl, rfl, fun j hj => ?_⟩,
    fun g => ⟨rfl, rfl, fun j hj => ?_⟩⟩
  · unfold subroc3d_state.mix
    exact store_other _ _ _ _ hj
  · unfold buckrog_state.mix
    exact store_other _ _ _ _ hj
  · unfold turbo_state.mix
    exact store_other _ _ _ _ hj

/-! ### C14: a scanline does not depend on stale per-level state -/

theorem put_level_state (c : SampleCfg) (u : Sampler) (k : Nat) (t : Lvl) (l : Nat) :
    level_state ((sample_acc c u k).put c k t).info l =
      if l = k then (t.latched, t.plb, t.offset, t.frac, u.info.step l)
      else level_state u.info l := by
  unfold level_state Sampler.put sample_acc
  by_cases h : l = k
  · subst h
    simp only [store_same, if_true]
  · simp only [store_other _ _ _ _ h, if_neg h]

theorem level_state_fields (i1 i2 : sprite_info) (l : Nat)
    (h : level_state i1 l = level_state i2 l) :
    i1.latched l = i2.latched l ∧ i1.plb l = i2.plb l ∧ i1.offset l = i2.offset l ∧
      i1.frac l = i2.frac l ∧ i1.step l = i2.step l := by
  unfold level_state at h
  simp only [Prod.mk.injEq] at h
  exact h

/-- The loop over the levels keeps two sampler states in agreement, when the
levels that are live at entry are among those on which they agree. -/
theorem sample_upto_agree (c : SampleCfg) (rom : Nat → Nat) (A : Nat → Bool) (e1 e2 : Sampler)
    (h : sampler_agree A e1 e2) (hA : ∀ l, l < 8 → live_at c e1 l = true → A l = true)
    (k : Nat) (hk : k ≤ 8) :
    sampler_agree A (sample_upto c rom e1 k) (sample_upto c rom e2 k) := by
  induction k with
  | zero => exact h
  | succ k ih =>
    have ih2 := ih (by omega)
    have hlive : live_at c e2 k = live_at c e1 k := by
      unfold live_at live_word
      rw [h.2.2.1, h.2.2.2.1]
    rw [sample_upto_step c rom e1 k (by omega), sample_upto_step c rom e2 k (by omega), hlive]
    by_cases hl : live_at c e1 k = true
    · rw [if_pos hl, if_pos hl]
      have hAk := hA k (by omega) hl
      have hrun : lvl_run c rom e2.info k = lvl_run c rom e1.info k :=
        lvl_run_congr c rom _ _ k (h.2.2.2.2.2 k (by omega) hAk).symm
      rw [hrun]
      obtain ⟨q1, q2, q3, q4, q5, q6⟩ := ih2
      obtain ⟨f1, f2, _, _, f5⟩ := level_state_fields _ _ k (q6 k (by omega) hAk)
      refine ⟨?_, ?_, ?_, ?_, ?_, fun l hl8 hAl => ?_⟩
      · show ((sample_upto c rom e1 k).sprdata ||| (sample_upto c rom e1 k).info.latched k) % 2 ^ 32
          = ((sample_upto c rom e2 k).sprdata ||| (sample_upto c rom e2 k).info.latched k) % 2 ^ 32
        rw [q1, f1]
      · show c.plb_acc (sample_upto c rom e1 k).plb ((sample_upto c rom e1 k).info.plb k)
          = c.plb_acc (sample_upto c rom e2 k).plb ((sample_upto c rom e2 k).info.plb k)
        rw [q2, f2]
      · show (if (c.turbo && (lvl_run c rom e1.info k).ended) = true then
            clear_bit8 (sample_upto c rom e1 k).sprlive k else (sample_upto c rom e1 k).sprlive)
          = (if (c.turbo && (lvl_run c rom e1.info k).ended) = true then
            clear_bit8 (sample_upto c rom e2 k).sprlive k else (sample_upto c rom e2 k).sprlive)
        rw [q3]
      · show (if (lvl_run c rom e1.info k).ended = true then
            clear_bit8 (sample_upto c rom e1 k).info.lst k else (sample_upto c rom e1 k).info.lst)
          = (if (lvl_run c rom e1.info k).ended = true then
            clear_bit8 (sample_upto c rom e2 k).info.lst k else (sample_upto c rom e2 k).info.lst)
        rw [q4]
      · exact q5
      · rw [put_level_state, put_level_state]
        by_cases hlk : l = k
        · rw [if_pos hlk, if_pos hlk, hlk, f5]
        · rw [if_neg hlk, if_neg hlk]
          exact q6 l hl8 hAl
    · rw [if_neg hl, if_neg hl]
      exact ih2

theorem sample_upto_ve (c : SampleCfg) (rom : Nat → Nat) (s : Sampler) (k : Nat) (hk : k ≤ 8) :
    (sample_upto c rom s k).info.ve = s.info.ve := by
  induction k with
  | zero => rfl
  | succ k ih =>
    rw [sample_upto_step c rom s k (by omega)]
    by_cases hl : live_at c s k = true
    · rw [if_pos hl]
      exact ih (by omega)
    · rw [if_neg hl]
      exact ih (by omega)

theorem sample_entry_agree (b : Board) (road : Nat) (i1 i2 : sprite_info) (h : info_agree i1 i2) :
    sampler_agree (level_enabled i1.ve) (b.sample_entry road i1) (b.sample_entry road i2) := by
  obtain ⟨h1, h2, h3, _⟩ := h
  cases b
  · refine ⟨rfl, rfl, ?_, h2, h1, h3⟩
    show (if road = 0 then (i1.lst % 256) &&& 0x07 else i1.lst % 256)
      = (if road = 0 then (i2.lst % 256) &&& 0x07 else i2.lst % 256)
    rw [h2]
  · exact ⟨rfl, rfl, rfl, h2, h1, h3⟩
  · exact ⟨rfl, rfl, rfl, h2, h1, h3⟩

theorem sample_entry_live (b : Board) (road : Nat) (info : sprite_info) (l : Nat) (hl : l < 8)
    (h : live_at b.cfg (b.sample_entry road info) l = true) : info.lst.testBit l = true := by
  by_cases hb : b = Board.turbo
  · subst hb
    have := turbo_live_at road info l hl
    rw [show Board.turbo.cfg = turbo_state.cfg from rfl, this, Bool.and_eq_true] at h
    exact h.1
  · rw [plb_live_at b hb] at h
    exact h

/-- The sampler returns the same sprite bits and plb from two contents of
`m_sprite_info` that agree, and leaves them in agreement. -/
theorem get_sprite_bits_agree (b : Board) (rom : Nat → Nat) (road : Nat) (i1 i2 : sprite_info)
    (h : info_agree i1 i2) :
    (b.get_sprite_bits rom road i1).sprdata = (b.get_sprite_bits rom road i2).sprdata ∧
    (b.get_sprite_bits rom road i1).plb = (b.get_sprite_bits rom road i2).plb ∧
    info_agree (b.get_sprite_bits rom road i1).info (b.get_sprite_bits rom road i2).info := by
  have hent := sample_entry_agree b road i1 i2 h
  have hA : ∀ l, l < 8 → live_at b.cfg (b.sample_entry road i1) l = true →
      level_enabled i1.ve l = true :=
    fun l hl hlive => h.2.2.2 l hl (sample_entry_live b road i1 l hl hlive)
  obtain ⟨q1, q2, _, q4, q5, q6⟩ :=
    sample_upto_agree b.cfg rom (level_enabled i1.ve) _ _ hent hA 8 (Nat.le_refl 8)
  have hve : (sample_upto b.cfg rom (b.sample_entry road i1) 8).info.ve = i1.ve := by
    rw [sample_upto_ve b.cfg rom _ 8 (Nat.le_refl 8), (sample_entry_info b road i1).1]
  rw [board_get_sprite_bits_eq, board_get_sprite_bits_eq]
  refine ⟨q1, q2, q5, q4, fun l hl hen => q6 l hl (by rw [hve] at hen; exact hen),
    fun l hl hbit => ?_⟩
  rw [hve]
  rw [sample_upto_lst b.cfg rom _ 8 l (Nat.le_refl 8) hl, Bool.and_eq_true,
    (sample_entry_info b road i1).1] at hbit
  exact h.2.2.2 l hl hbit.1

/-- The latch at the head of the column loop keeps agreement. -/
theorem latch_he_agree (i1 i2 : sprite_info) (he : Nat) (h : info_agree i1 i2) :
    info_agree (latch_he i1 he) (latch_he i2 he) := by
  obtain ⟨h1, h2, h3, h4⟩ := h
  refine ⟨h1, ?_, h3, fun l hl hbit => ?_⟩
  · show (i1.lst ||| ((he &&& i1.ve) % 2 ^ 16 ||| ((he &&& i1.ve) % 2 ^ 16) >>> 8)) % 256
      = (i2.lst ||| ((he &&& i2.ve) % 2 ^ 16 ||| ((he &&& i2.ve) % 2 ^ 16) >>> 8)) % 256
    rw [h1, h2]
  · have hb : ((i1.lst ||| ((he &&& i1.ve) % 2 ^ 16 ||| ((he &&& i1.ve) % 2 ^ 16) >>> 8))
        % 256).testBit l = true := hbit
    rw [micom_xe_1a_device.testBit_mod_256, Nat.testBit_or, Nat.testBit_or,
      Nat.testBit_shiftRight, Nat.testBit_mod_two_pow, Nat.testBit_mod_two_pow, Nat.testBit_and,
      Nat.testBit_and] at hb
    simp only [Bool.and_eq_true, Bool.or_eq_true, decide_eq_true_eq] at hb
    show level_enabled i1.ve l = true
    unfold level_enabled
    rcases hb.2 with hb1 | hb2 | hb3
    · exact h4 l hl hb1
    · rw [hb2.2.2]; rfl
    · rw [Nat.add_comm] at hb3
      rw [hb3.2.2, Bool.or_true]

/-- The sprite RAM `prepare_sprites` leaves depends on the sprite RAM alone, and
the `m_sprite_info` it leaves agree whatever they were before. -/
theorem prepare_sprites_agree (b : Board) (m_proms xs : Nat → Nat) (y : Nat) (v1 v2 : Video)
    (h : v1.spriteram = v2.spriteram) :
    (b.prepare_sprites m_proms xs y v1).spriteram = (b.prepare_sprites m_proms xs y v2).spriteram ∧
    info_agree (b.prepare_sprites m_proms xs y v1).m_sprite_info
      (b.prepare_sprites m_proms xs y v2).m_sprite_info := by
  have hve : ∀ n, (b.prepare_sprites m_proms xs y v1).m_sprite_info.ve.testBit n
      = (b.prepare_sprites m_proms xs y v2).m_sprite_info.ve.testBit n := by
    intro n
    rw [prepare_sprites_ve, prepare_sprites_ve, h]
  refine ⟨?_, Nat.eq_of_testBit_eq hve, ?_, fun l hl hen => ?_, fun l hl hbit => ?_⟩
  · funext a
    rw [prepare_sprites_ram, prepare_sprites_ram, h]
  · rw [prepare_sprites_lst, prepare_sprites_lst]
  · unfold level_enabled at hen
    rw [prepare_sprites_ve, prepare_sprites_ve] at hen
    have a1 : l < 16 := by omega
    have a2 : l + 8 < 16 := by omega
    simp only [a1, a2, decide_True, Bool.true_and, Bool.or_eq_true] at hen
    rw [prepare_sprites_level b m_proms xs y v1 l hl, prepare_sprites_level b m_proms xs y v2 l hl,
      ← h]
    by_cases h8 : sl_en (b.ctx m_proms xs y) v1.spriteram (l + 8) = true
    · rw [if_pos h8, if_pos h8]
    · rw [if_neg h8, if_neg h8]
      rcases hen with h0 | h0
      · rw [if_pos h0, if_pos h0]
      · exact absurd h0 h8
  · rw [prepare_sprites_lst] at hbit
    rw [Nat.zero_testBit] at hbit
    exact absurd hbit (by decide)

theorem foldl_agree {α σ : Type} (R : σ → σ → Prop) (f : σ → α → σ)
    (hf : ∀ a b x, R a b → R (f a x) (f b x)) (l : List α) :
    ∀ a b, R a b → R (l.foldl f a) (l.foldl f b) := by
  induction l with
  | nil => intro a b h; exact h
  | cons x xs ih => intro a b h; exact ih _ _ (hf a b x h)

theorem turbo_pixel_agree (e : Env) (g : turbo_state.Gathered) (x : Nat) (s1 s2 : Screen)
    (ix : Nat) (h : screen_agree s1 s2) :
    screen_agree (turbo_state.pixel e g x s1 ix) (turbo_state.pixel e g x s2 ix) := by
  obtain ⟨h1, h2, h3, h4⟩ := h
  obtain ⟨r1, _, r3⟩ := get_sprite_bits_agree Board.turbo e.m_spriteroms g.road _ _ h4
  have r1' : (turbo_state.get_sprite_bits e.m_spriteroms g.road s1.v.m_sprite_info).sprdata
      = (turbo_state.get_sprite_bits e.m_spriteroms g.road s2.v.m_sprite_info).sprdata := r1
  unfold turbo_state.pixel turbo_state.mix
  refine ⟨h1, ?_, ?_, r3⟩
  · dsimp only
    rw [r1', h2]
  · dsimp only
    rw [r1', h3]

theorem subroc3d_pixel_agree (e : Env) (g : subroc3d_state.Gathered) (x : Nat) (s1 s2 : Screen)
    (ix : Nat) (h : screen_agree s1 s2) :
    screen_agree (subroc3d_state.pixel e g x s1 ix) (subroc3d_state.pixel e g x s2 ix) := by
  obtain ⟨h1, h2, h3, h4⟩ := h
  obtain ⟨r1, r2, r3⟩ := get_sprite_bits_agree Board.subroc3d e.m_spriteroms 0 _ _ h4
  have r1' : (subroc3d_state.get_sprite_bits e.m_spriteroms s1.v.m_sprite_info).sprdata
      = (subroc3d_state.get_sprite_bits e.m_spriteroms s2.v.m_sprite_info).sprdata := r1
  have r2' : (subroc3d_state.get_sprite_bits e.m_spriteroms s1.v.m_sprite_info).plb
      = (subroc3d_state.get_sprite_bits e.m_spriteroms s2.v.m_sprite_info).plb := r2
  unfold subroc3d_state.pixel subroc3d_state.mix
  refine ⟨h1, h2, ?_, r3⟩
  dsimp only
  rw [r1', r2', h3]

theorem buckrog_pixel_agree (e : Env) (g : buckrog_state.Gathered) (y x : Nat) (s1 s2 : Screen)
    (ix : Nat) (h : screen_agree s1 s2) :
    screen_agree (buckrog_state.pixel e g y x s1 ix) (buckrog_state.pixel e g y x s2 ix) := by
  obtain ⟨h1, h2, h3, h4⟩ := h
  obtain ⟨r1, r2, r3⟩ := get_sprite_bits_agree Board.buckrog e.m_spriteroms 0 _ _ h4
  have r1' : (buckrog_state.get_sprite_bits e.m_spriteroms s1.v.m_sprite_info).sprdata
      = (buckrog_state.get_sprite_bits e.m_spriteroms s2.v.m_sprite_info).sprdata := r1
  have r2' : (buckrog_state.get_sprite_bits e.m_spriteroms s1.v.m_sprite_info).plb
      = (buckrog_state.get_sprite_bits e.m_spriteroms s2.v.m_sprite_info).plb := r2
  unfold buckrog_state.pixel buckrog_state.mix
  refine ⟨h1, h2, ?_, r3⟩
  dsimp only
  rw [r1', r2', h3]

theorem latch_screen_agree (s1 s2 : Screen) (he : Nat) (h : screen_agree s1 s2) :
    screen_agree { s1 with v := { s1.v with m_sprite_info := latch_he s1.v.m_sprite_info he } }
      { s2 with v := { s2.v with m_sprite_info := latch_he s2.v.m_sprite_info he } } :=
  ⟨h.1, h.2.1, h.2.2.1, latch_he_agree _ _ he h.2.2.2⟩

theorem prepare_screen_agree (b : Board) (e : Env) (y : Nat) (s1 s2 : Screen)
    (hram : s1.v.spriteram = s2.v.spriteram) (hcol : s1.m_collision = s2.m_collision)
    (hdest : s1.dest = s2.dest) :
    screen_agree { s1 with v := b.prepare_sprites e.m_proms e.sprite_xscale (y % 256) s1.v }
      { s2 with v := b.prepare_sprites e.m_proms e.sprite_xscale (y % 256) s2.v } := by
  obtain ⟨p1, p2⟩ := prepare_sprites_agree b e.m_proms e.sprite_xscale (y % 256) s1.v s2.v hram
  exact ⟨p1, hcol, hdest, p2⟩

theorem turbo_column_agree (e : Env) (va : Nat) (a b : Screen × Nat) (k : Nat)
    (hab : screen_agree a.1 b.1 ∧ a.2 = b.2) :
    screen_agree (turbo_state.column e va a k).1 (turbo_state.column e va b k).1 ∧
      (turbo_state.column e va a k).2 = (turbo_state.column e va b k).2 := by
  obtain ⟨a1, a2⟩ := a
  obtain ⟨b1, b2⟩ := b
  obtain ⟨h1, h2⟩ := hab
  have h2 : a2 = b2 := h2
  subst h2
  refine ⟨?_, rfl⟩
  exact foldl_agree screen_agree
    (turbo_state.pixel e (turbo_state.gather e va a2 (k * e.TURBO_X_SCALE / e.TURBO_X_SCALE))
      (k * e.TURBO_X_SCALE))
    (fun u w ix huw => turbo_pixel_agree e _ _ u w ix huw) (List.range e.TURBO_X_SCALE) _ _
    (latch_screen_agree a1 b1 _ h1)

theorem turbo_scanline_agree (e : Env) (y : Nat) (s1 s2 : Screen)
    (hram : s1.v.spriteram = s2.v.spriteram) (hcol : s1.m_collision = s2.m_collision)
    (hdest : s1.dest = s2.dest) :
    screen_agree (turbo_state.scanline e y s1) (turbo_state.scanline e y s2) := by
  have hprep := prepare_screen_agree Board.turbo e y s1 s2 hram hcol hdest
  exact (foldl_agree (fun a b : Screen × Nat => screen_agree a.1 b.1 ∧ a.2 = b.2)
    (turbo_state.column e (if e.m_opc &&& 0x80 = 0 then ((y + e.m_opa) &&& 0xff) ^^^ 0xff
      else (y + e.m_opa) &&& 0xff))
    (fun a b k hab => turbo_column_agree e _ a b k hab)
    (List.range (e.max_x / e.TURBO_X_SCALE + 1))
    ({ s1 with v := Board.turbo.prepare_sprites e.m_proms e.sprite_xscale (y % 256) s1.v }, 0)
    ({ s2 with v := Board.turbo.prepare_sprites e.m_proms e.sprite_xscale (y % 256) s2.v }, 0)
    ⟨hprep, rfl⟩).1

theorem subroc3d_scanline_agree (e : Env) (y : Nat) (s1 s2 : Screen)
    (hram : s1.v.spriteram = s2.v.spriteram) (hcol : s1.m_collision = s2.m_collision)
    (hdest : s1.dest = s2.dest) :
    screen_agree (subroc3d_state.scanline e y s1) (subroc3d_state.scanline e y s2) := by
  have hcolumn : ∀ (a b : Screen) (k : Nat), screen_agree a b →
      screen_agree (subroc3d_state.column e a k) (subroc3d_state.column e b k) := by
    intro a b k hab
    unfold subroc3d_state.column
    dsimp only
    exact foldl_agree screen_agree _ (fun u w ix huw => subroc3d_pixel_agree e _ _ u w ix huw)
      _ _ _ (latch_screen_agree a b _ hab)
  have hprep := prepare_screen_agree Board.subroc3d e y s1 s2 hram hcol hdest
  unfold subroc3d_state.scanline
  dsimp only
  exact foldl_agree screen_agree _ hcolumn _ _ _ hprep

theorem buckrog_scanline_agree (e : Env) (y : Nat) (s1 s2 : Screen)
    (hram : s1.v.spriteram = s2.v.spriteram) (hcol : s1.m_collision = s2.m_collision)
    (hdest : s1.dest = s2.dest) :
    screen_agree (buckrog_state.scanline e y s1) (buckrog_state.scanline e y s2) := by
  have hcolumn : ∀ (a b : Screen) (k : Nat), screen_agree a b →
      screen_agree (buckrog_state.column e y a k) (buckrog_state.column e y b k) := by
    intro a b k hab
    unfold buckrog_state.column
    dsimp only
    exact foldl_agree screen_agree _ (fun u w ix huw => buckrog_pixel_agree e _ y _ u w ix huw)
      _ _ _ (latch_screen_agree a b _ hab)
  have hprep := prepare_screen_agree Board.buckrog e y s1 s2 hram hcol hdest
  unfold buckrog_state.scanline
  dsimp only
  exact foldl_agree screen_agree _ hcolumn _ _ _ hprep

/-- C14: the pixels a scanline produces and the sprite RAM it leaves do not
depend on per-level state left by earlier scanlines: for any two initial
contents of `ve`, `lst`, `latched`, `plb`, `offset`, `frac` and `step`, with all
other inputs equal, `prepare_sprites(y)` followed by the scanline's column loop
yields the same output row and the same sprite RAM (and, on Turbo, the same
collision latch), on each board. -/
theorem C14_scanline_independent (b : Board) (e : Env) (y : Nat) (s1 s2 : Screen)
    (hram : s1.v.spriteram = s2.v.spriteram) (hcol : s1.m_collision = s2.m_collision)
    (hdest : s1.dest = s2.dest) :
    (b.scanline e y s1).dest = (b.scanline e y s2).dest ∧
    (b.scanline e y s1).v.spriteram = (b.scanline e y s2).v.spriteram ∧
    (b.scanline e y s1).m_collision = (b.scanline e y s2).m_collision := by
  have h : screen_agree (b.scanline e y s1) (b.scanline e y s2) := by
    cases b
    · exact turbo_scanline_agree e y s1 s2 hram hcol hdest
    · exact subroc3d_scanline_agree e y s1 s2 hram hcol hdest
    · exact buckrog_scanline_agree e y s1 s2 hram hcol hdest
  exact ⟨h.2.2.1, h.1, h.2.1⟩

theorem C14_scanline_independent_witness :
    (blank_screen.v.spriteram = stale_screen.v.spriteram ∧
      blank_screen.m_collision = stale_screen.m_collision ∧
      blank_screen.dest = stale_screen.dest ∧
      blank_screen.v.m_sprite_info.lst ≠ stale_screen.v.m_sprite_info.lst) ∧
    (Board.turbo.scanline ones_env 3 blank_screen).dest
      = (Board.turbo.scanline ones_env 3 stale_screen).dest :=
  ⟨⟨rfl, rfl, rfl, by decide⟩,
    (C14_scanline_independent Board.turbo ones_env 3 blank_screen stale_screen rfl rfl rfl).1⟩

/-! ### C21, C22: the digital-mode reads -/

theorem BIT_eq_toNat (x n : Nat) : BIT x n = (x.testBit n).toNat := by
  unfold BIT
  rw [Nat.testBit_to_div_mod, Nat.shiftRight_eq_div_pow, Nat.and_one_is_mod]
  rcases Nat.mod_two_eq_zero_or_one (x / 2 ^ n) with h | h
  · rw [h]; rfl
  · rw [h]; rfl

namespace micom_xe_1a_device

/-- The value of the basic read (`interface = 0`, `req = 0`), by its bits. -/
theorem basic_read_bits : ∀ (b4 b5 b3 b9 b2 b8 y0 y1 x0 x1 : Bool),
    (((if b4.toNat ≠ 0 ∧ y0 = true then 0x01 else 0x00) |||
      (if b4.toNat ≠ 0 ∧ y1 = true then 0x02 else 0x00) |||
      (if b5.toNat ≠ 0 ∧ x0 = true then 0x04 else 0x00) |||
      (if b5.toNat ≠ 0 ∧ x1 = true then 0x08 else 0x00) |||
      ((b3.toNat &&& b9.toNat) <<< 4) |||
      ((b2.toNat &&& b8.toNat) <<< 5)) % 256) =
    (b4 && y0).toNat + 2 * (b4 && y1).toNat + 4 * (b5 && x0).toNat + 8 * (b5 && x1).toNat +
      16 * (b3 && b9).toNat + 32 * (b2 && b8).toNat := by
  decide

/-- The value of the other three reads, by its bits. -/
theorem plain_read_bits : ∀ (c0 c1 c2 c3 c4 c5 : Bool),
    (((if c0 = true then 0x01 else 0x00) ||| (if c1 = true then 0x02 else 0x00) |||
      (if c2 = true then 0x04 else 0x00) ||| (if c3 = true then 0x08 else 0x00) |||
      (c4.toNat <<< 4) ||| (c5.toNat <<< 5)) % 256) =
    c0.toNat + 2 * c1.toNat + 4 * c2.toNat + 8 * c3.toNat + 16 * c4.toNat + 32 * c5.toNat := by
  decide

/-- The bits of a value given by six bits. -/
theorem six_bits : ∀ (c0 c1 c2 c3 c4 c5 : Bool),
    (c0.toNat + 2 * c1.toNat + 4 * c2.toNat + 8 * c3.toNat + 16 * c4.toNat
        + 32 * c5.toNat).testBit 0 = c0 ∧
    (c0.toNat + 2 * c1.toNat + 4 * c2.toNat + 8 * c3.toNat + 16 * c4.toNat
        + 32 * c5.toNat).testBit 1 = c1 ∧
    (c0.toNat + 2 * c1.toNat + 4 * c2.toNat + 8 * c3.toNat + 16 * c4.toNat
        + 32 * c5.toNat).testBit 2 = c2 ∧
    (c0.toNat + 2 * c1.toNat + 4 * c2.toNat + 8 * c3.toNat + 16 * c4.toNat
        + 32 * c5.toNat).testBit 3 = c3 ∧
    (c0.toNat + 2 * c1.toNat + 4 * c2.toNat + 8 * c3.toNat + 16 * c4.toNat
        + 32 * c5.toNat).testBit 4 = c4 ∧
    (c0.toNat + 2 * c1.toNat + 4 * c2.toNat + 8 * c3.toNat + 16 * c4.toNat
        + 32 * c5.toNat).testBit 5 = c5 ∧
    c0.toNat + 2 * c1.toNat + 4 * c2.toNat + 8 * c3.toNat + 16 * c4.toNat
        + 32 * c5.toNat < 64 := by
  decide

theorem and_toNat (a b : Bool) : a.toNat &&& b.toNat = (a && b).toNat := by
  cases a <;> cases b <;> rfl

/-- The basic read (`interface = 0`, `req = 0`) as a sum of its six bits. -/
theorem out_r_basic (s : Dev) (b : Nat) (analog : Nat → Nat) (hm : s.m_mode = 0)
    (hi : s.m_interface = 0) (hr : s.m_req = 0) :
    out_r s b analog =
      (b.testBit 4 && decide (0x40 ≤ analog 0)).toNat +
      2 * (b.testBit 4 && decide (analog 0 < 0xc0)).toNat +
      4 * (b.testBit 5 && decide (0x40 ≤ analog 1)).toNat +
      8 * (b.testBit 5 && decide (analog 1 < 0xc0)).toNat +
      16 * (b.testBit 3 && b.testBit 9).toNat + 32 * (b.testBit 2 && b.testBit 8).toNat := by
  have h := basic_read_bits (b.testBit 4) (b.testBit 5) (b.testBit 3) (b.testBit 9)
    (b.testBit 2) (b.testBit 8) (decide (0x40 ≤ analog 0)) (decide (analog 0 < 0xc0))
    (decide (0x40 ≤ analog 1)) (decide (analog 1 < 0xc0))
  simp only [decide_eq_true_eq] at h
  unfold out_r
  rw [hm, hi, hr, if_neg (by decide), if_neg (by decide), if_neg (by decide)]
  simp only [BIT_eq_toNat]
  exact h

/-- The extended read (`interface = 0`, `req = 1`) as a sum of its six bits. -/
theorem out_r_extended (s : Dev) (b : Nat) (analog : Nat → Nat) (hm : s.m_mode = 0)
    (hi : s.m_interface = 0) (hr : s.m_req ≠ 0) :
    out_r s b analog =
      (decide (analog 2 < 0xc0)).toNat + 2 * (decide (0x40 ≤ analog 2)).toNat +
      4 * (b.testBit 1).toNat + 8 * (b.testBit 0).toNat +
      16 * (b.testBit 7).toNat + 32 * (b.testBit 6).toNat := by
  have h := plain_read_bits (decide (analog 2 < 0xc0)) (decide (0x40 ≤ analog 2))
    (b.testBit 1) (b.testBit 0) (b.testBit 7) (b.testBit 6)
  simp only [decide_eq_true_eq] at h
  unfold out_r
  rw [hm, hi, if_neg (by decide), if_neg (by decide), if_pos hr]
  simp only [BIT_eq_toNat]
  rw [← h]
  cases b.testBit 1 <;> cases b.testBit 0 <;> rfl

/-- C21: in digital mode with `interface = 0`, for every button word `b` and
axis samples `y`, `x`, `z` (channels 0, 1, 2), `out_r` returns: when `req = 0`,
bit0 = b4 AND (y >= 0x40), bit1 = b4 AND (y < 0xc0), bit2 = b5 AND (x >= 0x40),
bit3 = b5 AND (x < 0xc0), bit4 = b3 AND b9, bit5 = b2 AND b8; when `req = 1`,
bit0 = (z < 0xc0), bit1 = (z >= 0x40), bit2 = b1, bit3 = b0, bit4 = b7,
bit5 = b6; bits 6-7 are 0.  With `req = 0`, Up and Down read asserted together
(both bits 0) exactly when Select is pressed (b4 = 0), and Left and Right
exactly when Start is pressed (b5 = 0). -/
theorem C21_digital_read (s : Dev) (b : Nat) (analog : Nat → Nat) (hm : s.m_mode = 0)
    (hi : s.m_interface = 0) :
    (s.m_req = 0 →
      (out_r s b analog).testBit 0 = (b.testBit 4 && decide (0x40 ≤ analog 0)) ∧
      (out_r s b analog).testBit 1 = (b.testBit 4 && decide (analog 0 < 0xc0)) ∧
      (out_r s b analog).testBit 2 = (b.testBit 5 && decide (0x40 ≤ analog 1)) ∧
      (out_r s b analog).testBit 3 = (b.testBit 5 && decide (analog 1 < 0xc0)) ∧
      (out_r s b analog).testBit 4 = (b.testBit 3 && b.testBit 9) ∧
      (out_r s b analog).testBit 5 = (b.testBit 2 && b.testBit 8) ∧
      out_r s b analog < 64 ∧
      (((out_r s b analog).testBit 0 = false ∧ (out_r s b analog).testBit 1 = false) ↔
        b.testBit 4 = false) ∧
      (((out_r s b analog).testBit 2 = false ∧ (out_r s b analog).testBit 3 = false) ↔
        b.testBit 5 = false)) ∧
    (s.m_req ≠ 0 →
      (out_r s b analog).testBit 0 = decide (analog 2 < 0xc0) ∧
      (out_r s b analog).testBit 1 = decide (0x40 ≤ analog 2) ∧
      (out_r s b analog).testBit 2 = b.testBit 1 ∧
      (out_r s b analog).testBit 3 = b.testBit 0 ∧
      (out_r s b analog).testBit 4 = b.testBit 7 ∧
      (out_r s b analog).testBit 5 = b.testBit 6 ∧
      out_r s b analog < 64) := by
  constructor
  · intro hr
    rw [out_r_basic s b analog hm hi hr]
    obtain ⟨h0, h1, h2, h3, h4, h5, h6⟩ := six_bits
      (b.testBit 4 && decide (0x40 ≤ analog 0)) (b.testBit 4 && decide (analog 0 < 0xc0))
      (b.testBit 5 && decide (0x40 ≤ analog 1)) (b.testBit 5 && decide (analog 1 < 0xc0))
      (b.testBit 3 && b.testBit 9) (b.testBit 2 && b.testBit 8)
    refine ⟨h0, h1, h2, h3, h4, h5, h6, ?_, ?_⟩
    · rw [h0, h1]
      cases b.testBit 4
      · simp
      · simp only [Bool.true_and, decide_eq_false_iff_not]
        constructor
        · intro h
          omega
        · intro h
          exact absurd h (by decide)
    · rw [h2, h3]
      cases b.testBit 5
      · simp
      · simp only [Bool.true_and, decide_eq_false_iff_not]
        constructor
        · intro h
          omega
        · intro h
          exact absurd h (by decide)
  · intro hr
    rw [out_r_extended s b analog hm hi hr]
    exact six_bits _ _ _ _ _ _

theorem C21_digital_read_witness :
    (digital_req0.m_mode = 0 ∧ digital_req0.m_interface = 0 ∧ digital_req0.m_req = 0) ∧
    out_r digital_req0 select_pressed centred < 64 ∧
    (out_r digital_req0 select_pressed centred).testBit 0 = false ∧
    (out_r digital_req1 select_pressed centred).testBit 2 = true :=
  ⟨⟨rfl, rfl, rfl⟩,
    ((C21_digital_read digital_req0 select_pressed centred rfl rfl).1 rfl).2.2.2.2.2.2.1,
    ((C21_digital_read digital_req0 select_pressed centred rfl rfl).1 rfl).1.trans (by decide),
    ((C21_digital_read digital_req1 select_pressed centred rfl rfl).2 (by decide)).2.2.1.trans
      (by decide)⟩

/-- The Mega Drive extended read (`interface = 1`, `req = 0`) as a sum of its bits. -/
theorem out_r_md_extended (s : Dev) (b : Nat) (analog : Nat → Nat) (hm : s.m_mode = 0)
    (hi : s.m_interface ≠ 0) (hr : s.m_req = 0) :
    out_r s b analog =
      (decide (0x40 ≤ analog 0)).toNat + 2 * (decide (analog 0 < 0xc0)).toNat +
      4 * (false).toNat + 8 * (false).toNat +
      16 * (b.testBit 3 && b.testBit 9).toNat + 32 * (b.testBit 5).toNat := by
  have h := plain_read_bits (decide (0x40 ≤ analog 0)) (decide (analog 0 < 0xc0))
    false false (b.testBit 3 && b.testBit 9) (b.testBit 5)
  simp only [decide_eq_true_eq] at h
  unfold out_r
  rw [hm, if_neg (by decide), if_pos hi, hr, if_neg (by decide)]
  simp only [BIT_eq_toNat, and_toNat]
  rw [← h]
  by_cases h0 : 0x40 ≤ analog 0 <;> by_cases h1 : analog 0 < 0xc0 <;>
    simp only [h0, h1, if_true, if_false, gt_iff_lt] <;> rfl

/-- The Mega Drive basic read (`interface = 1`, `req = 1`) as a sum of its bits. -/
theorem out_r_md_basic (s : Dev) (b : Nat) (analog : Nat → Nat) (hm : s.m_mode = 0)
    (hi : s.m_interface ≠ 0) (hr : s.m_req ≠ 0) :
    out_r s b analog =
      (decide (0x40 ≤ analog 0)).toNat + 2 * (decide (analog 0 < 0xc0)).toNat +
      4 * (decide (0x40 ≤ analog 1)).toNat + 8 * (decide (analog 1 < 0xc0)).toNat +
      16 * (b.testBit 2 && b.testBit 8).toNat + 32 * (b.testBit 1).toNat := by
  have h := plain_read_bits (decide (0x40 ≤ analog 0)) (decide (analog 0 < 0xc0))
    (decide (0x40 ≤ analog 1)) (decide (analog 1 < 0xc0)) (b.testBit 2 && b.testBit 8)
    (b.testBit 1)
  simp only [decide_eq_true_eq] at h
  unfold out_r
  rw [hm, if_neg (by decide), if_pos hi, if_pos hr]
  simp only [BIT_eq_toNat, and_toNat]
  exact h

/-- C22: in digital mode with `interface = 1` (3-button Mega Drive pad
emulation), for every button word `b` and axis samples `y`, `x` (channels 0,
1), `out_r` returns: when `req = 0`, bit0 = (y >= 0x40), bit1 = (y < 0xc0),
bit2 = bit3 = 0, bit4 = b3 AND b9 (A), bit5 = b5 (Start); when `req = 1`,
bit0 = (y >= 0x40), bit1 = (y < 0xc0), bit2 = (x >= 0x40), bit3 = (x < 0xc0),
bit4 = b2 AND b8 (B), bit5 = b1 (C); bits 6-7 are 0. -/
theorem C22_md_digital_read (s : Dev) (b : Nat) (analog : Nat → Nat) (hm : s.m_mode = 0)
    (hi : s.m_interface ≠ 0) :
    (s.m_req = 0 →
      (out_r s b analog).testBit 0 = decide (0x40 ≤ analog 0) ∧
      (out_r s b analog).testBit 1 = decide (analog 0 < 0xc0) ∧
      (out_r s b analog).testBit 2 = false ∧
      (out_r s b analog).testBit 3 = false ∧
      (out_r s b analog).testBit 4 = (b.testBit 3 && b.testBit 9) ∧
      (out_r s b analog).testBit 5 = b.testBit 5 ∧
      out_r s b analog < 64) ∧
    (s.m_req ≠ 0 →
      (out_r s b analog).testBit 0 = decide (0x40 ≤ analog 0) ∧
      (out_r s b analog).testBit 1 = decide (analog 0 < 0xc0) ∧
      (out_r s b analog).testBit 2 = decide (0x40 ≤ analog 1) ∧
      (out_r s b analog).testBit 3 = decide (analog 1 < 0xc0) ∧
      (out_r s b analog).testBit 4 = (b.testBit 2 && b.testBit 8) ∧
      (out_r s b analog).testBit 5 = b.testBit 1 ∧
      out_r s b analog < 64) := by
  constructor
  · intro hr
    rw [out_r_md_extended s b analog hm hi hr]
    exact six_bits _ _ _ _ _ _
  · intro hr
    rw [out_r_md_basic s b analog hm hi hr]
    exact six_bits _ _ _ _ _ _

theorem C22_md_digital_read_witness :
    (md_req0.m_mode = 0 ∧ md_req0.m_interface ≠ 0 ∧ md_req0.m_req = 0) ∧
    (out_r md_req0 0xffff centred).testBit 2 = false ∧
    (out_r md_req1 0xffff centred).testBit 2 = true :=
  ⟨⟨rfl, by decide, rfl⟩,
    ((C22_md_digital_read md_req0 0xffff centred rfl (by decide)).1 rfl).2.2.1,
    ((C22_md_digital_read md_req1 0xffff centred rfl (by decide)).2 (by decide)).2.2.1.trans
      (by decide)⟩

end micom_xe_1a_device

/-! ### C24: the states reachable from power-on -/

namespace micom_xe_1a_device

theorem step_output_frame (s : Dev) (p : Nat) :
    (step_output s p).m_out < 64 ∨ (step_output s p).m_out = s.m_out := by
  unfold step_output
  dsimp only
  have h16 := and_16_cases s.m_out
  have hlow : s.m_out &&& 0x0f ≤ 0x0f := Nat.and_le_right
  have hnyb := fun x n => bitw_lt x n
  split_ifs
  all_goals first
    | (right; rfl)
    | (left
       show (_ ||| _) % 256 < 64
       apply Nat.lt_of_le_of_lt (Nat.mod_le _ _)
       apply Nat.or_lt_two_pow (n := 6)
       · first
           | exact Nat.lt_of_le_of_lt hlow (by decide)
           | exact Nat.lt_trans (hnyb _ _) (by decide)
       · first
           | decide
           | (rcases h16 with h | h <;> rw [h] <;> decide))

theorem step_output_keeps (s : Dev) (p : Nat) :
    (step_output s p).m_mode = s.m_mode ∧ (step_output s p).m_interface = s.m_interface ∧
      (step_output s p).m_req = s.m_req := by
  unfold step_output
  dsimp only
  split_ifs <;> exact ⟨rfl, rfl, rfl⟩

theorem req_w_keeps (s : Dev) (state buttons : Nat) (analog : Nat → Nat) :
    (req_w s state buttons analog).m_out = s.m_out ∧
    (req_w s state buttons analog).m_mode = s.m_mode ∧
    (req_w s state buttons analog).m_interface = s.m_interface ∧
    (s.m_mode = 0 → (req_w s state buttons analog).m_output_timer = s.m_output_timer) := by
  unfold req_w
  dsimp only
  split_ifs <;> first
    | exact ⟨rfl, rfl, rfl, fun _ => rfl⟩
    | exact ⟨rfl, rfl, rfl, fun h => absurd h (by assumption)⟩

theorem mode_w_cases (s : Dev) (state : Nat) :
    mode_w s state = s ∨ mode_w s state = { s with m_mode := 1 } ∨
      mode_w s state = { s with m_output_timer := none, m_out := 0x2f, m_mode := 0 } := by
  unfold mode_w
  dsimp only
  by_cases hs : state ≠ 0
  · rw [if_pos hs]
    by_cases hm : 1 ≠ s.m_mode
    · rw [if_pos hm, if_pos (by decide)]
      exact Or.inr (Or.inl rfl)
    · rw [if_neg hm]
      exact Or.inl rfl
  · rw [if_neg hs]
    by_cases hm : 0 ≠ s.m_mode
    · rw [if_pos hm, if_neg (by decide)]
      exact Or.inr (Or.inr rfl)
    · rw [if_neg hm]
      exact Or.inl rfl

/-- Every operation keeps: `out` below 64, `interface` 0 or 1, and in digital
mode the timer idle and `out = 0x2f`. -/
theorem op_invariant (s : Dev) (o : Op)
    (h : s.m_out < 64 ∧ s.m_interface ≤ 1 ∧
      (s.m_mode = 0 → s.m_output_timer = none ∧ s.m_out = 0x2f)) :
    (o.apply s).m_out < 64 ∧ (o.apply s).m_interface ≤ 1 ∧
      ((o.apply s).m_mode = 0 → (o.apply s).m_output_timer = none ∧ (o.apply s).m_out = 0x2f) := by
  obtain ⟨h1, h2, h3⟩ := h
  cases o with
  | req state buttons analog =>
    obtain ⟨e1, e2, e3, e4⟩ := req_w_keeps s state buttons analog
    show (req_w s state buttons analog).m_out < 64 ∧ (req_w s state buttons analog).m_interface ≤ 1 ∧
      ((req_w s state buttons analog).m_mode = 0 →
        (req_w s state buttons analog).m_output_timer = none ∧
        (req_w s state buttons analog).m_out = 0x2f)
    rw [e1, e2, e3]
    refine ⟨h1, h2, fun hm => ?_⟩
    rw [e4 hm]
    exact h3 hm
  | mode state =>
    show (mode_w s state).m_out < 64 ∧ (mode_w s state).m_interface ≤ 1 ∧
      ((mode_w s state).m_mode = 0 →
        (mode_w s state).m_output_timer = none ∧ (mode_w s state).m_out = 0x2f)
    rcases mode_w_cases s state with e | e | e
    · rw [e]
      exact ⟨h1, h2, h3⟩
    · rw [e]
      exact ⟨h1, h2, fun hm => absurd hm (show (1 : Nat) ≠ 0 by decide)⟩
    · rw [e]
      exact ⟨show (0x2f : Nat) < 64 by decide, h2, fun _ => ⟨rfl, rfl⟩⟩
  | iface state =>
    show s.m_out < 64 ∧ (if state ≠ 0 then 1 else 0) ≤ 1 ∧
      (s.m_mode = 0 → s.m_output_timer = none ∧ s.m_out = 0x2f)
    refine ⟨h1, ?_, h3⟩
    split_ifs <;> decide
  | timer =>
    show (timer_fire s).m_out < 64 ∧ (timer_fire s).m_interface ≤ 1 ∧
      ((timer_fire s).m_mode = 0 →
        (timer_fire s).m_output_timer = none ∧ (timer_fire s).m_out = 0x2f)
    cases ht : s.m_output_timer with
    | none =>
      rw [timer_fire_idle s ht]
      exact ⟨h1, h2, h3⟩
    | some p =>
      have hf : timer_fire s = step_output { s with m_output_timer := none } p := by
        unfold timer_fire
        rw [ht]
      obtain ⟨k1, k2, _⟩ := step_output_keeps { s with m_output_timer := none } p
      rw [hf, k1, k2]
      refine ⟨?_, h2, fun hm => ?_⟩
      · rcases step_output_frame { s with m_output_timer := none } p with q | q
        · exact q
        · rw [q]
          exact h1
      · have := (h3 hm).1
        rw [ht] at this
        exact absurd this (by simp)

/-- The invariant in every state a sequence of operations reaches from a state
that has it. -/
theorem run_ops_invariant (ops : List Op) : ∀ (s : Dev),
    (s.m_out < 64 ∧ s.m_interface ≤ 1 ∧
      (s.m_mode = 0 → s.m_output_timer = none ∧ s.m_out = 0x2f)) →
    (run_ops s ops).m_out < 64 ∧ (run_ops s ops).m_interface ≤ 1 ∧
      ((run_ops s ops).m_mode = 0 →
        (run_ops s ops).m_output_timer = none ∧ (run_ops s ops).m_out = 0x2f) := by
  induction ops with
  | nil => intro s h; exact h
  | cons o rest ih =>
    intro s h
    exact ih (o.apply s) (op_invariant s o h)

theorem power_on_invariant :
    power_on.m_out < 64 ∧ power_on.m_interface ≤ 1 ∧
      (power_on.m_mode = 0 → power_on.m_output_timer = none ∧ power_on.m_out = 0x2f) :=
  ⟨by decide, by decide, fun h => absurd h (by decide)⟩

/-- C24: in every controller state reachable from power-on (`req = 1`,
`mode = 1`, `interface = 0`, `out = 0x2f`) through `req_w`, `mode_w`,
`interface_w` and timer callbacks (`out_r` changes no member), `out` has bits
6-7 clear, and whenever `mode = 0` (digital) the timer is idle and
`out = 0x2f`. -/
theorem C24_reachable_invariant (ops : List Op) :
    (power_on.m_req = 1 ∧ power_on.m_mode = 1 ∧ power_on.m_interface = 0 ∧
      power_on.m_out = 0x2f) ∧
    (run_ops power_on ops).m_out.testBit 6 = false ∧
    (run_ops power_on ops).m_out.testBit 7 = false ∧
    (run_ops power_on ops).m_out < 64 ∧
    ((run_ops power_on ops).m_mode = 0 →
      (run_ops power_on ops).m_output_timer = none ∧ (run_ops power_on ops).m_out = 0x2f) := by
  obtain ⟨h1, _, h3⟩ := run_ops_invariant ops power_on power_on_invariant
  refine ⟨⟨rfl, rfl, rfl, rfl⟩, ?_, ?_, h1, h3⟩
  · exact Nat.testBit_lt_two_pow (Nat.lt_of_lt_of_le h1 (by decide))
  · exact Nat.testBit_lt_two_pow (Nat.lt_of_lt_of_le h1 (by decide))

end micom_xe_1a_device

/-! ### C23: table indices -/

theorem prom_index_le (sum yscale : Nat) : prom_index sum yscale ≤ 0x1ff := by
  unfold prom_index
  have h1 : sum &&& 0xff ≤ 0xff := Nat.and_le_right
  have h2 : yscale &&& 0x08 ≤ 0x08 := Nat.and_le_right
  have h3 : (sum &&& 0xff) ||| ((yscale &&& 0x08) <<< 5) < 2 ^ 9 := by
    apply Nat.or_lt_two_pow
    · omega
    · rw [Nat.shiftLeft_eq]
      omega
  omega

/-- The loop body of `prepare_sprites` reads the PROM region at `base + offs`
with `offs <= 0x1ff` only. -/
theorem prepare_sprite_gen_proms (c : PrepCtx) (p2 : Nat → Nat)
    (hp : ∀ i, i ≤ 0x1ff → p2 (c.base + i) = c.m_proms (c.base + i)) (v : Video) (n : Nat) :
    prepare_sprite_gen { c with m_proms := p2 } v n = prepare_sprite_gen c v n := by
  have hbit : ∀ ram, sl_bit { c with m_proms := p2 } ram n = sl_bit c ram n := by
    intro ram
    unfold sl_bit prom_bit
    show (p2 (c.base + prom_index (sl_sum c ram n) (ram (n * 8 + 3))) >>> _) &&& 1 = _
    rw [hp _ (prom_index_le _ _)]
  have hoff : ∀ ram, sl_off { c with m_proms := p2 } ram n = sl_off c ram n := by
    intro ram
    unfold sl_off
    rw [hbit]
  unfold prepare_sprite_gen
  rw [hbit, hoff]
  rfl

theorem prepare_upto_proms (c : PrepCtx) (p2 : Nat → Nat)
    (hp : ∀ i, i ≤ 0x1ff → p2 (c.base + i) = c.m_proms (c.base + i)) (v : Video) (k : Nat) :
    prepare_upto { c with m_proms := p2 } v k = prepare_upto c v k := by
  induction k with
  | zero => rfl
  | succ k ih => rw [prepare_upto_succ, prepare_upto_succ, ih, prepare_sprite_gen_proms c p2 hp]

theorem lvl_loop_reads (c : SampleCfg) (rom : Nat → Nat) (level : Nat) (fuel : Nat) :
    ∀ (t : Lvl), ∀ i ∈ (lvl_loop c rom level fuel t).reads,
      i ∈ t.reads ∨ ∃ offs, i = c.rom_index level offs := by
  induction fuel with
  | zero => intro t i hi; exact Or.inl hi
  | succ fuel ih =>
    intro t i hi
    unfold lvl_loop at hi
    by_cases hf : t.frac ≥ c.T
    · rw [if_pos hf] at hi
      rcases ih _ i hi with h | h
      · have h2 : i ∈ t.reads ++ [c.rom_index level (c.offs_of t.offset)] := h
        rw [List.mem_append, List.mem_singleton] at h2
        rcases h2 with h2 | h2
        · exact Or.inl h2
        · exact Or.inr ⟨_, h2⟩
      · exact Or.inr h
    · rw [if_neg hf] at hi
      exact Or.inl hi

theorem sample_upto_reads (c : SampleCfg) (rom : Nat → Nat) (s : Sampler) (k : Nat) (hk : k ≤ 8) :
    ∀ e ∈ (sample_upto c rom s k).fetches,
      e ∈ s.fetches ∨ (e.1 < k ∧ ∃ offs, e.2 = c.rom_index e.1 offs) := by
  induction k with
  | zero => intro e he; exact Or.inl he
  | succ k ih =>
    intro e he
    rw [sample_upto_step c rom s k (by omega)] at he
    by_cases hl : live_at c s k = true
    · rw [if_pos hl] at he
      have he2 : e ∈ (sample_upto c rom s k).fetches ++
          (lvl_run c rom s.info k).reads.map (fun i => (k, i)) := he
      rw [List.mem_append, List.mem_map] at he2
      rcases he2 with h | ⟨i, hi, hie⟩
      · rcases ih (by omega) e h with h2 | ⟨h2, h3⟩
        · exact Or.inl h2
        · exact Or.inr ⟨by omega, h3⟩
      · rcases lvl_loop_reads c rom k c.fuel (lvl_start s.info k) i hi with h2 | ⟨offs, h2⟩
        · exact absurd h2 (List.not_mem_nil i)
        · rw [← hie]
          exact Or.inr ⟨Nat.lt_succ_self k, offs, h2⟩
    · rw [if_neg hl] at he
      rcases ih (by omega) e he with h2 | ⟨h2, h3⟩
      · exact Or.inl h2
      · exact Or.inr ⟨by omega, h3⟩

theorem rom_index_le (b : Board) (l offs : Nat) (hl : l < 8) :
    b.cfg.rom_index l offs ≤ (match b with | .turbo => 0x1ffff | _ => 0x3ffff) := by
  cases b
  · show (l <<< 14) ||| ((offs >>> 1) &&& 0x3fff) ≤ 0x1ffff
    have h1 : (offs >>> 1) &&& 0x3fff ≤ 0x3fff := Nat.and_le_right
    have h3 : (l <<< 14) ||| ((offs >>> 1) &&& 0x3fff) < 2 ^ 17 := by
      apply Nat.or_lt_two_pow
      · rw [Nat.shiftLeft_eq]
        omega
      · omega
    omega
  · show (l <<< 15) ||| ((offs >>> 1) &&& 0x7fff) ≤ 0x3ffff
    have h1 : (offs >>> 1) &&& 0x7fff ≤ 0x7fff := Nat.and_le_right
    have h3 : (l <<< 15) ||| ((offs >>> 1) &&& 0x7fff) < 2 ^ 18 := by
      apply Nat.or_lt_two_pow
      · rw [Nat.shiftLeft_eq]
        omega
      · omega
    omega
  · show (l <<< 15) ||| ((offs >>> 1) &&& 0x7fff) ≤ 0x3ffff
    have h1 : (offs >>> 1) &&& 0x7fff ≤ 0x7fff := Nat.and_le_right
    have h3 : (l <<< 15) ||| ((offs >>> 1) &&& 0x7fff) < 2 ^ 18 := by
      apply Nat.or_lt_two_pow
      · rw [Nat.shiftLeft_eq]
        omega
      · omega
    omega

/-- In `step_output` the index of the `m_data` read is below 6 when the
interface bit is 0 or 1. -/
theorem data_index_lt (param i : Nat) (hi : i ≤ 1)
    (hp : micom_xe_1a_device.presents_nybble param = true) :
    ((param >>> 1) ^^^ i) >>> 1 < micom_xe_1a_device.data_size := by
  unfold micom_xe_1a_device.presents_nybble micom_xe_1a_device.data_size at hp
  rw [Bool.and_eq_true, decide_eq_true_eq, decide_eq_true_eq] at hp
  have h12 : param >>> 1 < 12 := hp.2
  have h := micom_xe_1a_device.xor_one_lt (param >>> 1) i h12 hi
  show ((param >>> 1) ^^^ i) >>> 1 < 6
  rw [Nat.shiftRight_eq_div_pow]
  omega

/-- The nybble `step_output` presents depends on `m_data[0..5]` alone. -/
theorem step_output_data (s : micom_xe_1a_device.Dev) (d2 : Nat → Nat) (param : Nat)
    (hi : s.m_interface ≤ 1) (hd : ∀ i, i < micom_xe_1a_device.data_size → d2 i = s.m_data i) :
    (micom_xe_1a_device.step_output { s with m_data := d2 } param).m_out
      = (micom_xe_1a_device.step_output s param).m_out := by
  unfold micom_xe_1a_device.step_output
  dsimp only
  by_cases hb : BIT param 0 = 0
  · rw [if_pos hb, if_pos hb]
    split_ifs <;> rfl
  · rw [if_neg hb, if_neg hb]
    by_cases h12 : micom_xe_1a_device.data_size * 2 > param >>> 1
    · rw [if_pos h12, if_pos h12, if_pos h12, if_pos h12]
      have hp : micom_xe_1a_device.presents_nybble param = true := by
        unfold micom_xe_1a_device.presents_nybble
        rw [Bool.and_eq_true, decide_eq_true_eq, decide_eq_true_eq]
        exact ⟨hb, h12⟩
      show (BITW (d2 (((param >>> 1) ^^^ s.m_interface) >>> 1)) _ 4 ||| _) % 256 = _
      rw [hd _ (data_index_lt param s.m_interface hi hp)]
    · rw [if_neg h12, if_neg h12]

/-- C23: table indices are in range for every input.  In `prepare_sprites` the
PROM index `(sum AND 0xff) OR ((yscale AND 8) << 5)` is at most `0x1ff`, and the
function reads its PROM at these offsets only; in `get_sprite_bits`, every
sprite-ROM read is for a level 0..7 at an index at most `0x1ffff` on Turbo and
at most `0x3ffff` on Subroc 3D and Buck Rogers, and `sprite_expand` and
`plb_end` are indexed with a value at most 15, below their 16 entries; in
`step_output` the `data[]` index `(step XOR interface) >> 1` is at most 5
whenever it is read, in every controller state reachable from power-on, and the
callback depends on `data[0..5]` alone. -/
theorem C23_table_indices :
    (∀ sum yscale, prom_index sum yscale ≤ 0x1ff) ∧
    (∀ (b : Board) (p p2 xs : Nat → Nat) (y : Nat) (v : Video),
      (∀ i, i ≤ 0x1ff → p2 (b.prom_base + i) = p (b.prom_base + i)) →
      b.prepare_sprites p2 xs y v = b.prepare_sprites p xs y v) ∧
    (∀ (b : Board) (rom : Nat → Nat) (road : Nat) (info : sprite_info),
      ∀ e ∈ (b.get_sprite_bits rom road info).fetches,
        e.1 < 8 ∧ e.2 ≤ (match b with | .turbo => 0x1ffff | _ => 0x3ffff)) ∧
    (∀ pixdata, pixdata &&& 0x0f ≤ 15 ∧ pixdata &&& 0x0f < sprite_expand.length ∧
      pixdata &&& 0x0f < subroc3d_state.plb_end.length ∧
      pixdata &&& 0x0f < buckrog_state.plb_end.length) ∧
    (∀ (ops : List micom_xe_1a_device.Op) (param : Nat),
      micom_xe_1a_device.presents_nybble param = true →
      ((param >>> 1) ^^^ (micom_xe_1a_device.run_ops micom_xe_1a_device.power_on ops).m_interface)
          >>> 1 ≤ 5 ∧
      ∀ d2, (∀ i, i ≤ 5 → d2 i = (micom_xe_1a_device.run_ops micom_xe_1a_device.power_on
          ops).m_data i) →
        (micom_xe_1a_device.step_output
          { micom_xe_1a_device.run_ops micom_xe_1a_device.power_on ops with m_data := d2 }
            param).m_out
        = (micom_xe_1a_device.step_output
            (micom_xe_1a_device.run_ops micom_xe_1a_device.power_on ops) param).m_out) := by
  refine ⟨prom_index_le, ?_, ?_, ?_, ?_⟩
  · intro b p p2 xs y v hp
    rw [board_prepare_sprites_eq, board_prepare_sprites_eq]
    exact prepare_upto_proms (b.ctx p xs y) p2 hp _ 16
  · intro b rom road info e he
    rw [board_get_sprite_bits_eq] at he
    rcases sample_upto_reads b.cfg rom _ 8 (Nat.le_refl 8) e he with h | ⟨h1, offs, h2⟩
    · rw [(sample_entry_info b road info).2.2.2] at h
      exact absurd h (List.not_mem_nil e)
    · refine ⟨h1, ?_⟩
      rw [h2]
      exact rom_index_le b e.1 offs h1
  · intro pixdata
    have h : pixdata &&& 0x0f ≤ 0x0f := Nat.and_le_right
    exact ⟨h, Nat.lt_succ_of_le h, Nat.lt_succ_of_le h, Nat.lt_succ_of_le h⟩
  · intro ops param hp
    have hinv := (micom_xe_1a_device.run_ops_invariant ops micom_xe_1a_device.power_on
      micom_xe_1a_device.power_on_invariant).2.1
    refine ⟨Nat.le_of_lt_succ (data_index_lt param _ hinv hp), fun d2 hd => ?_⟩
    exact step_output_data _ d2 param hinv (fun i hi => hd i (Nat.le_of_lt_succ hi))

/-! ### C26: the enable ALU as a window test -/

set_option maxRecDepth 100000 in
theorem xor_ff_eq (r : Nat) (h : r < 256) : r ^^^ 0xff = 255 - r := by
  have key : ∀ r < 256, r ^^^ 0xff = 255 - r := by decide
  exact key r h

/-- The two carries of the ALU, for bytes `y`, `a`, `b`: `clo` is set when
`y + a` carries out of bit 7, and then `chi` is clear when `y + b + 1` does
not. -/
theorem alu_window (y a b : Nat) (hy : y < 256) (ha : a < 256) (hb : b < 256) :
    (((y + a) >>> 8) &&& 1 = 1 ∧ ((y + a + ((y <<< 8) + (b <<< 8))) >>> 16) &&& 1 = 0) ↔
      (256 ≤ y + a ∧ y + b < 255) := by
  rw [Nat.shiftRight_eq_div_pow, Nat.shiftRight_eq_div_pow, Nat.and_one_is_mod,
    Nat.and_one_is_mod, Nat.shiftLeft_eq, Nat.shiftLeft_eq]
  have e8 : (2 : Nat) ^ 8 = 256 := rfl
  have e16 : (2 : Nat) ^ 16 = 65536 := rfl
  rw [e8, e16]
  have hlo : (y + a) / 256 = if 256 ≤ y + a then 1 else 0 := by
    split_ifs <;> omega
  have hhi : 256 ≤ y + a → (y + a + (y * 256 + b * 256)) / 65536 = if y + b < 255 then 0 else 1 := by
    intro h
    split_ifs <;> omega
  by_cases h1 : 256 ≤ y + a
  · rw [hlo, hhi h1, if_pos h1]
    by_cases h2 : y + b < 255
    · rw [if_pos h2]
      exact ⟨fun _ => ⟨h1, h2⟩, fun _ => ⟨rfl, rfl⟩⟩
    · rw [if_neg h2]
      exact ⟨fun h => absurd h.2 (by decide), fun h => absurd h.2 h2⟩
  · rw [hlo, if_neg h1]
    exact ⟨fun h => absurd h.1 (by decide), fun h => absurd h.1 h1⟩

/-- C26: the enable ALU is a strict window test on the scanline: a Turbo slot
is enabled on scanline `y` exactly when `row0 < y < row1` (unsigned bytes), and
a Subroc 3D or Buck Rogers slot, whose compare bytes are not inverted, exactly
when `255 - row0 < y < 255 - row1`; in particular a slot whose window is empty
is not enabled on any scanline. -/
theorem C26_enable_window (m_proms xs : Nat → Nat) (y : Nat) (v : Video) (n : Nat)
    (hy : y < 256) (hv : ∀ a, v.spriteram a < 256) (hn : n < 16) :
    ((Board.turbo.prepare_sprites m_proms xs y v).m_sprite_info.ve.testBit n = true ↔
      (v.spriteram (n * 8 + 0) < y ∧ y < v.spriteram (n * 8 + 1))) ∧
    ((Board.subroc3d.prepare_sprites m_proms xs y v).m_sprite_info.ve.testBit n = true ↔
      (255 - v.spriteram (n * 8 + 0) < y ∧ y < 255 - v.spriteram (n * 8 + 1))) ∧
    ((Board.buckrog.prepare_sprites m_proms xs y v).m_sprite_info.ve.testBit n = true ↔
      (255 - v.spriteram (n * 8 + 0) < y ∧ y < 255 - v.spriteram (n * 8 + 1))) ∧
    (v.spriteram (n * 8 + 1) ≤ v.spriteram (n * 8 + 0) + 1 →
      (Board.turbo.prepare_sprites m_proms xs y v).m_sprite_info.ve.testBit n = false) ∧
    (v.spriteram (n * 8 + 0) ≤ v.spriteram (n * 8 + 1) + 1 →
      (Board.subroc3d.prepare_sprites m_proms xs y v).m_sprite_info.ve.testBit n = false ∧
      (Board.buckrog.prepare_sprites m_proms xs y v).m_sprite_info.ve.testBit n = false) := by
  have h0 := hv (n * 8 + 0)
  have h1 := hv (n * 8 + 1)
  have ht : (Board.turbo.prepare_sprites m_proms xs y v).m_sprite_info.ve.testBit n = true ↔
      (v.spriteram (n * 8 + 0) < y ∧ y < v.spriteram (n * 8 + 1)) := by
    rw [ve_bit_iff Board.turbo m_proms xs y v n hy hv hn]
    show (((y + (v.spriteram (n * 8 + 0) ^^^ 0xff)) >>> 8) &&& 1 = 1 ∧
      ((y + (v.spriteram (n * 8 + 0) ^^^ 0xff) +
        ((y <<< 8) + ((v.spriteram (n * 8 + 1) ^^^ 0xff) <<< 8))) >>> 16) &&& 1 = 0) ↔ _
    rw [xor_ff_eq _ h0, xor_ff_eq _ h1, alu_window y _ _ hy (by omega) (by omega)]
    constructor
    · intro h
      omega
    · intro h
      omega
  have hs : ∀ b : Board, b ≠ Board.turbo →
      ((b.prepare_sprites m_proms xs y v).m_sprite_info.ve.testBit n = true ↔
        (255 - v.spriteram (n * 8 + 0) < y ∧ y < 255 - v.spriteram (n * 8 + 1))) := by
    intro b hb
    have hinv : b.inv = 0 := by
      cases b
      · exact absurd rfl hb
      · rfl
      · rfl
    rw [ve_bit_iff b m_proms xs y v n hy hv hn, hinv, Nat.xor_zero, Nat.xor_zero,
      alu_window y _ _ hy h0 h1]
    constructor
    · intro h
      omega
    · intro h
      omega
  have hf : ∀ x : Bool, ¬ (x = true) → x = false := by
    intro x hx
    cases x
    · rfl
    · exact absurd rfl hx
  refine ⟨ht, hs Board.subroc3d (by decide), hs Board.buckrog (by decide), fun he => ?_,
    fun he => ⟨?_, ?_⟩⟩
  · apply hf
    rw [ht]
    omega
  · apply hf
    rw [hs Board.subroc3d (by decide)]
    omega
  · apply hf
    rw [hs Board.buckrog (by decide)]
    omega

theorem slot0_row_bytes (a : Nat) : slot0_row_video.spriteram a < 256 := by
  show (if a = 1 then 0xff else if a = 4 then 0x02 else if a = 5 then 0x01
    else if a = 6 then 0xff else 0) < 256
  split_ifs <;> decide

theorem C26_enable_window_witness :
    (1 < 256 ∧ (∀ a, slot0_row_video.spriteram a < 256) ∧ 0 < 16) ∧
    ((Board.turbo.prepare_sprites (fun _ => 0) (fun _ => 0) 1
        slot0_row_video).m_sprite_info.ve.testBit 0 = true ↔
      (slot0_row_video.spriteram (0 * 8 + 0) < 1 ∧ 1 < slot0_row_video.spriteram (0 * 8 + 1))) :=
  ⟨⟨by decide, slot0_row_bytes, by decide⟩,
    (C26_enable_window (fun _ => 0) (fun _ => 0) 1 slot0_row_video 0 (by decide)
      slot0_row_bytes (by decide)).1⟩

/-! ### C27: when the sampler clears a live flag -/

theorem lvl_loop_ended (c : SampleCfg) (rom : Nat → Nat) (level : Nat) (fuel : Nat) :
    ∀ (t : Lvl), (lvl_loop c rom level fuel t).ended
      = (t.ended || (lvl_pixdata c rom level fuel t).any c.is_end) ∧
    (lvl_loop c rom level fuel t).reads.length
      = t.reads.length + (lvl_pixdata c rom level fuel t).length := by
  induction fuel with
  | zero =>
    intro t
    unfold lvl_loop lvl_pixdata
    simp
  | succ fuel ih =>
    intro t
    unfold lvl_loop lvl_pixdata
    by_cases hf : t.frac ≥ c.T
    · rw [if_pos hf, if_pos hf, (ih _).1, (ih _).2]
      constructor
      · show ((t.ended || c.is_end _) || _) = _
        rw [List.any_cons, Bool.or_assoc]
      · show (t.reads ++ [_]).length + _ = _
        rw [List.length_append, List.length_singleton, List.length_cons]
        omega
    · rw [if_neg hf, if_neg hf]
      simp

theorem sample_upto_lst_subset (c : SampleCfg) (rom : Nat → Nat) (s : Sampler) (k : Nat)
    (hk : k ≤ 8) (j : Nat) (h : (sample_upto c rom s k).info.lst.testBit j = true) :
    s.info.lst.testBit j = true := by
  induction k with
  | zero => exact h
  | succ k ih =>
    rw [sample_upto_step c rom s k (by omega)] at h
    by_cases hl : live_at c s k = true
    · rw [if_pos hl] at h
      have h2 : (if (lvl_run c rom s.info k).ended = true then
          clear_bit8 (sample_upto c rom s k).info.lst k
          else (sample_upto c rom s k).info.lst).testBit j = true := h
      by_cases he : (lvl_run c rom s.info k).ended = true
      · rw [if_pos he, testBit_clear_bit8, Bool.and_eq_true, Bool.and_eq_true] at h2
        exact ih (by omega) h2.2.1
      · rw [if_neg he] at h2
        exact ih (by omega) h2
    · rw [if_neg hl] at h
      exact ih (by omega) h

theorem and_0c_of_nibble (p : Nat) : p &&& 0x0c = (p &&& 0x0f) &&& 0x0c := by
  rw [Nat.and_assoc, show (0x0f : Nat) &&& 0x0c = 0x0c by decide]

theorem turbo_is_end_iff (p : Nat) :
    Board.turbo.cfg.is_end p = true ↔ (4 ≤ p &&& 0x0f ∧ p &&& 0x0f ≤ 7) := by
  show ((p &&& 0x0c) == 0x04) = true ↔ _
  rw [and_0c_of_nibble]
  have hq : p &&& 0x0f < 16 := Nat.lt_succ_of_le Nat.and_le_right
  have key : ∀ q < 16, (((q &&& 0x0c) == 0x04) = true ↔ (4 ≤ q ∧ q ≤ 7)) := by decide
  exact key _ hq

theorem nibble_bits (p : Nat) :
    (p.testBit 3 = false ∧ p.testBit 2 = true) ↔ (4 ≤ p &&& 0x0f ∧ p &&& 0x0f ≤ 7) := by
  have h3 : p.testBit 3 = (p &&& 0x0f).testBit 3 := by
    rw [Nat.testBit_and]
    simp [show Nat.testBit 15 3 = true by decide]
  have h2 : p.testBit 2 = (p &&& 0x0f).testBit 2 := by
    rw [Nat.testBit_and]
    simp [show Nat.testBit 15 2 = true by decide]
  rw [h3, h2]
  have hq : p &&& 0x0f < 16 := Nat.lt_succ_of_le Nat.and_le_right
  have key : ∀ q < 16, ((q.testBit 3 = false ∧ q.testBit 2 = true) ↔ (4 ≤ q ∧ q ≤ 7)) := by
    decide
  exact key _ hq

theorem subroc3d_is_end_iff (p : Nat) :
    Board.subroc3d.cfg.is_end p = true ↔ (p &&& 0x0f = 3 ∨ p &&& 0x0f = 15) := by
  show decide (subroc3d_state.plb_end.getD (p &&& 0x0f) 0 &&& 2 ≠ 0) = true ↔ _
  have hq : p &&& 0x0f < 16 := Nat.lt_succ_of_le Nat.and_le_right
  have key : ∀ q < 16, (decide (subroc3d_state.plb_end.getD q 0 &&& 2 ≠ 0) = true ↔
      (q = 3 ∨ q = 15)) := by decide
  exact key _ hq

theorem buckrog_is_end_iff (p : Nat) :
    Board.buckrog.cfg.is_end p = true ↔ p &&& 0x0f = 15 := by
  show decide (buckrog_state.plb_end.getD (p &&& 0x0f) 0 &&& 2 ≠ 0) = true ↔ _
  have hq : p &&& 0x0f < 16 := Nat.lt_succ_of_le Nat.and_le_right
  have key : ∀ q < 16, (decide (buckrog_state.plb_end.getD q 0 &&& 2 ≠ 0) = true ↔
      q = 15) := by decide
  exact key _ hq

/-- C27: `get_sprite_bits` never sets a bit of `lst`; it clears the `lst` bit
of a processed level (live at entry and, on Turbo with `road = 0`, below 3)
exactly when at least one of the bytes fetched for that level during the call
is an end code, and leaves the `lst` bit of every other level as it was.  An end
code is a nibble with bit 3 = 0 and bit 2 = 1 (values 4-7) on Turbo, and a
nibble whose `plb_end` entry has bit 1 set on the other boards: 3 or 15 on
Subroc 3D, 15 only on Buck Rogers.  The bytes fetched for a level are as many as
the sprite-ROM reads the call makes for it. -/
theorem C27_lst_end_code (b : Board) (rom : Nat → Nat) (road : Nat) (info : sprite_info) :
    (∀ j, (b.get_sprite_bits rom road info).info.lst.testBit j = true →
      info.lst.testBit j = true) ∧
    (∀ l, l < 8 → info.lst.testBit l = true → (b = Board.turbo → road = 0 → l < 3) →
      ((b.get_sprite_bits rom road info).info.lst.testBit l = false ↔
        ∃ p ∈ b.fetched rom info l, b.cfg.is_end p = true) ∧
      (b.fetched rom info l).length
        = ((b.get_sprite_bits rom road info).fetches.filter (fun e => e.1 == l)).length) ∧
    (∀ l, l < 8 → ¬ (info.lst.testBit l = true ∧ (b = Board.turbo → road = 0 → l < 3)) →
      (b.get_sprite_bits rom road info).info.lst.testBit l = info.lst.testBit l) ∧
    (∀ p, Board.turbo.cfg.is_end p = true ↔ (p.testBit 3 = false ∧ p.testBit 2 = true)) ∧
    (∀ p, Board.turbo.cfg.is_end p = true ↔ (4 ≤ p &&& 0x0f ∧ p &&& 0x0f ≤ 7)) ∧
    (∀ p, Board.subroc3d.cfg.is_end p = true ↔
      subroc3d_state.plb_end.getD (p &&& 0x0f) 0 &&& 2 ≠ 0) ∧
    (∀ p, Board.subroc3d.cfg.is_end p = true ↔ (p &&& 0x0f = 3 ∨ p &&& 0x0f = 15)) ∧
    (∀ p, Board.buckrog.cfg.is_end p = true ↔
      buckrog_state.plb_end.getD (p &&& 0x0f) 0 &&& 2 ≠ 0) ∧
    (∀ p, Board.buckrog.cfg.is_end p = true ↔ p &&& 0x0f = 15) := by
  have hinfo := (sample_entry_info b road info).1
  have hfet := (sample_entry_info b road info).2.2.2
  refine ⟨fun j hj => ?_, fun l hl hlst hroad => ⟨?_, ?_⟩, fun l hl hn => ?_,
    fun p => (turbo_is_end_iff p).trans (nibble_bits p).symm, turbo_is_end_iff,
    fun p => decide_eq_true_iff, subroc3d_is_end_iff,
    fun p => decide_eq_true_iff, buckrog_is_end_iff⟩
  · rw [board_get_sprite_bits_eq] at hj
    have := sample_upto_lst_subset b.cfg rom _ 8 (Nat.le_refl 8) j hj
    rw [hinfo] at this
    exact this
  · have hlive := board_live_at b road info l hl hlst hroad
    rw [board_get_sprite_bits_eq, sample_upto_lst b.cfg rom _ 8 l (Nat.le_refl 8) hl, hinfo,
      hlst, hlive]
    have h8 : decide (l < 8) = true := decide_eq_true hl
    rw [h8, Bool.true_and, Bool.true_and, Bool.true_and]
    have hend : (lvl_run b.cfg rom info l).ended = (b.fetched rom info l).any b.cfg.is_end := by
      unfold lvl_run Board.fetched
      rw [(lvl_loop_ended b.cfg rom l b.cfg.fuel (lvl_start info l)).1]
      rfl
    rw [hend, Bool.not_eq_false', List.any_eq_true]
  · have hlive := board_live_at b road info l hl hlst hroad
    rw [board_get_sprite_bits_eq, sample_upto_fetches b.cfg rom _ 8 l (Nat.le_refl 8), hfet,
      hinfo, if_pos ⟨hl, hlive⟩, List.filter_nil, List.nil_append, List.length_map]
    unfold lvl_run Board.fetched
    rw [(lvl_loop_ended b.cfg rom l b.cfg.fuel (lvl_start info l)).2]
    show _ = 0 + _
    rw [Nat.zero_add]
  · rw [board_get_sprite_bits_eq, sample_upto_lst b.cfg rom _ 8 l (Nat.le_refl 8) hl, hinfo]
    by_cases hlst : info.lst.testBit l = true
    · have hnl : live_at b.cfg (b.sample_entry road info) l = false := by
        by_cases hb : b = Board.turbo
        · subst hb
          have := turbo_live_at road info l hl
          rw [show Board.turbo.cfg = turbo_state.cfg from rfl, this, hlst, Bool.true_and,
            decide_eq_false_iff_not]
          intro hr
          exact hn ⟨hlst, fun _ => hr⟩
        · exact absurd ⟨hlst, fun h => absurd h hb⟩ hn
      rw [hnl]
      simp
    · have : info.lst.testBit l = false := by
        cases h : info.lst.testBit l
        · rfl
        · exact absurd h hlst
      rw [this]
      rfl

/-! ### C28: the Buck Rogers priority decode -/

theorem log2_byte (r : Nat) (h0 : r ≠ 0) (h : r < 256) :
    Nat.log2 r = if 128 ≤ r then 7 else if 64 ≤ r then 6 else if 32 ≤ r then 5
      else if 16 ≤ r then 4 else if 8 ≤ r then 3 else if 4 ≤ r then 2
      else if 2 ≤ r then 1 else 0 := by
  have key : ∀ k, 2 ^ k ≤ r → r < 2 ^ (k + 1) → Nat.log2 r = k := by
    intro k h1 h2
    have a := (Nat.le_log2 h0).mpr h1
    have b := (Nat.log2_lt h0).mpr h2
    omega
  split_ifs
  · exact key 7 (by omega) (by omega)
  · exact key 6 (by omega) (by omega)
  · exact key 5 (by omega) (by omega)
  · exact key 4 (by omega) (by omega)
  · exact key 3 (by omega) (by omega)
  · exact key 2 (by omega) (by omega)
  · exact key 1 (by omega) (by omega)
  · exact key 0 (by omega) (by omega)

theorem bitswap8_rev_lt (x : Nat) : bitswap8_rev x < 256 := by
  unfold bitswap8_rev
  simp only [BIT_eq_toNat]
  generalize x.testBit 0 = b0
  generalize x.testBit 1 = b1
  generalize x.testBit 2 = b2
  generalize x.testBit 3 = b3
  generalize x.testBit 4 = b4
  generalize x.testBit 5 = b5
  generalize x.testBit 6 = b6
  generalize x.testBit 7 = b7
  revert b0 b1 b2 b3 b4 b5 b6 b7
  decide

/-- The `mux` of Buck Rogers by comparisons on the bit-reversed byte. -/
theorem mux_of_compare (plb : Nat) :
    buckrog_state.mux_of plb =
      if bitswap8_rev plb = 0 then 0x0f
      else if 128 ≤ bitswap8_rev plb then 0 else if 64 ≤ bitswap8_rev plb then 1
      else if 32 ≤ bitswap8_rev plb then 2 else if 16 ≤ bitswap8_rev plb then 3
      else if 8 ≤ bitswap8_rev plb then 4 else if 4 ≤ bitswap8_rev plb then 5
      else if 2 ≤ bitswap8_rev plb then 6 else 7 := by
  have hlt := bitswap8_rev_lt plb
  have hmod : bitswap8_rev plb % 2 ^ 32 = bitswap8_rev plb := Nat.mod_eq_of_lt (by omega)
  unfold buckrog_state.mux_of count_leading_zeros_32
  rw [hmod]
  by_cases h0 : bitswap8_rev plb = 0
  · rw [if_pos h0, if_pos h0]
    rfl
  · rw [if_neg h0, if_neg h0, log2_byte _ h0 hlt]
    split_ifs <;> rfl

set_option maxRecDepth 100000 in
/-- C28: in the Buck Rogers compositor, for every byte `plb`, `mux` equals the
index of the least-significant set bit of `plb` (0..7) when `plb` is non-zero
and `0x0f` when `plb = 0`; so MUX3 (bit 3 of `mux`) is set exactly when no live
sprite asserts PLB, and among asserting levels the lowest-numbered one is
selected. -/
theorem C28_buckrog_mux (plb : Nat) (h : plb < 256) :
    (plb = 0 → buckrog_state.mux_of plb = 0x0f) ∧
    (plb ≠ 0 → buckrog_state.mux_of plb < 8 ∧
      plb.testBit (buckrog_state.mux_of plb) = true ∧
      ∀ j < buckrog_state.mux_of plb, plb.testBit j = false) ∧
    ((buckrog_state.mux_of plb).testBit 3 = true ↔ plb = 0) := by
  rw [mux_of_compare]
  revert plb
  decide

theorem C28_buckrog_mux_witness :
    (0x28 : Nat) < 256 ∧ buckrog_state.mux_of 0x28 < 8 ∧
      (0x28 : Nat).testBit (buckrog_state.mux_of 0x28) = true :=
  ⟨by decide, ((C28_buckrog_mux 0x28 (by decide)).2.1 (by decide)).1,
    ((C28_buckrog_mux 0x28 (by decide)).2.1 (by decide)).2.1⟩

/-! ### C29: the `plb_end` tables against their comment -/

/-- What the Subroc 3D table holds, by the bits of the nibble. -/
theorem subroc3d_plb_end_bits : ∀ n < 16,
    (BIT (subroc3d_state.plb_end.getD n 0) 1 = 1 ↔
      (BIT n 0 = 1 ∧ BIT n 0 = BIT n 1 ∧ BIT n 2 = BIT n 3)) ∧
    (BIT (subroc3d_state.plb_end.getD n 0) 1 = BIT (plb_end_documented n) 1) ∧
    (BIT (subroc3d_state.plb_end.getD n 0) 1 = 1 ↔ (n = 3 ∨ n = 15)) ∧
    (BIT (subroc3d_state.plb_end.getD n 0) 0 = 1 ↔
      ¬ (BIT n 0 = BIT n 1 ∧ BIT n 2 = BIT n 3)) ∧
    (BIT (subroc3d_state.plb_end.getD n 0) 0 = 1 ↔ ¬ (n = 0 ∨ n = 3 ∨ n = 12 ∨ n = 15)) := by
  decide

/-- What the Buck Rogers table holds, by the bits of the nibble. -/
theorem buckrog_plb_end_bits : ∀ n < 16,
    (BIT (buckrog_state.plb_end.getD n 0) 1 = 1 ↔
      (BIT n 0 = 1 ∧ BIT n 1 = 1 ∧ BIT n 2 = 1 ∧ BIT n 3 = 1)) ∧
    (BIT (buckrog_state.plb_end.getD n 0) 1 = 1 ↔ n = 15) ∧
    (BIT (buckrog_state.plb_end.getD n 0) 0 = 1 ↔
      ¬ (BIT n 0 = BIT n 1 ∧ BIT n 1 = BIT n 2 ∧ BIT n 2 = BIT n 3)) ∧
    (BIT (buckrog_state.plb_end.getD n 0) 0 = 1 ↔ ¬ (n = 0 ∨ n = 15)) := by
  decide

/-- The PLB of the comment is set for the nibbles 1 and 13 only; no table entry
has both bits set. -/
theorem plb_end_documented_bits : ∀ n < 16,
    (BIT (plb_end_documented n) 0 = 1 ↔ (n = 1 ∨ n = 13)) ∧
    subroc3d_state.plb_end.getD n 0 < 3 ∧ buckrog_state.plb_end.getD n 0 < 3 := by
  decide

/-- C29: the `plb_end` tables do not hold the logic the comment above them
documents.  For the nibble 2 (CDB alone) the comment gives END = 0 and PLB = 0
(entry 0) and both tables hold 1.  For the nibble 3 the comment gives END = 1,
PLB = 0 (entry 2): the Subroc 3D table holds 2, the Buck Rogers table holds 1,
so on Buck Rogers the end test of `get_sprite_bits` fails for this nibble where
it succeeds on Subroc 3D.  The Subroc 3D table agrees with the comment at the
nibbles 0, 1, 3, 12, 13, 15 only, the Buck Rogers table at 0, 1, 13, 15 only. -/
theorem C29_plb_end_contradicts_comment :
    (plb_end_documented 2 = 0 ∧ subroc3d_state.plb_end.getD 2 0 = 1 ∧
      buckrog_state.plb_end.getD 2 0 = 1) ∧
    (plb_end_documented 3 = 2 ∧ subroc3d_state.plb_end.getD 3 0 = 2 ∧
      buckrog_state.plb_end.getD 3 0 = 1) ∧
    (Board.subroc3d.cfg.is_end 3 = true ∧ Board.buckrog.cfg.is_end 3 = false) ∧
    (∀ n < 16, (subroc3d_state.plb_end.getD n 0 = plb_end_documented n ↔
      (n = 0 ∨ n = 1 ∨ n = 3 ∨ n = 12 ∨ n = 13 ∨ n = 15))) ∧
    (∀ n < 16, (buckrog_state.plb_end.getD n 0 = plb_end_documented n ↔
      (n = 0 ∨ n = 1 ∨ n = 13 ∨ n = 15))) := by
  decide

/-! ### C30: sprite expansion and CD extraction -/

theorem latch_value_lt (p l : Nat) : latch_value p l < 2 ^ 32 := by
  unfold latch_value
  exact Nat.mod_lt _ (by decide)

theorem latch_value_testBit (n : Nat → Nat) (hn : ∀ l, n l < 16) (l : Nat) (hl : l < 8)
    (k : Nat) (hk : k < 32) :
    (latch_value (n l) l).testBit k = (decide (k % 8 = l) && (n l).testBit (k / 8)) :=
  latch_value_bits (n l) (hn l) l hl k hk

/-- Bit `k` of the expanded sprite bits is bit `k / 8` of the nibble of level
`k % 8`. -/
theorem expanded_testBit (n : Nat → Nat) (hn : ∀ l, n l < 16) (k : Nat) (hk : k < 32) :
    (expanded n).testBit k = (n (k % 8)).testBit (k / 8) := by
  have e : expanded n = 0 ||| latch_value (n 0) 0 ||| latch_value (n 1) 1 |||
      latch_value (n 2) 2 ||| latch_value (n 3) 3 ||| latch_value (n 4) 4 |||
      latch_value (n 5) 5 ||| latch_value (n 6) 6 ||| latch_value (n 7) 7 := rfl
  rw [e]
  simp only [Nat.testBit_or, Nat.zero_testBit, Bool.false_or]
  rw [latch_value_testBit n hn 0 (by decide) k hk, latch_value_testBit n hn 1 (by decide) k hk,
    latch_value_testBit n hn 2 (by decide) k hk, latch_value_testBit n hn 3 (by decide) k hk,
    latch_value_testBit n hn 4 (by decide) k hk, latch_value_testBit n hn 5 (by decide) k hk,
    latch_value_testBit n hn 6 (by decide) k hk, latch_value_testBit n hn 7 (by decide) k hk]
  have hm : k % 8 < 8 := Nat.mod_lt _ (by decide)
  generalize k % 8 = m at hm
  generalize k / 8 = q
  interval_cases m <;> simp

theorem mask_testBit (k : Nat) :
    (0x01010101 : Nat).testBit k = decide (k = 0 ∨ k = 8 ∨ k = 16 ∨ k = 24) := by
  have e : (0x01010101 : Nat) = 2 ^ 0 ||| 2 ^ 8 ||| 2 ^ 16 ||| 2 ^ 24 := by decide
  rw [e]
  simp only [Nat.testBit_or, Nat.testBit_two_pow]
  by_cases h0 : k = 0 <;> by_cases h8 : k = 8 <;> by_cases h16 : k = 16 <;>
    by_cases h24 : k = 24 <;> simp [h0, h8, h16, h24, eq_comm]

/-- The bits of the extracted `cd`: bit `i` (below 4) is bit `8 i + m` of the
sprite bits, with `m = mux & 7`; bits 4-7 are clear. -/
theorem cd_of_testBit (sprbits mux i : Nat) :
    (cd_of sprbits mux).testBit i =
      (decide (i < 4) && sprbits.testBit ((mux &&& 0x07) + 8 * i)) := by
  unfold cd_of
  dsimp only
  rw [micom_xe_1a_device.testBit_mod_256]
  simp only [Nat.testBit_or, Nat.testBit_shiftRight, Nat.testBit_and, mask_testBit]
  by_cases h8 : i < 8
  · interval_cases i <;> simp
  · have h4 : ¬ i < 4 := by omega
    simp [h8, h4]

/-- C30: sprite expansion and CD extraction are inverse: for any eight nibbles
`n 0` .. `n 7`, if `sprbits` is the OR over `l = 0..7` of
`sprite_expand[n l] << l`, then for every `mux` value the Subroc 3D / Buck
Rogers extraction `cd = fold((sprbits >> (mux & 7)) & 0x01010101)`, truncated
to a byte, equals `n (mux & 7)` exactly: the compositor recovers the selected
level's pixel nibble with no contribution from any other level. -/
theorem C30_cd_inverse (n : Nat → Nat) (hn : ∀ l, n l < 16) (mux : Nat) :
    cd_of (expanded n) mux = n (mux &&& 0x07) := by
  have hm : mux &&& 0x07 < 8 := Nat.lt_succ_of_le Nat.and_le_right
  apply Nat.eq_of_testBit_eq
  intro i
  rw [cd_of_testBit]
  by_cases h4 : i < 4
  · have hk : (mux &&& 0x07) + 8 * i < 32 := by omega
    rw [expanded_testBit n hn _ hk]
    have e1 : ((mux &&& 0x07) + 8 * i) % 8 = mux &&& 0x07 := by omega
    have e2 : ((mux &&& 0x07) + 8 * i) / 8 = i := by omega
    rw [e1, e2]
    simp [h4]
  · have hlt : n (mux &&& 0x07) < 2 ^ i :=
      Nat.lt_of_lt_of_le (hn _) (Nat.pow_le_pow_right (by decide) (by omega) : 2 ^ 4 ≤ 2 ^ i)
    rw [Nat.testBit_lt_two_pow hlt]
    simp [h4]

theorem ramp_nibbles_lt (l : Nat) : ramp_nibbles l < 16 := Nat.mod_lt _ (by decide)

theorem C30_cd_inverse_witness :
    (∀ l, ramp_nibbles l < 16) ∧ cd_of (expanded ramp_nibbles) 0x0d = 8 :=
  ⟨ramp_nibbles_lt, (C30_cd_inverse ramp_nibbles ramp_nibbles_lt 0x0d).trans (by decide)⟩

/-! ### C31: the Subroc 3D compositor with MPLB = 0 -/

/-- The compositor stage of Subroc 3D in terms of its `mux`. -/
theorem subroc3d_mix_dest (e : Env) (g : subroc3d_state.Gathered) (sprbits plb pos : Nat)
    (s : Screen) :
    subroc3d_state.mix e g sprbits plb pos s =
      { s with dest := (store s.dest pos
          (e.m_proms (0x000 +
            (((if subroc3d_state.mux_of e g plb &&& 0x08 ≠ 0
                then cd_of sprbits (subroc3d_state.mux_of e g plb) else g.forebits) &&& 0x0f) |||
              ((subroc3d_state.mux_of e g plb &&& 0x08) <<< 1) ||| (e.m_col <<< 5))) % 2 ^ 16)) } :=
  rfl

theorem subroc3d_gather_fields (e : Env) (xx : Nat) :
    (subroc3d_state.gather e xx).forebits
      = e.m_proms (0x200 + subroc3d_state.foreraw_of e xx) % 256 ∧
    (subroc3d_state.gather e xx).mplb
      = (if (subroc3d_state.foreraw_of e xx &&& 0x80) ≠ 0 ∨
            ((subroc3d_state.gather e xx).forebits &&& 0x0f) = 0 then 1 else 0) :=
  ⟨rfl, rfl⟩

/-- C31: in the Subroc 3D compositor, when MPLB = 0 the MUX outputs are
grounded (`mux = 0`) and the output pixel is
`pr1419[(forebits & 0x0f) | (col << 5)]`, independent of the sprite bits and of
`plb`: the stage leaves the same machine state for any sprite bits and `plb`.
MPLB is 0 exactly when bit 7 of the raw foreground pixel is clear and the low
four bits of `forebits` are non-zero. -/
theorem C31_subroc3d_mplb_grounded (e : Env) (g : subroc3d_state.Gathered)
    (sprbits plb pos : Nat) (s : Screen) (hp : ∀ i, e.m_proms i < 256) (hm : g.mplb = 0) :
    subroc3d_state.mux_of e g plb = 0 ∧
    (subroc3d_state.mix e g sprbits plb pos s).dest pos
      = e.m_proms (0x000 + ((g.forebits &&& 0x0f) ||| (e.m_col <<< 5))) ∧
    (∀ sprbits2 plb2, subroc3d_state.mix e g sprbits2 plb2 pos s
      = subroc3d_state.mix e g sprbits plb pos s) ∧
    (∀ xx, (subroc3d_state.gather e xx).mplb = 0 ↔
      ((subroc3d_state.foreraw_of e xx).testBit 7 = false ∧
        (subroc3d_state.gather e xx).forebits &&& 0x0f ≠ 0)) := by
  have hmux : ∀ pl, subroc3d_state.mux_of e g pl = 0 := by
    intro pl
    unfold subroc3d_state.mux_of
    dsimp only
    rw [hm, if_neg (by decide)]
  have hmix : ∀ sb pl, subroc3d_state.mix e g sb pl pos s =
      { s with dest := (store s.dest pos
          (e.m_proms (0x000 + ((g.forebits &&& 0x0f) ||| (e.m_col <<< 5))) % 2 ^ 16)) } := by
    intro sb pl
    rw [subroc3d_mix_dest, hmux pl]
    have z : (0 : Nat) &&& 0x08 = 0 := rfl
    rw [z, if_neg (by decide), Nat.zero_shiftLeft, Nat.or_zero]
  refine ⟨hmux plb, ?_, fun sb2 pl2 => ?_, fun xx => ?_⟩
  · rw [hmix]
    show store s.dest pos _ pos = _
    rw [store_same]
    exact Nat.mod_eq_of_lt (Nat.lt_trans (hp _) (by decide))
  · rw [hmix, hmix]
  · rw [(subroc3d_gather_fields e xx).2]
    have h7 := and_pow_eq_zero_iff (subroc3d_state.foreraw_of e xx) 7
    have e7 : (2 : Nat) ^ 7 = 0x80 := rfl
    rw [e7] at h7
    constructor
    · intro h
      by_cases hc : (subroc3d_state.foreraw_of e xx &&& 0x80) ≠ 0 ∨
          ((subroc3d_state.gather e xx).forebits &&& 0x0f) = 0
      · rw [if_pos hc] at h
        exact absurd h (by decide)
      · rw [not_or, not_not] at hc
        exact ⟨h7.mp hc.1, hc.2⟩
    · intro h
      rw [if_neg]
      rw [not_or, not_not]
      exact ⟨h7.mpr h.1, h.2⟩

theorem C31_subroc3d_mplb_grounded_witness :
    ((∀ i, ones_env.m_proms i < 256) ∧ (subroc3d_state.gather ones_env 0).mplb = 0) ∧
    subroc3d_state.mux_of ones_env (subroc3d_state.gather ones_env 0) 0xff = 0 ∧
    (subroc3d_state.mix ones_env (subroc3d_state.gather ones_env 0) 0x01010101 0xff 0
      blank_screen).dest 0 = 1 :=
  ⟨⟨fun _ => ones_env_byte, by decide⟩,
    (C31_subroc3d_mplb_grounded ones_env (subroc3d_state.gather ones_env 0) 0x01010101 0xff 0
      blank_screen (fun _ => ones_env_byte) (by decide)).1,
    (C31_subroc3d_mplb_grounded ones_env (subroc3d_state.gather ones_env 0) 0x01010101 0xff 0
      blank_screen (fun _ => ones_env_byte) (by decide)).2.1.trans (by decide)⟩

/-! ### C32: the range of the pixel values -/

theorem F_fore_byte (f : Nat) : F_fore f < 256 := by
  unfold F_fore
  have h1 : f &&& 0x3c ≤ 0x3c := Nat.and_le_right
  have h2 : f &&& 0x06 ≤ 0x06 := Nat.and_le_right
  have h3 : f &&& 0x01 ≤ 0x01 := Nat.and_le_right
  apply Nat.or_lt_two_pow (n := 8)
  · apply Nat.or_lt_two_pow
    · rw [Nat.shiftLeft_eq]; omega
    · rw [Nat.shiftLeft_eq]; omega
  · omega

theorem G_back_range (p : Nat) :
    G_back p < 1024 ∧ (G_back p).testBit 0 = false ∧ (G_back p).testBit 1 = false := by
  unfold G_back
  have h1 : p &&& 0xc0 ≤ 0xc0 := Nat.and_le_right
  have h2 : p &&& 0x30 ≤ 0x30 := Nat.and_le_right
  have h3 : p &&& 0x0f ≤ 0x0f := Nat.and_le_right
  refine ⟨?_, ?_, ?_⟩
  · apply Nat.or_lt_two_pow (n := 10)
    · apply Nat.or_lt_two_pow
      · omega
      · rw [Nat.shiftLeft_eq]; omega
    · rw [Nat.shiftLeft_eq]; omega
  · simp only [Nat.testBit_or, Nat.testBit_and, Nat.testBit_shiftLeft]
    simp [show Nat.testBit 0xc0 0 = false by decide]
  · simp only [Nat.testBit_or, Nat.testBit_and, Nat.testBit_shiftLeft]
    simp [show Nat.testBit 0xc0 1 = false by decide]

theorem buckrog_mix_dest (e : Env) (g : buckrog_state.Gathered) (sprbits plb y pos : Nat)
    (s : Screen) :
    (buckrog_state.mix e g sprbits plb y pos s).dest pos
      = buckrog_state.palbits_of e g sprbits plb y % 2 ^ 16 := by
  unfold buckrog_state.mix
  exact store_same _ _ _

theorem turbo_mix_dest (e : Env) (g : turbo_state.Gathered) (sprbits pos : Nat) (s : Screen) :
    ∃ i, (turbo_state.mix e g sprbits pos s).dest pos = e.m_proms (0x600 + i) % 2 ^ 16 := by
  unfold turbo_state.mix
  exact ⟨_, store_same _ _ _⟩

theorem subroc3d_mix_prom (e : Env) (g : subroc3d_state.Gathered) (sprbits plb pos : Nat)
    (s : Screen) :
    ∃ i, (subroc3d_state.mix e g sprbits plb pos s).dest pos = e.m_proms (0x000 + i) % 2 ^ 16 := by
  unfold subroc3d_state.mix
  exact ⟨_, store_same _ _ _⟩

/-- C32: every pixel value the Buck Rogers compositor writes is below 1024, the
number of entries its palette defines, and only the background-ROM fallback
branch (bits 7 and 6 of `forebits` set, MUX3 set, no star) can produce a value
of 256 or more; the values of that branch always have bits 0-1 clear.  Every
pixel value the Turbo and Subroc 3D compositors write is a PROM byte and so
below 256, the size of their palettes. -/
theorem C32_pixel_value_range (e : Env) (sprbits plb y pos : Nat) (s : Screen)
    (hp : ∀ i, e.m_proms i < 256) :
    (∀ g, (buckrog_state.mix e g sprbits plb y pos s).dest pos < buckrog_state.palette_size ∧
      (256 ≤ (buckrog_state.mix e g sprbits plb y pos s).dest pos →
        g.forebits.testBit 7 = true ∧ (buckrog_state.mux_of plb).testBit 3 = true ∧
          g.forebits.testBit 6 = true ∧ g.star = 0) ∧
      ((g.forebits.testBit 7 = true ∧ (buckrog_state.mux_of plb).testBit 3 = true ∧
          g.forebits.testBit 6 = true ∧ g.star = 0) →
        (buckrog_state.mix e g sprbits plb y pos s).dest pos
          = G_back (e.m_bgcolorrom (y ||| ((e.m_mov &&& 0x1f) <<< 8))) ∧
        ((buckrog_state.mix e g sprbits plb y pos s).dest pos).testBit 0 = false ∧
        ((buckrog_state.mix e g sprbits plb y pos s).dest pos).testBit 1 = false)) ∧
    (∀ g, (turbo_state.mix e g sprbits pos s).dest pos < turbo_state.palette_size ∧
      ∃ i, (turbo_state.mix e g sprbits pos s).dest pos = e.m_proms (0x600 + i)) ∧
    (∀ g, (subroc3d_state.mix e g sprbits plb pos s).dest pos < subroc3d_state.palette_size ∧
      ∃ i, (subroc3d_state.mix e g sprbits plb pos s).dest pos = e.m_proms (0x000 + i)) ∧
    buckrog_state.palette_size = 1024 ∧ turbo_state.palette_size = 256 ∧
    subroc3d_state.palette_size = 256 := by
  have hmod : ∀ i, e.m_proms i % 2 ^ 16 = e.m_proms i := fun i =>
    Nat.mod_eq_of_lt (Nat.lt_trans (hp i) (by decide))
  refine ⟨fun g => ?_, fun g => ?_, fun g => ?_, rfl, rfl, rfl⟩
  · rw [buckrog_mix_dest, palbits_of_cascade]
    by_cases h7 : g.forebits.testBit 7 = false
    · rw [if_pos h7, Nat.mod_eq_of_lt (F_fore_lt _)]
      have hb := F_fore_byte g.forebits
      refine ⟨Nat.lt_trans hb (by decide), fun h => absurd hb (by omega), fun h => ?_⟩
      rw [h.1] at h7
      exact absurd h7 (by decide)
    · rw [if_neg h7]
      by_cases h3 : (buckrog_state.mux_of plb).testBit 3 = false
      · rw [if_pos h3, hmod]
        have hb := hp (0x700 + ((cd_of sprbits (buckrog_state.mux_of plb) &&& 0x0f) |||
          ((buckrog_state.mux_of plb &&& 0x07) <<< 4) ||| ((e.m_obch &&& 0x07) <<< 7)))
        refine ⟨Nat.lt_trans hb (by decide), fun h => absurd hb (by omega), fun h => ?_⟩
        rw [h.2.1] at h3
        exact absurd h3 (by decide)
      · rw [if_neg h3]
        by_cases h6 : g.forebits.testBit 6 = false
        · rw [if_pos h6, Nat.mod_eq_of_lt (F_fore_lt _)]
          have hb := F_fore_byte g.forebits
          refine ⟨Nat.lt_trans hb (by decide), fun h => absurd hb (by omega), fun h => ?_⟩
          rw [h.2.2.1] at h6
          exact absurd h6 (by decide)
        · rw [if_neg h6]
          by_cases hs : g.star ≠ 0
          · rw [if_pos hs]
            refine ⟨by decide, fun h => absurd h (by decide), fun h => absurd h.2.2.2 hs⟩
          · rw [if_neg hs, Nat.mod_eq_of_lt (G_back_lt _)]
            obtain ⟨r1, r2, r3⟩ := G_back_range (e.m_bgcolorrom (y ||| ((e.m_mov &&& 0x1f) <<< 8)))
            have t7 : g.forebits.testBit 7 = true := by
              cases hh : g.forebits.testBit 7
              · exact absurd hh h7
              · rfl
            have t3 : (buckrog_state.mux_of plb).testBit 3 = true := by
              cases hh : (buckrog_state.mux_of plb).testBit 3
              · exact absurd hh h3
              · rfl
            have t6 : g.forebits.testBit 6 = true := by
              cases hh : g.forebits.testBit 6
              · exact absurd hh h6
              · rfl
            exact ⟨r1, fun _ => ⟨t7, t3, t6, not_not.mp hs⟩, fun _ => ⟨rfl, r2, r3⟩⟩
  · obtain ⟨i, hi⟩ := turbo_mix_dest e g sprbits pos s
    rw [hmod] at hi
    exact ⟨by rw [hi]; exact hp _, i, hi⟩
  · obtain ⟨i, hi⟩ := subroc3d_mix_prom e g sprbits plb pos s
    rw [hmod] at hi
    exact ⟨by rw [hi]; exact hp _, i, hi⟩

theorem bright_env_byte (i : Nat) : bright_env.m_proms i < 256 := by
  show (1 : Nat) < 256
  decide

theorem C32_pixel_value_range_witness :
    (∀ i, bright_env.m_proms i < 256) ∧
    (buckrog_state.mix bright_env buckrog_state.fallback_gathered 0 0 0 0 blank_screen).dest 0
      = 0x3fc ∧
    (buckrog_state.mix bright_env buckrog_state.fallback_gathered 0 0 0 0 blank_screen).dest 0
      < 1024 :=
  ⟨bright_env_byte,
    (((C32_pixel_value_range bright_env 0 0 0 0 blank_screen (bright_env_byte)).1
      buckrog_state.fallback_gathered).2.2 (by decide)).1.trans (by decide),
    ((C32_pixel_value_range bright_env 0 0 0 0 blank_screen (bright_env_byte)).1
      buckrog_state.fallback_gathered).1⟩
